import Mathlib

/-!
# The ASCII clock: spin driver, frame compositor and particle simulator

A shallow embedding of `main.go`.

* `float64` values are elements of an ordered field `K` with a floor function
  (exact arithmetic; `ℚ` for evaluation, `ℝ` for the statements about angles).
  The functions of Go's `math` package that the program calls are a parameter,
  `GoMath K`.
* A slice of slices is a `List (List α)`. Indexing is `index2`/`assign2`, which
  return `none` where Go panics with an index out of range, so every function
  that indexes returns an `Option`.
* `time.Duration` is an `Int` number of nanoseconds.
* Printing is kept as the list of frames written.
-/

namespace Clock

set_option linter.unusedSectionVars false

/-! ## Constants -/

def width : Int := 80
def height : Int := 24
def centerX : Int := width / 2
def centerY : Int := height / 2

/-- One millisecond as a `time.Duration` (nanoseconds). -/
def millisecond : Int := 1000000
def maxSpeed : Int := 20 * millisecond
def initialSpeed : Int := 100 * millisecond
def acceleration : Int := 20 * millisecond

/-! ## Numbers -/

/-- The functions and constants of Go's `math` package used by the program. -/
structure GoMath (K : Type) where
  pi : K
  sqrt : K → K
  sin : K → K
  cos : K → K

/-- The `math` package over the real numbers: the exact values that Go's
`math.Pi`, `math.Sqrt`, `math.Sin` and `math.Cos` approximate in `float64`.
Statements made with it hold of the program where the conversions to `int`
that follow are not decided by rounding error. `drawHand` rounds before it
converts; `drawMarkers` truncates `40 + 9·sin(angle)·2`, whose exact value is
an integer at hours 1, 3, 5, 6, 7, 9, 11 and 12, so there the column written by
the program depends on the error of the `float64` computation and is not
settled by this instance. -/
noncomputable def realMath : GoMath ℝ where
  pi := Real.pi
  sqrt := Real.sqrt
  sin := Real.sin
  cos := Real.cos

section Numbers

variable {K : Type} [LinearOrderedField K] [FloorRing K]

/-- Go's conversion `int(f)` of a float: the fractional part is discarded
(truncation toward zero). -/
def goInt (f : K) : Int :=
  if 0 ≤ f then ⌊f⌋ else ⌈f⌉

/-- Go's `math.Round`: the nearest integer, halves rounded away from zero. -/
def goRound (f : K) : K :=
  if 0 ≤ f then ((⌊f + 1 / 2⌋ : Int) : K) else ((⌈f - 1 / 2⌉ : Int) : K)

end Numbers

/-! ## Slices of slices -/

abbrev Grid := List (List Char)
abbrev Ground := List (List Bool)

/-- The allocation `make([][]T, height)` with every row `make([]T, width)`
filled with `v`. -/
def makeGrid {α : Type} (v : α) : List (List α) :=
  List.replicate height.toNat (List.replicate width.toNat v)

/-- The read `g[y][x]`; `none` is the index-out-of-range panic. -/
def index2 {α : Type} (g : List (List α)) (y x : Int) : Option α :=
  if 0 ≤ y ∧ 0 ≤ x then
    match g[y.toNat]? with
    | none => none
    | some row => row[x.toNat]?
  else none

/-- The write `g[y][x] = v`; `none` is the index-out-of-range panic. -/
def assign2 {α : Type} (g : List (List α)) (y x : Int) (v : α) : Option (List (List α)) :=
  if 0 ≤ y ∧ 0 ≤ x then
    match g[y.toNat]? with
    | none => none
    | some row =>
      if x.toNat < row.length then some (g.set y.toNat (row.set x.toNat v)) else none
  else none

/-- The loop `for i := lo; i < hi; i++` threading a state through a body that
may panic. -/
def forRange {σ : Type} (lo hi : Int) (body : σ → Int → Option σ) (init : σ) : Option σ :=
  ((List.range (hi - lo).toNat).map (fun (k : Nat) => lo + (k : Int))).foldlM body init

/-- A slice of slices with the dimensions of the screen: 24 rows of 80 cells. -/
def Shaped {α : Type} (g : List (List α)) : Prop :=
  g.length = 24 ∧ ∀ row ∈ g, row.length = 80

/-- The number of cells of a slice of slices equal to `v`. -/
def countCells {α : Type} [BEq α] (v : α) (g : List (List α)) : Nat :=
  (g.map (fun row => row.count v)).sum

/-- The number of `true` cells of a ground. -/
def countTrue (g : Ground) : Nat :=
  countCells true g

/-! ## Rendering primitives -/

section Render

variable {K : Type} [LinearOrderedField K] [FloorRing K]

def drawCircle (m : GoMath K) (grid : Grid) : Option Grid :=
  let radius : K := ((height / 2 : Int) : K) - 2
  forRange 0 height (fun grid y =>
    forRange 0 width (fun grid x =>
      let dx : K := ((x - centerX : Int) : K) * (1 / 2)
      let dy : K := ((y - centerY : Int) : K)
      let distance := m.sqrt (dx * dx + dy * dy)
      if distance ≥ radius - 1 / 2 ∧ distance ≤ radius + 1 / 2 then
        assign2 grid y x '*'
      else some grid) grid) grid

/-- The string `fmt.Sprintf("%d", hour)` as its list of characters. -/
def sprintfD (hour : Int) : List Char :=
  (toString hour).toList

def drawMarkers (m : GoMath K) (grid : Grid) : Option Grid :=
  forRange 1 (12 + 1) (fun grid hour =>
    let angle : K := (hour : K) * 30 * (m.pi / 180)
    let x := goInt (((centerX : Int) : K) + (((height / 2 : Int) : K) - 3) * m.sin angle * 2)
    let y := goInt (((centerY : Int) : K) - (((height / 2 : Int) : K) - 3) * m.cos angle)
    if x ≥ 0 ∧ x < width ∧ y ≥ 0 ∧ y < height then
      let hourStr := sprintfD hour
      if hourStr.length = 1 then
        (hourStr[0]?).bind (fun c => assign2 grid y x c)
      else if hourStr.length = 2 then
        if x - 1 ≥ 0 ∧ x < width then
          (hourStr[0]?).bind (fun c0 =>
            (assign2 grid y (x - 1) c0).bind (fun grid =>
              (hourStr[1]?).bind (fun c1 => assign2 grid y x c1)))
        else some grid
      else some grid
    else some grid) grid

/-- The cell that `drawHand` computes for step `i` of a hand at `angle`. -/
def handCell (m : GoMath K) (angle : K) (i : Int) : Int × Int :=
  (goInt (goRound (((centerX : Int) : K) + (i : K) * m.sin angle * 2)),
   goInt (goRound (((centerY : Int) : K) - (i : K) * m.cos angle)))

def drawHand (m : GoMath K) (grid : Grid) (angle : K) (length : Int) (symbol : Char) :
    Option Grid :=
  forRange 1 (length + 1) (fun grid i =>
    let x := (handCell m angle i).1
    let y := (handCell m angle i).2
    if x ≥ 0 ∧ x < width ∧ y ≥ 0 ∧ y < height then
      assign2 grid y x symbol
    else some grid) grid

/-- The frame both `main` and `breakApartAnimation` compose: circle, markers,
hour hand, minute hand, on a fresh blank grid. -/
def composeFrame (m : GoMath K) (minuteAngle hourAngle : K) : Option Grid :=
  (drawCircle m (makeGrid ' ')).bind (fun grid =>
    (drawMarkers m grid).bind (fun grid =>
      (drawHand m grid hourAngle (height / 4) 'h').bind (fun grid =>
        drawHand m grid minuteAngle (height / 2 - 4) 'm')))

end Render

/-! ## Pieces and the particle simulator -/

structure Piece (K : Type) where
  x : K
  y : K
  vx : K
  vy : K
  char : Char
  stopped : Bool

/-- What one tick of `simulatePieces` threads through its loop over the pieces:
the ground, the frame being drawn and the `allStopped` flag. -/
structure TickState where
  ground : Ground
  grid : Grid
  allStopped : Bool

/-- How `simulatePieces` ends: the loop exits after `ticks` iterations, the
program panics, or the iterations allowed are used up. -/
inductive SimResult (K : Type) where
  | exited (ticks : Nat) (pieces : List (Piece K)) (ground : Ground)
  | panicked
  | running

section Simulator

variable {K : Type} [LinearOrderedField K] [FloorRing K]

/-- The body of the inner loop of the scan in `breakApartAnimation` (lines
161-179): a piece is appended for a non-blank cell. -/
def scanCell (m : GoMath K) (grid : Grid) (y : Int) (pieces : List (Piece K)) (x : Int) :
    Option (List (Piece K)) :=
  (index2 grid y x).bind (fun c =>
    if c ≠ ' ' then
      let dx : K := ((x - centerX : Int) : K)
      let dy : K := ((y - centerY : Int) : K)
      let distance := m.sqrt (dx * dx + dy * dy)
      let distance := if distance = 0 then 1 else distance
      let speed : K := 3 / 2
      let vx := (dx / distance) * speed
      let vy := (dy / distance) * speed
      some (pieces ++ [{ x := (x : K), y := (y : K), vx := vx, vy := vy,
                         char := c, stopped := false }])
    else some pieces)

/-- The pieces scanned out of a composed frame, lines 159-181 of
`breakApartAnimation`: the cells are visited row by row. -/
def scanPieces (m : GoMath K) (grid : Grid) : Option (List (Piece K)) :=
  forRange 0 height (fun pieces y => forRange 0 width (scanCell m grid y) pieces) []

def gravity : K := 2 / 10

/-- The integer cell `(x, y)` and the horizontal velocity and candidate `newX`
that lines 214-226 compute for an unstopped piece (wall reflection included);
the candidate `newY` is `p.y + (p.vy + gravity)`. -/
def candidate (p : Piece K) : Int × Int × K × K :=
  let vy := p.vy + gravity
  let newX := p.x + p.vx
  let newY := p.y + vy
  let x := goInt newX
  let y := goInt newY
  if x < 0 ∨ x ≥ width then
    let vx := -p.vx
    let newX := p.x + vx
    (goInt newX, y, vx, newX)
  else (x, y, p.vx, newX)

/-- The body of the loop `for i := range pieces` (lines 205-241) for one piece:
the piece as mutated and the ground, frame and flag after it. -/
def stepPiece (p : Piece K) (st : TickState) : Option (Piece K × TickState) :=
  if p.stopped then
    let x := goInt p.x
    let y := goInt p.y
    if x ≥ 0 ∧ x < width ∧ y ≥ 0 ∧ y < height then
      (assign2 st.grid y x p.char).bind (fun grid => some (p, { st with grid := grid }))
    else some (p, st)
  else
    let vy := p.vy + gravity
    let newY := p.y + vy
    let x := (candidate p).1
    let y := (candidate p).2.1
    let vx := (candidate p).2.2.1
    let newX := (candidate p).2.2.2
    let settles : Option Bool :=
      if y ≥ height - 1 then some true
      else if y + 1 ≥ 0 ∧ y + 1 < height then index2 st.ground (y + 1) x
      else some false
    settles.bind (fun b =>
      if b then
        let p1 : Piece K := { p with vx := vx, vy := vy, stopped := true }
        if y ≥ 0 ∧ y < height ∧ x ≥ 0 ∧ x < width then
          (assign2 st.ground y x true).bind (fun ground =>
            (assign2 st.grid y x p.char).bind (fun grid =>
              some (p1, { st with ground := ground, grid := grid })))
        else some (p1, st)
      else
        let p1 : Piece K := { p with x := newX, y := newY, vx := vx, vy := vy }
        if y ≥ 0 ∧ y < height ∧ x ≥ 0 ∧ x < width then
          (assign2 st.grid y x p.char).bind (fun grid =>
            some (p1, { st with grid := grid, allStopped := false }))
        else some (p1, { st with allStopped := false }))

/-- The loop `for i := range pieces` of one tick. -/
def tickLoop : List (Piece K) → TickState → Option (List (Piece K) × TickState)
  | [], st => some ([], st)
  | p :: ps, st =>
    (stepPiece p st).bind (fun r =>
      (tickLoop ps r.2).bind (fun rs => some (r.1 :: rs.1, rs.2)))

/-- One iteration of the outer loop of `simulatePieces` up to the exit test:
a fresh blank frame, `allStopped := true`, then the loop over the pieces. -/
def tick (pieces : List (Piece K)) (ground : Ground) : Option (List (Piece K) × TickState) :=
  tickLoop pieces { ground := ground, grid := makeGrid ' ', allStopped := true }

/-- The outer loop of `simulatePieces`, for at most `fuel` iterations; `done`
counts the iterations already made. -/
def simulateLoop : Nat → Nat → List (Piece K) → Ground → SimResult K
  | 0, _, _, _ => SimResult.running
  | fuel + 1, done, pieces, ground =>
    match tick pieces ground with
    | none => SimResult.panicked
    | some r =>
      if r.2.allStopped then SimResult.exited (done + 1) r.1 r.2.ground
      else simulateLoop fuel (done + 1) r.1 r.2.ground

def simulatePieces (fuel : Nat) (pieces : List (Piece K)) : SimResult K :=
  simulateLoop fuel 0 pieces (makeGrid false)

/-- The pieces and ground after `n` ticks, whatever the exit test says. -/
def runTicks : Nat → List (Piece K) → Ground → Option (List (Piece K) × Ground)
  | 0, pieces, ground => some (pieces, ground)
  | n + 1, pieces, ground =>
    (tick pieces ground).bind (fun r => runTicks n r.1 r.2.ground)

def breakApartAnimation (m : GoMath K) (fuel : Nat) (minuteAngle hourAngle : K) : SimResult K :=
  match (composeFrame m minuteAngle hourAngle).bind (scanPieces m) with
  | none => SimResult.panicked
  | some pieces => simulatePieces fuel pieces

end Simulator

/-! ## The spin driver -/

/-- The variables of `main`, with the frames printed so far. -/
structure SpinState (K : Type) where
  speed : Int
  spinCount : Int
  minuteAngle : K
  hourAngle : K
  frames : List Grid

/-- How an iteration of the outer loop of `main` ends: the loop goes on, or
`breakApartAnimation` is called with the two angles and `main` returns. -/
inductive SpinControl (K : Type) where
  | next (s : SpinState K)
  | breakApart (s : SpinState K)

section Spin

variable {K : Type} [LinearOrderedField K] [FloorRing K]

def initialState : SpinState K :=
  { speed := initialSpeed, spinCount := 0, minuteAngle := 0, hourAngle := 0, frames := [] }

/-- One step of the inner loop (lines 49-72): draw, advance the angles, draw the
hands, print. -/
def spinStep (m : GoMath K) (s : SpinState K) : Option (SpinState K) :=
  (drawCircle m (makeGrid ' ')).bind (fun grid =>
    (drawMarkers m grid).bind (fun grid =>
      let minuteAngle := s.minuteAngle + 15 * (m.pi / 180)
      let hourAngle := s.hourAngle + (5 / 4) * (m.pi / 180)
      (drawHand m grid hourAngle (height / 4) 'h').bind (fun grid =>
        (drawHand m grid minuteAngle (height / 2 - 4) 'm').bind (fun grid =>
          some { s with minuteAngle := minuteAngle, hourAngle := hourAngle,
                        frames := s.frames ++ [grid] }))))

/-- The inner loop `for step := 0; step < 24; step++`. -/
def revolution (m : GoMath K) (s : SpinState K) : Option (SpinState K) :=
  forRange 0 24 (fun s _ => spinStep m s) s

/-- Lines 75-83: what follows a revolution. -/
def betweenRevolutions (s : SpinState K) : SpinControl K :=
  if s.speed > maxSpeed then
    SpinControl.next { s with speed := s.speed - acceleration }
  else
    let s1 := { s with spinCount := s.spinCount + 1 }
    if s1.spinCount > 5 then SpinControl.breakApart s1 else SpinControl.next s1

/-- One iteration of the outer loop of `main`. -/
def outerStep (m : GoMath K) (s : SpinState K) : Option (SpinControl K) :=
  (revolution m s).map betweenRevolutions

/-- The outer loop of `main` for at most `fuel` revolutions: the number of
revolutions completed when `breakApartAnimation` is called, and the state
then. `none` when the revolutions allowed are used up or a frame panics. -/
def spinDriver (m : GoMath K) : Nat → SpinState K → Option (Nat × SpinState K)
  | 0, _ => none
  | fuel + 1, s =>
    match outerStep m s with
    | none => none
    | some (SpinControl.breakApart s1) => some (1, s1)
    | some (SpinControl.next s1) => (spinDriver m fuel s1).map (fun r => (r.1 + 1, r.2))

/-- The state after `k` iterations of the outer loop, when none of the first
`k` called `breakApartAnimation` (the last may) and no frame panicked. -/
def afterRevolutions (m : GoMath K) : Nat → SpinState K → Option (SpinState K)
  | 0, s => some s
  | k + 1, s =>
    match outerStep m s with
    | none => none
    | some (SpinControl.breakApart s1) => if k = 0 then some s1 else none
    | some (SpinControl.next s1) => afterRevolutions m k s1

/-- The states the spin driver passes through: the initial one, and from any
of them the state after a step of the inner loop and the state after the update
between revolutions. -/
inductive SpinReachable (m : GoMath K) : SpinState K → Prop
  | start : SpinReachable m initialState
  | step {s s1 : SpinState K} : SpinReachable m s → spinStep m s = some s1 → SpinReachable m s1
  | next {s s1 : SpinState K} :
      SpinReachable m s → betweenRevolutions s = SpinControl.next s1 → SpinReachable m s1
  | breakApart {s s1 : SpinState K} :
      SpinReachable m s → betweenRevolutions s = SpinControl.breakApart s1 → SpinReachable m s1

end Spin

/-! ## Predicates used in the statements -/

/-- Every `true` cell of `g` is a `true` cell of `g1`. -/
def GroundLe (g g1 : Ground) : Prop :=
  ∀ y x : Int, index2 g y x = some true → index2 g1 y x = some true

section Predicates

variable {K : Type} [LinearOrderedField K] [FloorRing K]

/-- A piece that is stopped, or whose position and horizontal speed keep its
column on the screen after the wall reflection. -/
def InRange (p : Piece K) : Prop :=
  p.stopped = true ∨ (-1 < p.x ∧ p.x < 80 ∧ |p.vx| < 81 / 2)

/-- The piece `p` is what `n` ticks make of the piece `p0` unless it has
stopped: `n` doses of gravity on `vy`, the sum of the velocities on `y`, and,
having moved, a position above the bottom row. -/
def Falling (n : Nat) (p0 p : Piece K) : Prop :=
  p.stopped = true ∨
    (p.vy = p0.vy + (n : K) * gravity ∧
     p.y = p0.y + (n : K) * p0.vy + gravity * ((n : K) * ((n : K) + 1) / 2) ∧
     (1 ≤ n → p.y < 23))

/-- A number of ticks after which the piece `p`, if it only fell, would be at or
below the bottom row. -/
def fallBound (p : Piece K) : Nat :=
  ⌈10 * |p.vy|⌉₊ + ⌈|p.y|⌉₊ + 33

end Predicates

/-! ## The pieces of the break-apart transition, as the specification lists them -/

section SpecPieces

variable {K : Type} [LinearOrderedField K] [FloorRing K]

/-- The piece the specification describes for the non-blank cell `(x, y)` with
glyph `c`: position `(x, y)`, velocity `(1.5·dx/d, 1.5·dy/d)` where `dx = x − 40`,
`dy = y − 12`, `d = √(dx² + dy²)`, and `d` replaced by 1 when it is 0. -/
def specPiece (m : GoMath K) (x y : Int) (c : Char) : Piece K :=
  let dx : K := (x : K) - 40
  let dy : K := (y : K) - 12
  let d : K := if m.sqrt (dx ^ 2 + dy ^ 2) = 0 then 1 else m.sqrt (dx ^ 2 + dy ^ 2)
  { x := (x : K), y := (y : K), vx := 3 / 2 * dx / d, vy := 3 / 2 * dy / d,
    char := c, stopped := false }

/-- The specification's pieces of one row, whose first cell is in column `x`:
one per non-blank cell, left to right. -/
def rowPieces (m : GoMath K) (y : Int) : Int → List Char → List (Piece K)
  | _, [] => []
  | x, c :: cs => (if c ≠ ' ' then [specPiece m x y c] else []) ++ rowPieces m y (x + 1) cs

/-- The specification's pieces of the rows of a grid, the first of them row `y`:
row by row, top to bottom. -/
def gridPieces (m : GoMath K) : Int → List (List Char) → List (Piece K)
  | _, [] => []
  | y, row :: rows => rowPieces m y 0 row ++ gridPieces m (y + 1) rows

/-- The specification's piece list of a grid: one piece per non-blank cell, in
row-major order. -/
def specPieces (m : GoMath K) (grid : Grid) : List (Piece K) :=
  gridPieces m 0 grid

/-- The number of non-blank cells of a grid. -/
def countNonBlank (grid : Grid) : Nat :=
  (grid.map (fun row => row.countP (fun c => c ≠ ' '))).sum

end SpecPieces

/-! ## Named parts of the source and closed forms -/

/-- Every `true` cell above the bottom row has a `true` cell right below it. -/
def Supported (g : Ground) : Prop :=
  ∀ y x : Int, index2 g y x = some true → y < 23 → index2 g (y + 1) x = some true

/-- The piece that the free-fall closed form describes after `n` ticks, for a
piece with glyph `c` released at rest at `(x0, y0)`: `x = x0`, `vx = 0`,
`vy = 0.2·n`, `y = y0 + 0.1·n(n+1)`, not stopped. -/
def freeFallPiece {K : Type} [LinearOrderedField K] (x0 y0 : K) (c : Char) (n : Nat) : Piece K :=
  { x := x0, y := y0 + 1 / 10 * (n : K) * ((n : K) + 1), vx := 0, vy := 2 / 10 * (n : K),
    char := c, stopped := false }

/-- The test of `drawCircle` (lines 103-106) for the cell `(x, y)`: its distance
from the centre, horizontal distances halved, is within 0.5 of the radius. -/
def onCircle {K : Type} [LinearOrderedField K] (m : GoMath K) (x y : Int) : Prop :=
  m.sqrt (((x - centerX : Int) : K) * (1 / 2) * (((x - centerX : Int) : K) * (1 / 2)) +
      ((y - centerY : Int) : K) * ((y - centerY : Int) : K)) ≥
    ((height / 2 : Int) : K) - 2 - 1 / 2 ∧
  m.sqrt (((x - centerX : Int) : K) * (1 / 2) * (((x - centerX : Int) : K) * (1 / 2)) +
      ((y - centerY : Int) : K) * ((y - centerY : Int) : K)) ≤
    ((height / 2 : Int) : K) - 2 + 1 / 2

/-! ## Pieces and grounds used as concrete inputs -/

/-- A piece at rest on the bottom row. -/
def restingPiece : Piece ℚ :=
  { x := 5, y := 23, vx := 0, vy := 0, char := '*', stopped := true }

/-- The piece `breakApartAnimation` makes of the `*` at the bottom of the circle,
cell (40, 22): straight below the centre, so thrown straight down. -/
def fallingPiece : Piece ℚ :=
  { x := 40, y := 22, vx := 0, vy := 3 / 2, char := '*', stopped := false }

/-- The piece `fallingPiece` after the tick on which it settles. -/
def settledPiece : Piece ℚ :=
  { x := 40, y := 22, vx := 0, vy := 17 / 10, char := '*', stopped := true }

/-- A second piece, elsewhere and with another glyph, heading for the same cell. -/
def slantingPiece : Piece ℚ :=
  { x := 41, y := 22, vx := -1 / 2, vy := 3 / 2, char := '3', stopped := false }

/-- The piece `slantingPiece` after the tick on which it settles. -/
def settledSlanting : Piece ℚ :=
  { x := 41, y := 22, vx := -1 / 2, vy := 17 / 10, char := '3', stopped := true }

/-- The ground with the one cell (40, 23) marked. -/
def landedGround : Ground :=
  (makeGrid false).set 23 ((List.replicate 80 false).set 40 true)

/-- A piece in the middle of the top row thrown sideways at 100 cells a tick. -/
def strayPiece : Piece ℚ :=
  { x := 40, y := 0, vx := 100, vy := 0, char := '*', stopped := false }

/-- The piece of the wall-bounce scenario: at (1, 12), moving left at 2. -/
def bouncingPiece : Piece ℚ :=
  { x := 1, y := 12, vx := -2, vy := 0, char := '*', stopped := false }

/-- The piece `bouncingPiece` after one tick. -/
def bouncedPiece : Piece ℚ :=
  { x := 3, y := 61 / 5, vx := 2, vy := 1 / 5, char := '*', stopped := false }

/-- A piece above the screen, at rest. -/
def hoveringPiece : Piece ℚ :=
  { x := 5, y := -3, vx := 0, vy := 0, char := '*', stopped := false }

/-- The piece `hoveringPiece` after one tick. -/
def hoveredPiece : Piece ℚ :=
  { x := 5, y := -14 / 5, vx := 0, vy := 1 / 5, char := '*', stopped := false }

/-- A piece one row above the screen, falling at 0.3. -/
def grazingPiece : Piece ℚ :=
  { x := 5, y := -1, vx := 0, vy := 3 / 10, char := '*', stopped := false }

/-- The piece `grazingPiece` after one tick. -/
def grazedPiece : Piece ℚ :=
  { x := 5, y := -1 / 2, vx := 0, vy := 1 / 2, char := '*', stopped := false }

/-- The lower piece of the pile-stacking scenario, at (5, 22), at rest. -/
def stackLower : Piece ℚ :=
  { x := 5, y := 22, vx := 0, vy := 0, char := 'a', stopped := false }

/-- The upper piece of the pile-stacking scenario, at (5, 21), at rest. -/
def stackUpper : Piece ℚ :=
  { x := 5, y := 21, vx := 0, vy := 0, char := 'b', stopped := false }

/-- The piece `stackLower` after one tick. -/
def stackLower1 : Piece ℚ :=
  { x := 5, y := 111 / 5, vx := 0, vy := 1 / 5, char := 'a', stopped := false }

/-- The piece `stackUpper` after one tick. -/
def stackUpper1 : Piece ℚ :=
  { x := 5, y := 106 / 5, vx := 0, vy := 1 / 5, char := 'b', stopped := false }

/-- The piece `stackLower` after two ticks. -/
def stackLower2 : Piece ℚ :=
  { x := 5, y := 113 / 5, vx := 0, vy := 2 / 5, char := 'a', stopped := false }

/-- The piece `stackUpper` after two ticks. -/
def stackUpper2 : Piece ℚ :=
  { x := 5, y := 108 / 5, vx := 0, vy := 2 / 5, char := 'b', stopped := false }

/-- The piece `stackLower` after three ticks. -/
def stackLower3 : Piece ℚ :=
  { x := 5, y := 113 / 5, vx := 0, vy := 3 / 5, char := 'a', stopped := true }

/-- The piece `stackUpper` after three ticks. -/
def stackUpper3 : Piece ℚ :=
  { x := 5, y := 108 / 5, vx := 0, vy := 3 / 5, char := 'b', stopped := true }

/-- The ground with the one cell (5, 23) marked. -/
def floorGround : Ground :=
  (makeGrid false).set 23 ((List.replicate 80 false).set 5 true)

/-- The ground with the cells (5, 23) and (5, 22) marked. -/
def stackedGround : Ground :=
  floorGround.set 22 ((List.replicate 80 false).set 5 true)

/-! ## Lemmas: numbers -/

section NumberLemmas

variable {K : Type} [LinearOrderedField K] [FloorRing K]

theorem goInt_intCast (n : Int) : goInt (n : K) = n := by
  unfold goInt
  split <;> simp

theorem goInt_goRound (f : K) : ((goInt (goRound f) : Int) : K) = goRound f := by
  unfold goRound
  split <;> rw [goInt_intCast]

theorem goInt_le_of_nonneg {f : K} (h : 0 ≤ f) : ((goInt f : Int) : K) ≤ f := by
  unfold goInt
  rw [if_pos h]
  exact Int.floor_le f

theorem goInt_ge_of_nonpos {f : K} (h : f ≤ 0) : f ≤ ((goInt f : Int) : K) := by
  unfold goInt
  split
  · have h0 : f = 0 := le_antisymm h (by assumption)
    subst h0
    simp
  · exact Int.le_ceil f

theorem lt_goInt_add_one (f : K) : f < ((goInt f : Int) : K) + 1 := by
  unfold goInt
  split
  · exact Int.lt_floor_add_one f
  · have := Int.le_ceil f
    linarith

theorem goInt_sub_one_lt (f : K) : ((goInt f : Int) : K) - 1 < f := by
  unfold goInt
  split
  · have := Int.floor_le f
    linarith
  · have := Int.ceil_lt_add_one f
    linarith

theorem goInt_nonneg_iff (f : K) : 0 ≤ goInt f ↔ -1 < f := by
  constructor
  · intro h
    have h1 := goInt_sub_one_lt f
    have h2 : (0 : K) ≤ ((goInt f : Int) : K) := by exact_mod_cast h
    linarith
  · intro h
    by_contra hneg
    have hle : goInt f ≤ -1 := by omega
    have h2 : ((goInt f : Int) : K) ≤ -1 := by exact_mod_cast hle
    rcases le_or_lt 0 f with h0 | h0
    · have h3 : (0 : Int) ≤ goInt f := by
        unfold goInt
        rw [if_pos h0]
        exact Int.floor_nonneg.mpr h0
      omega
    · have := goInt_ge_of_nonpos (le_of_lt h0)
      linarith

theorem goInt_lt_iff (f : K) (n : Int) (hn : 0 < n) : goInt f < n ↔ f < (n : K) := by
  constructor
  · intro h
    have h1 := lt_goInt_add_one f
    have h2 : ((goInt f : Int) : K) + 1 ≤ (n : K) := by exact_mod_cast h
    linarith
  · intro h
    rcases le_or_lt 0 f with h0 | h0
    · unfold goInt
      rw [if_pos h0]
      exact Int.floor_lt.mpr h
    · have h1 : goInt f ≤ 0 := by
        unfold goInt
        rw [if_neg (not_le.mpr h0)]
        exact Int.ceil_le.mpr (by simpa using le_of_lt h0)
      omega

end NumberLemmas

/-! ## Lemmas: slices of slices -/

section GridLemmas

variable {α : Type}

theorem shaped_makeGrid (v : α) : Shaped (makeGrid v) := by
  constructor
  · simp [makeGrid, height]
  · intro row hrow
    simp only [makeGrid] at hrow
    rw [List.eq_of_mem_replicate hrow]
    simp [width]

theorem assign2_shaped {g g' : List (List α)} {y x : Int} {v : α}
    (hg : Shaped g) (h : assign2 g y x v = some g') : Shaped g' := by
  unfold assign2 at h
  split at h
  · split at h
    · exact absurd h (by simp)
    · rename_i row hrow
      split at h
      · simp only [Option.some.injEq] at h
        subst h
        refine ⟨by simpa using hg.1, ?_⟩
        intro r hr
        rcases List.mem_or_eq_of_mem_set hr with hr | hr
        · exact hg.2 r hr
        · subst hr
          simpa using hg.2 row (List.mem_iff_getElem?.mpr ⟨_, hrow⟩)
      · exact absurd h (by simp)
  · exact absurd h (by simp)

theorem assign2_isSome {g : List (List α)} {y x : Int} (v : α)
    (hg : Shaped g) (hy0 : 0 ≤ y) (hy : y < 24) (hx0 : 0 ≤ x) (hx : x < 80) :
    ∃ g', assign2 g y x v = some g' := by
  unfold assign2
  rw [if_pos ⟨hy0, hx0⟩]
  have hlt : y.toNat < g.length := by rw [hg.1]; omega
  rw [List.getElem?_eq_getElem hlt]
  have hrow : (g[y.toNat]).length = 80 := hg.2 _ (List.getElem_mem _)
  simp only
  rw [if_pos (by rw [hrow]; omega)]
  exact ⟨_, rfl⟩

theorem index2_isSome {g : List (List α)} {y x : Int}
    (hg : Shaped g) (hy0 : 0 ≤ y) (hy : y < 24) (hx0 : 0 ≤ x) (hx : x < 80) :
    ∃ v, index2 g y x = some v := by
  unfold index2
  rw [if_pos ⟨hy0, hx0⟩]
  have hlt : y.toNat < g.length := by rw [hg.1]; omega
  rw [List.getElem?_eq_getElem hlt]
  have hrow : (g[y.toNat]).length = 80 := hg.2 _ (List.getElem_mem _)
  simp only
  have hlt2 : x.toNat < (g[y.toNat]).length := by rw [hrow]; omega
  rw [List.getElem?_eq_getElem hlt2]
  exact ⟨_, rfl⟩

theorem index2_assign2 {g g' : List (List α)} {y x : Int} {v : α}
    (h : assign2 g y x v = some g') (y' x' : Int) :
    index2 g' y' x' = if y' = y ∧ x' = x then some v else index2 g y' x' := by
  unfold assign2 at h
  split at h
  · rename_i hyx
    split at h
    · exact absurd h (by simp)
    · rename_i row hrow
      split at h
      · rename_i hxlt
        simp only [Option.some.injEq] at h
        subst h
        have hylt : y.toNat < g.length := (List.getElem?_eq_some.mp hrow).1
        unfold index2
        by_cases hpos : 0 ≤ y' ∧ 0 ≤ x'
        · rw [if_pos hpos, if_pos hpos]
          by_cases hy : y' = y
          · subst hy
            rw [List.getElem?_set_self hylt, hrow]
            simp only
            by_cases hx : x' = x
            · subst hx
              rw [List.getElem?_set_self hxlt]
              simp
            · have hne : x.toNat ≠ x'.toNat := by omega
              rw [List.getElem?_set_ne hne]
              simp [hx]
          · have hne : y.toNat ≠ y'.toNat := by omega
            rw [List.getElem?_set_ne hne]
            simp [hy]
        · rw [if_neg hpos, if_neg hpos]
          have : ¬ (y' = y ∧ x' = x) := by
            rintro ⟨rfl, rfl⟩
            exact hpos hyx
          simp [this]
      · exact absurd h (by simp)
  · exact absurd h (by simp)

theorem index2_assign2_self {g g' : List (List α)} {y x : Int} {v : α}
    (h : assign2 g y x v = some g') : index2 g' y x = some v := by
  rw [index2_assign2 h]
  simp

theorem index2_assign2_of_ne {g g' : List (List α)} {y x : Int} {v : α}
    (h : assign2 g y x v = some g') {y' x' : Int} (hne : ¬ (y' = y ∧ x' = x)) :
    index2 g' y' x' = index2 g y' x' := by
  rw [index2_assign2 h, if_neg hne]

end GridLemmas

/-! ## Lemmas: loops -/

section LoopLemmas

variable {σ : Type}

/-- A loop whose body, run in a state satisfying `P`, does not panic and keeps
`P`, does not panic and ends in a state satisfying `P`. -/
theorem foldlM_invariant {ι : Type} (P : σ → Prop) (body : σ → ι → Option σ) (l : List ι)
    (hbody : ∀ s i, i ∈ l → P s → ∃ s', body s i = some s' ∧ P s')
    (init : σ) (hinit : P init) : ∃ s', l.foldlM body init = some s' ∧ P s' := by
  induction l generalizing init with
  | nil => exact ⟨init, rfl, hinit⟩
  | cons i l ih =>
    obtain ⟨s1, h1, hP1⟩ := hbody init i (List.mem_cons_self _ _) hinit
    obtain ⟨s2, h2, hP2⟩ := ih (fun s j hj hs => hbody s j (List.mem_cons_of_mem _ hj) hs) s1 hP1
    refine ⟨s2, ?_, hP2⟩
    rw [List.foldlM_cons, h1]
    exact h2

theorem mem_forRange_indices {lo hi i : Int}
    (h : i ∈ (List.range (hi - lo).toNat).map (fun (k : Nat) => lo + (k : Int))) : lo ≤ i ∧ i < hi := by
  simp only [List.mem_map, List.mem_range] at h
  obtain ⟨k, hk, hki⟩ := h
  have hk' : (k : Int) < hi - lo := by omega
  omega

theorem forRange_invariant (P : σ → Prop) (lo hi : Int) (body : σ → Int → Option σ)
    (hbody : ∀ s i, lo ≤ i → i < hi → P s → ∃ s', body s i = some s' ∧ P s')
    (init : σ) (hinit : P init) : ∃ s', forRange lo hi body init = some s' ∧ P s' := by
  unfold forRange
  apply foldlM_invariant P body _ _ init hinit
  intro s i hi hs
  obtain ⟨h1, h2⟩ := mem_forRange_indices hi
  exact hbody s i h1 h2 hs

/-- What a loop that did not panic preserves, when its body preserves it. -/
theorem foldlM_preserves {ι : Type} (P : σ → Prop) (body : σ → ι → Option σ) (l : List ι)
    (hbody : ∀ s i s', i ∈ l → P s → body s i = some s' → P s')
    (init s' : σ) (hinit : P init) (h : l.foldlM body init = some s') : P s' := by
  induction l generalizing init with
  | nil =>
    simp only [List.foldlM_nil] at h
    cases h
    exact hinit
  | cons i l ih =>
    rw [List.foldlM_cons] at h
    cases h1 : body init i with
    | none => rw [h1] at h; exact absurd h (by simp)
    | some s1 =>
      rw [h1] at h
      exact ih (fun s j s2 hj hs => hbody s j s2 (List.mem_cons_of_mem _ hj) hs) s1
        (hbody init i s1 (List.mem_cons_self _ _) hinit h1) h

theorem forRange_preserves (P : σ → Prop) (lo hi : Int) (body : σ → Int → Option σ)
    (hbody : ∀ s i s', lo ≤ i → i < hi → P s → body s i = some s' → P s')
    (init s' : σ) (hinit : P init) (h : forRange lo hi body init = some s') : P s' := by
  unfold forRange at h
  apply foldlM_preserves P body _ _ init s' hinit h
  intro s i s1 hi hs hb
  obtain ⟨h1, h2⟩ := mem_forRange_indices hi
  exact hbody s i s1 h1 h2 hs hb

end LoopLemmas

/-! ## Lemmas: the rendering primitives do not panic and keep the shape -/

section RenderLemmas

variable {K : Type} [LinearOrderedField K] [FloorRing K]

theorem assign2_guarded {g : Grid} {y x : Int} (c : Char) (hg : Shaped g)
    (h : x ≥ 0 ∧ x < width ∧ y ≥ 0 ∧ y < height) :
    ∃ g', assign2 g y x c = some g' ∧ Shaped g' := by
  obtain ⟨hx0, hx, hy0, hy⟩ := h
  obtain ⟨g', hg'⟩ := assign2_isSome c hg hy0 (by simpa [height] using hy) hx0
    (by simpa [width] using hx)
  exact ⟨g', hg', assign2_shaped hg hg'⟩

theorem drawCircle_shaped (m : GoMath K) (grid : Grid) (hg : Shaped grid) :
    ∃ g', drawCircle m grid = some g' ∧ Shaped g' := by
  unfold drawCircle
  apply forRange_invariant Shaped _ _ _ _ grid hg
  intro g y hy0 hy hs
  apply forRange_invariant Shaped _ _ _ _ g hs
  intro g1 x hx0 hx hs1
  simp only
  split
  · exact assign2_guarded _ hs1 ⟨hx0, hx, hy0, hy⟩
  · exact ⟨g1, rfl, hs1⟩

theorem drawMarkers_shaped (m : GoMath K) (grid : Grid) (hg : Shaped grid) :
    ∃ g', drawMarkers m grid = some g' ∧ Shaped g' := by
  unfold drawMarkers
  apply forRange_invariant Shaped _ _ _ _ grid hg
  intro g hour _ _ hs
  simp only
  split
  · rename_i hb
    split
    · rename_i hlen
      obtain ⟨c, hc⟩ : ∃ c, (sprintfD hour)[0]? = some c :=
        ⟨_, List.getElem?_eq_getElem (by omega)⟩
      rw [hc]
      exact assign2_guarded c hs hb
    · split
      · rename_i hlen
        split
        · rename_i hb1
          obtain ⟨c0, hc0⟩ : ∃ c, (sprintfD hour)[0]? = some c :=
            ⟨_, List.getElem?_eq_getElem (by omega)⟩
          obtain ⟨c1, hc1⟩ : ∃ c, (sprintfD hour)[1]? = some c :=
            ⟨_, List.getElem?_eq_getElem (by omega)⟩
          rw [hc0, hc1]
          obtain ⟨g1, hg1, hs1⟩ := assign2_guarded c0 hs
            (show _ - 1 ≥ 0 ∧ _ - 1 < width ∧ _ ≥ 0 ∧ _ < height from
              ⟨hb1.1, by have := hb1.2; omega, hb.2.2.1, hb.2.2.2⟩)
          simp only [Option.bind_eq_bind, Option.some_bind, hg1]
          exact assign2_guarded c1 hs1 hb
        · exact ⟨g, rfl, hs⟩
      · exact ⟨g, rfl, hs⟩
  · exact ⟨g, rfl, hs⟩

theorem drawHand_shaped (m : GoMath K) (grid : Grid) (angle : K) (length : Int) (symbol : Char)
    (hg : Shaped grid) : ∃ g', drawHand m grid angle length symbol = some g' ∧ Shaped g' := by
  unfold drawHand
  apply forRange_invariant Shaped _ _ _ _ grid hg
  intro g i _ _ hs
  simp only
  split
  · rename_i hb
    exact assign2_guarded symbol hs hb
  · exact ⟨g, rfl, hs⟩

theorem composeFrame_shaped (m : GoMath K) (minuteAngle hourAngle : K) :
    ∃ g, composeFrame m minuteAngle hourAngle = some g ∧ Shaped g := by
  obtain ⟨g1, h1, hs1⟩ := drawCircle_shaped m (makeGrid ' ') (shaped_makeGrid ' ')
  obtain ⟨g2, h2, hs2⟩ := drawMarkers_shaped m g1 hs1
  obtain ⟨g3, h3, hs3⟩ := drawHand_shaped m g2 hourAngle (height / 4) 'h' hs2
  obtain ⟨g4, h4, hs4⟩ := drawHand_shaped m g3 minuteAngle (height / 2 - 4) 'm' hs3
  refine ⟨g4, ?_, hs4⟩
  simp [composeFrame, h1, h2, h3, h4]

end RenderLemmas

/-! ## Lemmas: the spin driver -/

section SpinLemmas

variable {K : Type} [LinearOrderedField K] [FloorRing K]

theorem spinStep_spec (m : GoMath K) (s : SpinState K) :
    ∃ s', spinStep m s = some s' ∧ s'.speed = s.speed ∧ s'.spinCount = s.spinCount ∧
      s'.minuteAngle = s.minuteAngle + 15 * (m.pi / 180) ∧
      s'.hourAngle = s.hourAngle + (5 / 4) * (m.pi / 180) := by
  obtain ⟨g1, h1, hs1⟩ := drawCircle_shaped m (makeGrid ' ') (shaped_makeGrid ' ')
  obtain ⟨g2, h2, hs2⟩ := drawMarkers_shaped m g1 hs1
  obtain ⟨g3, h3, hs3⟩ := drawHand_shaped m g2 (s.hourAngle + (5 / 4) * (m.pi / 180))
    (height / 4) 'h' hs2
  obtain ⟨g4, h4, _⟩ := drawHand_shaped m g3 (s.minuteAngle + 15 * (m.pi / 180))
    (height / 2 - 4) 'm' hs3
  refine ⟨{ s with minuteAngle := s.minuteAngle + 15 * (m.pi / 180),
                    hourAngle := s.hourAngle + (5 / 4) * (m.pi / 180),
                    frames := s.frames ++ [g4] }, ?_, rfl, rfl, rfl, rfl⟩
  simp only [spinStep, h1, h2, h3, h4, Option.bind_eq_bind, Option.some_bind]

theorem spinSteps_spec (m : GoMath K) (l : List Int) (s : SpinState K) :
    ∃ s', l.foldlM (fun s _ => spinStep m s) s = some s' ∧ s'.speed = s.speed ∧
      s'.spinCount = s.spinCount ∧
      s'.minuteAngle = s.minuteAngle + (l.length : K) * (15 * (m.pi / 180)) ∧
      s'.hourAngle = s.hourAngle + (l.length : K) * ((5 / 4) * (m.pi / 180)) := by
  induction l generalizing s with
  | nil => exact ⟨s, rfl, rfl, rfl, by simp, by simp⟩
  | cons i l ih =>
    obtain ⟨s1, h1, hsp1, hc1, hm1, hh1⟩ := spinStep_spec m s
    obtain ⟨s2, h2, hsp2, hc2, hm2, hh2⟩ := ih s1
    refine ⟨s2, ?_, by rw [hsp2, hsp1], by rw [hc2, hc1], ?_, ?_⟩
    · rw [List.foldlM_cons, h1]
      exact h2
    · rw [hm2, hm1]
      push_cast [List.length_cons]
      ring
    · rw [hh2, hh1]
      push_cast [List.length_cons]
      ring

theorem revolution_spec (m : GoMath K) (s : SpinState K) :
    ∃ s', revolution m s = some s' ∧ s'.speed = s.speed ∧ s'.spinCount = s.spinCount ∧
      s'.minuteAngle = s.minuteAngle + 24 * (15 * (m.pi / 180)) ∧
      s'.hourAngle = s.hourAngle + 24 * ((5 / 4) * (m.pi / 180)) := by
  obtain ⟨s', h, hsp, hc, hm, hh⟩ :=
    spinSteps_spec m ((List.range (24 - 0 : Int).toNat).map (fun (k : Nat) => 0 + (k : Int))) s
  refine ⟨s', h, hsp, hc, ?_, ?_⟩
  · rw [hm]
    simp
  · rw [hh]
    simp

/-- A revolution at a speed above the floor: the loop goes on, 20 ms faster. -/
theorem outerStep_accelerate (m : GoMath K) (s : SpinState K) (h : s.speed > maxSpeed) :
    ∃ s', outerStep m s = some (SpinControl.next s') ∧ s'.speed = s.speed - acceleration ∧
      s'.spinCount = s.spinCount ∧
      s'.minuteAngle = s.minuteAngle + 24 * (15 * (m.pi / 180)) ∧
      s'.hourAngle = s.hourAngle + 24 * ((5 / 4) * (m.pi / 180)) := by
  obtain ⟨s1, h1, hsp, hc, hm, hh⟩ := revolution_spec m s
  refine ⟨{ s1 with speed := s1.speed - acceleration }, ?_, by simp [hsp], by simp [hc],
    by simp [hm], by simp [hh]⟩
  simp [outerStep, h1, betweenRevolutions, hsp, h]

/-- A revolution at the floor speed that does not yet bring `spinCount` above 5. -/
theorem outerStep_count (m : GoMath K) (s : SpinState K) (h : ¬ s.speed > maxSpeed)
    (hc5 : ¬ s.spinCount + 1 > 5) :
    ∃ s', outerStep m s = some (SpinControl.next s') ∧ s'.speed = s.speed ∧
      s'.spinCount = s.spinCount + 1 ∧
      s'.minuteAngle = s.minuteAngle + 24 * (15 * (m.pi / 180)) ∧
      s'.hourAngle = s.hourAngle + 24 * ((5 / 4) * (m.pi / 180)) := by
  obtain ⟨s1, h1, hsp, hc, hm, hh⟩ := revolution_spec m s
  refine ⟨{ s1 with spinCount := s1.spinCount + 1 }, ?_, by simp [hsp], by simp [hc],
    by simp [hm], by simp [hh]⟩
  simp [outerStep, h1, betweenRevolutions, hsp, hc, h, hc5]

/-- The revolution at the floor speed that brings `spinCount` above 5. -/
theorem outerStep_break (m : GoMath K) (s : SpinState K) (h : ¬ s.speed > maxSpeed)
    (hc5 : s.spinCount + 1 > 5) :
    ∃ s', outerStep m s = some (SpinControl.breakApart s') ∧ s'.speed = s.speed ∧
      s'.spinCount = s.spinCount + 1 ∧
      s'.minuteAngle = s.minuteAngle + 24 * (15 * (m.pi / 180)) ∧
      s'.hourAngle = s.hourAngle + 24 * ((5 / 4) * (m.pi / 180)) := by
  obtain ⟨s1, h1, hsp, hc, hm, hh⟩ := revolution_spec m s
  refine ⟨{ s1 with spinCount := s1.spinCount + 1 }, ?_, by simp [hsp], by simp [hc],
    by simp [hm], by simp [hh]⟩
  simp [outerStep, h1, betweenRevolutions, hsp, hc, h, hc5]

end SpinLemmas

section SpinSchedule

variable {K : Type} [LinearOrderedField K] [FloorRing K]

/-- From a state `j` decrements above the floor with `spinCount = c ≤ 5`, the
driver calls `breakApartAnimation` after exactly `j + (6 - c)` revolutions. -/
theorem spinDriver_spec (m : GoMath K) (fuel : Nat) (s : SpinState K) (j c : Nat)
    (hspeed : s.speed = maxSpeed + (j : Int) * acceleration) (hcount : s.spinCount = (c : Int))
    (hc : c ≤ 5) :
    (fuel < j + (6 - c) → spinDriver m fuel s = none) ∧
    (j + (6 - c) ≤ fuel → ∃ s', spinDriver m fuel s = some (j + (6 - c), s') ∧
      s'.speed = maxSpeed ∧ s'.spinCount = 6 ∧
      s'.minuteAngle = s.minuteAngle + ((j + (6 - c) : Nat) : K) * (24 * (15 * (m.pi / 180))) ∧
      s'.hourAngle = s.hourAngle + ((j + (6 - c) : Nat) : K) * (24 * ((5 / 4) * (m.pi / 180)))) := by
  induction fuel generalizing s j c with
  | zero =>
    refine ⟨fun _ => rfl, fun h => ?_⟩
    omega
  | succ fuel ih =>
    cases j with
    | zero =>
      have hfloor : ¬ s.speed > maxSpeed := by rw [hspeed]; simp
      by_cases hc5 : c = 5
      · subst hc5
        obtain ⟨s1, h1, hsp1, hc1, hm1, hh1⟩ := outerStep_break m s hfloor (by rw [hcount]; decide)
        refine ⟨fun h => by omega, fun _ => ⟨s1, ?_, ?_, ?_, ?_, ?_⟩⟩
        · simp [spinDriver, h1]
        · rw [hsp1, hspeed]; simp
        · rw [hc1, hcount]; rfl
        · rw [hm1]; simp
        · rw [hh1]; simp
      · have hlt : c + 1 ≤ 5 := by omega
        obtain ⟨s1, h1, hsp1, hc1, hm1, hh1⟩ :=
          outerStep_count m s hfloor (by rw [hcount]; omega)
        obtain ⟨ihn, ihs⟩ := ih s1 0 (c + 1) (by rw [hsp1, hspeed])
          (by rw [hc1, hcount]; push_cast; ring) hlt
        constructor
        · intro h
          simp only [spinDriver, h1]
          rw [ihn (by omega)]
          rfl
        · intro h
          obtain ⟨s2, h2, hsp2, hc2, hm2, hh2⟩ := ihs (by omega)
          refine ⟨s2, ?_, hsp2, hc2, ?_, ?_⟩
          · simp only [spinDriver, h1, h2, Option.map_some']
            congr 2
            omega
          · rw [hm2, hm1]
            have e : (0 + (6 - c) : Nat) = (0 + (6 - (c + 1))) + 1 := by omega
            rw [e]
            push_cast
            ring
          · rw [hh2, hh1]
            have e : (0 + (6 - c) : Nat) = (0 + (6 - (c + 1))) + 1 := by omega
            rw [e]
            push_cast
            ring
    | succ j =>
      have hacc : (0 : Int) < acceleration := by decide
      have hfast : s.speed > maxSpeed := by
        rw [hspeed]
        have : (0 : Int) ≤ (j : Int) * acceleration :=
          mul_nonneg (Int.ofNat_nonneg j) (le_of_lt hacc)
        push_cast
        linarith
      obtain ⟨s1, h1, hsp1, hc1, hm1, hh1⟩ := outerStep_accelerate m s hfast
      obtain ⟨ihn, ihs⟩ := ih s1 j c (by rw [hsp1, hspeed]; push_cast; ring)
        (by rw [hc1, hcount]) hc
      constructor
      · intro h
        simp only [spinDriver, h1]
        rw [ihn (by omega)]
        rfl
      · intro h
        obtain ⟨s2, h2, hsp2, hc2, hm2, hh2⟩ := ihs (by omega)
        refine ⟨s2, ?_, hsp2, hc2, ?_, ?_⟩
        · simp only [spinDriver, h1, h2, Option.map_some']
          congr 2
          omega
        · rw [hm2, hm1]
          have e : (j + 1 + (6 - c) : Nat) = (j + (6 - c)) + 1 := by omega
          rw [e]
          push_cast
          ring
        · rw [hh2, hh1]
          have e : (j + 1 + (6 - c) : Nat) = (j + (6 - c)) + 1 := by omega
          rw [e]
          push_cast
          ring

theorem initialState_speed :
    (initialState : SpinState K).speed = maxSpeed + ((4 : Nat) : Int) * acceleration := by
  simp [initialState, initialSpeed, maxSpeed, acceleration, millisecond]

theorem afterRevolutions_spec (m : GoMath K) (k : Nat) (s : SpinState K) (j c : Nat)
    (hspeed : s.speed = maxSpeed + (j : Int) * acceleration) (hcount : s.spinCount = (c : Int))
    (hc : c ≤ 5) (hk : k ≤ j + (6 - c)) :
    ∃ s', afterRevolutions m k s = some s' ∧
      s'.speed = maxSpeed + ((j - k : Nat) : Int) * acceleration ∧
      s'.spinCount = ((c + (k - j) : Nat) : Int) := by
  induction k generalizing s j c with
  | zero => exact ⟨s, rfl, by simpa using hspeed, by simpa using hcount⟩
  | succ k ih =>
    cases j with
    | zero =>
      have hfloor : ¬ s.speed > maxSpeed := by rw [hspeed]; simp
      by_cases hc5 : c = 5
      · subst hc5
        have hk0 : k = 0 := by omega
        subst hk0
        obtain ⟨s1, h1, hsp1, hc1, _, _⟩ := outerStep_break m s hfloor (by rw [hcount]; decide)
        refine ⟨s1, by simp [afterRevolutions, h1], ?_, ?_⟩
        · rw [hsp1, hspeed]
        · rw [hc1, hcount]; rfl
      · obtain ⟨s1, h1, hsp1, hc1, _, _⟩ := outerStep_count m s hfloor (by rw [hcount]; omega)
        obtain ⟨s2, h2, hsp2, hc2⟩ := ih s1 0 (c + 1) (by rw [hsp1, hspeed])
          (by rw [hc1, hcount]; push_cast; ring) (by omega) (by omega)
        refine ⟨s2, by simp [afterRevolutions, h1, h2], ?_, ?_⟩
        · rw [hsp2]; simp
        · rw [hc2]
          congr 1
          omega
    | succ j =>
      have hacc : (0 : Int) < acceleration := by decide
      have hfast : s.speed > maxSpeed := by
        rw [hspeed]
        have : (0 : Int) ≤ (j : Int) * acceleration :=
          mul_nonneg (Int.ofNat_nonneg j) (le_of_lt hacc)
        push_cast
        linarith
      obtain ⟨s1, h1, hsp1, hc1, _, _⟩ := outerStep_accelerate m s hfast
      obtain ⟨s2, h2, hsp2, hc2⟩ := ih s1 j c (by rw [hsp1, hspeed]; push_cast; ring)
        (by rw [hc1, hcount]) hc (by omega)
      refine ⟨s2, by simp [afterRevolutions, h1, h2], ?_, ?_⟩
      · rw [hsp2]
        congr 3
        omega
      · rw [hc2]
        congr 1
        omega

theorem initialState_spinCount : (initialState : SpinState K).spinCount = ((0 : Nat) : Int) := rfl

/-- In every state the driver passes through, the speed is one of 20, 40, 60,
80, 100 ms. -/
theorem spinReachable_speed (m : GoMath K) (s : SpinState K) (h : SpinReachable m s) :
    ∃ j : Nat, j ≤ 4 ∧ s.speed = maxSpeed + (j : Int) * acceleration := by
  induction h with
  | start => exact ⟨4, le_refl _, initialState_speed⟩
  | step _ hstep ih =>
    obtain ⟨j, hj, hsp⟩ := ih
    rename_i s0 s1 _
    obtain ⟨s2, h2, hsp2, _⟩ := spinStep_spec m s0
    rw [h2] at hstep
    cases hstep
    exact ⟨j, hj, by rw [hsp2, hsp]⟩
  | next _ hnext ih =>
    obtain ⟨j, hj, hsp⟩ := ih
    unfold betweenRevolutions at hnext
    split at hnext
    · rename_i hfast
      cases hnext
      have hj1 : 1 ≤ j := by
        by_contra hj0
        have : j = 0 := by omega
        subst this
        rw [hsp] at hfast
        simp at hfast
      refine ⟨j - 1, by omega, ?_⟩
      simp only [hsp]
      have : ((j - 1 : Nat) : Int) = (j : Int) - 1 := by omega
      rw [this]
      ring
    · simp only at hnext
      split at hnext
      · cases hnext
      · cases hnext
        exact ⟨j, hj, hsp⟩
  | breakApart _ hbreak ih =>
    obtain ⟨j, hj, hsp⟩ := ih
    unfold betweenRevolutions at hbreak
    split at hbreak
    · cases hbreak
    · simp only at hbreak
      split at hbreak
      · cases hbreak
        exact ⟨j, hj, hsp⟩
      · cases hbreak

end SpinSchedule

/-! ## Lemmas: one piece in one tick -/

section StepLemmas

variable {K : Type} [LinearOrderedField K] [FloorRing K]

/-- The three ways the loop body treats a piece, read off a run that did not
panic: a stopped piece is redrawn; an unstopped piece settles; an unstopped
piece moves. -/
theorem stepPiece_cases {p p' : Piece K} {st st' : TickState}
    (h : stepPiece p st = some (p', st')) :
    (p.stopped = true ∧ p' = p ∧ st'.ground = st.ground ∧ st'.allStopped = st.allStopped ∧
      ((goInt p.x ≥ 0 ∧ goInt p.x < width ∧ goInt p.y ≥ 0 ∧ goInt p.y < height ∧
          assign2 st.grid (goInt p.y) (goInt p.x) p.char = some st'.grid) ∨
        (¬ (goInt p.x ≥ 0 ∧ goInt p.x < width ∧ goInt p.y ≥ 0 ∧ goInt p.y < height) ∧
          st'.grid = st.grid))) ∨
    (p.stopped = false ∧
      ((candidate p).2.1 ≥ height - 1 ∨
        index2 st.ground ((candidate p).2.1 + 1) (candidate p).1 = some true) ∧
      p' = { p with vx := (candidate p).2.2.1, vy := p.vy + gravity, stopped := true } ∧
      st'.allStopped = st.allStopped ∧
      (((candidate p).2.1 ≥ 0 ∧ (candidate p).2.1 < height ∧ (candidate p).1 ≥ 0 ∧
          (candidate p).1 < width ∧
          assign2 st.ground (candidate p).2.1 (candidate p).1 true = some st'.ground ∧
          assign2 st.grid (candidate p).2.1 (candidate p).1 p.char = some st'.grid) ∨
        (¬ ((candidate p).2.1 ≥ 0 ∧ (candidate p).2.1 < height ∧ (candidate p).1 ≥ 0 ∧
            (candidate p).1 < width) ∧
          st'.ground = st.ground ∧ st'.grid = st.grid))) ∨
    (p.stopped = false ∧ (candidate p).2.1 < height - 1 ∧
      (¬ ((candidate p).2.1 + 1 ≥ 0 ∧ (candidate p).2.1 + 1 < height) ∨
        index2 st.ground ((candidate p).2.1 + 1) (candidate p).1 = some false) ∧
      p' = { p with x := (candidate p).2.2.2, y := p.y + (p.vy + gravity),
                    vx := (candidate p).2.2.1, vy := p.vy + gravity } ∧
      st'.allStopped = false ∧ st'.ground = st.ground ∧
      (((candidate p).2.1 ≥ 0 ∧ (candidate p).2.1 < height ∧ (candidate p).1 ≥ 0 ∧
          (candidate p).1 < width ∧
          assign2 st.grid (candidate p).2.1 (candidate p).1 p.char = some st'.grid) ∨
        (¬ ((candidate p).2.1 ≥ 0 ∧ (candidate p).2.1 < height ∧ (candidate p).1 ≥ 0 ∧
            (candidate p).1 < width) ∧
          st'.grid = st.grid))) := by
  unfold stepPiece at h
  by_cases hs : p.stopped = true
  · left
    rw [if_pos hs] at h
    simp only at h
    split at h
    · rename_i hb
      cases hg : assign2 st.grid (goInt p.y) (goInt p.x) p.char with
      | none => rw [hg] at h; exact absurd h (by simp)
      | some grid =>
        rw [hg] at h
        simp only [Option.bind_eq_bind, Option.some_bind, Option.some.injEq, Prod.mk.injEq] at h
        obtain ⟨rfl, rfl⟩ := h
        exact ⟨hs, rfl, rfl, rfl, Or.inl ⟨hb.1, hb.2.1, hb.2.2.1, hb.2.2.2, rfl⟩⟩
    · rename_i hb
      simp only [Option.some.injEq, Prod.mk.injEq] at h
      obtain ⟨rfl, rfl⟩ := h
      exact ⟨hs, rfl, rfl, rfl, Or.inr ⟨hb, rfl⟩⟩
  · right
    have hsf : p.stopped = false := by simpa using hs
    rw [if_neg hs] at h
    simp only at h
    -- the settling test
    have hsettle : ∀ b, (if (candidate p).2.1 ≥ height - 1 then some true
          else if (candidate p).2.1 + 1 ≥ 0 ∧ (candidate p).2.1 + 1 < height then
            index2 st.ground ((candidate p).2.1 + 1) (candidate p).1
          else some false) = some b →
        (b = true ∧ ((candidate p).2.1 ≥ height - 1 ∨
          index2 st.ground ((candidate p).2.1 + 1) (candidate p).1 = some true)) ∨
        (b = false ∧ (candidate p).2.1 < height - 1 ∧
          (¬ ((candidate p).2.1 + 1 ≥ 0 ∧ (candidate p).2.1 + 1 < height) ∨
            index2 st.ground ((candidate p).2.1 + 1) (candidate p).1 = some false)) := by
      intro b hb
      split at hb
      · rename_i hy
        simp only [Option.some.injEq] at hb
        exact Or.inl ⟨hb.symm, Or.inl hy⟩
      · rename_i hy
        split at hb
        · cases b with
          | true => exact Or.inl ⟨rfl, Or.inr hb⟩
          | false => exact Or.inr ⟨rfl, lt_of_not_ge hy, Or.inr hb⟩
        · rename_i hy1
          simp only [Option.some.injEq] at hb
          exact Or.inr ⟨hb.symm, lt_of_not_ge hy, Or.inl hy1⟩
    cases hb : (if (candidate p).2.1 ≥ height - 1 then some true
          else if (candidate p).2.1 + 1 ≥ 0 ∧ (candidate p).2.1 + 1 < height then
            index2 st.ground ((candidate p).2.1 + 1) (candidate p).1
          else some false) with
    | none => rw [hb] at h; exact absurd h (by simp)
    | some b =>
      rw [hb] at h
      simp only [Option.bind_eq_bind, Option.some_bind] at h
      rcases hsettle b hb with ⟨rfl, hcond⟩ | ⟨rfl, hlt, hcond⟩
      · left
        simp only [if_true] at h
        split at h
        · rename_i hin
          cases hg : assign2 st.ground (candidate p).2.1 (candidate p).1 true with
          | none => rw [hg] at h; exact absurd h (by simp)
          | some ground =>
            rw [hg] at h
            simp only [Option.some_bind] at h
            cases hgr : assign2 st.grid (candidate p).2.1 (candidate p).1 p.char with
            | none => rw [hgr] at h; exact absurd h (by simp)
            | some grid =>
              rw [hgr] at h
              simp only [Option.some_bind, Option.some.injEq, Prod.mk.injEq] at h
              obtain ⟨rfl, rfl⟩ := h
              exact ⟨hsf, hcond, rfl, rfl,
                Or.inl ⟨hin.1, hin.2.1, hin.2.2.1, hin.2.2.2, rfl, rfl⟩⟩
        · rename_i hin
          simp only [Option.some.injEq, Prod.mk.injEq] at h
          obtain ⟨rfl, rfl⟩ := h
          exact ⟨hsf, hcond, rfl, rfl, Or.inr ⟨hin, rfl, rfl⟩⟩
      · right
        simp only [Bool.false_eq_true, if_false] at h
        split at h
        · rename_i hin
          cases hgr : assign2 st.grid (candidate p).2.1 (candidate p).1 p.char with
          | none => rw [hgr] at h; exact absurd h (by simp)
          | some grid =>
            rw [hgr] at h
            simp only [Option.some_bind, Option.some.injEq, Prod.mk.injEq] at h
            obtain ⟨rfl, rfl⟩ := h
            exact ⟨hsf, hlt, hcond, rfl, rfl, rfl,
              Or.inl ⟨hin.1, hin.2.1, hin.2.2.1, hin.2.2.2, rfl⟩⟩
        · rename_i hin
          simp only [Option.some.injEq, Prod.mk.injEq] at h
          obtain ⟨rfl, rfl⟩ := h
          exact ⟨hsf, hlt, hcond, rfl, rfl, rfl, Or.inr ⟨hin, rfl⟩⟩

end StepLemmas

/-! ## Lemmas: evaluating the loop body -/

section StepEval

variable {K : Type} [LinearOrderedField K] [FloorRing K]

/-- A stopped piece inside the screen is redrawn at its truncated position. -/
theorem stepPiece_redraw (p : Piece K) (st : TickState) (grid : Grid)
    (hs : p.stopped = true)
    (hin : goInt p.x ≥ 0 ∧ goInt p.x < width ∧ goInt p.y ≥ 0 ∧ goInt p.y < height)
    (hgrid : assign2 st.grid (goInt p.y) (goInt p.x) p.char = some grid) :
    stepPiece p st = some (p, { st with grid := grid }) := by
  unfold stepPiece
  rw [if_pos hs]
  simp only
  rw [if_pos hin, hgrid]
  rfl

/-- An unstopped piece whose cell is on the bottom row or beyond, or right above
a ground cell, settles: here with its cell inside the screen. -/
theorem stepPiece_settle (p : Piece K) (st : TickState) (x y : Int) (vx newX : K)
    (ground : Ground) (grid : Grid) (hs : p.stopped = false)
    (hc : candidate p = (x, y, vx, newX))
    (hset : y ≥ height - 1 ∨
      (y + 1 ≥ 0 ∧ y + 1 < height ∧ index2 st.ground (y + 1) x = some true))
    (hin : y ≥ 0 ∧ y < height ∧ x ≥ 0 ∧ x < width)
    (hground : assign2 st.ground y x true = some ground)
    (hgrid : assign2 st.grid y x p.char = some grid) :
    stepPiece p st = some ({ p with vx := vx, vy := p.vy + gravity, stopped := true },
      { st with ground := ground, grid := grid }) := by
  unfold stepPiece
  rw [if_neg (by simp [hs])]
  simp only [hc]
  have hb : (if y ≥ height - 1 then some true
      else if y + 1 ≥ 0 ∧ y + 1 < height then index2 st.ground (y + 1) x
      else some false) = some true := by
    rcases hset with h | ⟨h0, h1, h2⟩
    · rw [if_pos h]
    · by_cases h : y ≥ height - 1
      · rw [if_pos h]
      · rw [if_neg h, if_pos ⟨h0, h1⟩, h2]
  rw [hb]
  simp only [Option.bind_eq_bind, Option.some_bind, if_true]
  rw [if_pos hin, hground]
  simp only [Option.some_bind]
  rw [hgrid]
  rfl

/-- An unstopped piece whose cell is above the bottom row and not right above a
ground cell moves: here with its cell inside the screen. -/
theorem stepPiece_move (p : Piece K) (st : TickState) (x y : Int) (vx newX : K)
    (grid : Grid) (hs : p.stopped = false)
    (hc : candidate p = (x, y, vx, newX))
    (hy : y < height - 1)
    (hbelow : index2 st.ground (y + 1) x = some false)
    (hin : y ≥ 0 ∧ y < height ∧ x ≥ 0 ∧ x < width)
    (hgrid : assign2 st.grid y x p.char = some grid) :
    stepPiece p st = some ({ p with x := newX, y := p.y + (p.vy + gravity), vx := vx,
                                    vy := p.vy + gravity },
      { st with grid := grid, allStopped := false }) := by
  unfold stepPiece
  rw [if_neg (by simp [hs])]
  simp only [hc]
  have hb : (if y ≥ height - 1 then some true
      else if y + 1 ≥ 0 ∧ y + 1 < height then index2 st.ground (y + 1) x
      else some false) = some false := by
    rw [if_neg (not_le.mpr hy), if_pos ⟨by omega, by omega⟩, hbelow]
  rw [hb]
  simp only [Option.bind_eq_bind, Option.some_bind, Bool.false_eq_true, if_false]
  rw [if_pos hin, hgrid]
  rfl

/-- An unstopped piece whose cell is above the bottom row, with the row below
inside the screen and its column outside it: the read of the ground panics. -/
theorem stepPiece_panic (p : Piece K) (st : TickState) (x y : Int) (vx newX : K)
    (hs : p.stopped = false) (hc : candidate p = (x, y, vx, newX))
    (hy : y < height - 1) (hy1 : y + 1 ≥ 0)
    (hbelow : index2 st.ground (y + 1) x = none) :
    stepPiece p st = none := by
  unfold stepPiece
  rw [if_neg (by simp [hs])]
  simp only [hc]
  have hb : (if y ≥ height - 1 then some true
      else if y + 1 ≥ 0 ∧ y + 1 < height then index2 st.ground (y + 1) x
      else some false) = none := by
    rw [if_neg (not_le.mpr hy), if_pos ⟨hy1, by omega⟩, hbelow]
  rw [hb]
  rfl

end StepEval

/-! ## Lemmas: counting ground cells -/

section CountLemmas

theorem sum_map_set {β : Type} (f : β → Nat) (l : List β) (i : Nat) (hi : i < l.length) (b : β) :
    ((l.set i b).map f).sum + f (l.get ⟨i, hi⟩) = (l.map f).sum + f b := by
  induction l generalizing i with
  | nil => simp at hi
  | cons a l ih =>
    cases i with
    | zero =>
      simp only [List.set_cons_zero, List.map_cons, List.sum_cons, List.get_eq_getElem,
        List.getElem_cons_zero]
      omega
    | succ i =>
      have := ih i (by simpa using hi)
      simp only [List.set_cons_succ, List.map_cons, List.sum_cons, List.get_eq_getElem,
        List.getElem_cons_succ] at this ⊢
      omega

theorem count_set_self {α : Type} [BEq α] [LawfulBEq α] (v : α) (row : List α) (x : Nat)
    (hx : x < row.length) :
    row.count v ≤ (row.set x v).count v ∧ (row.set x v).count v ≤ row.count v + 1 := by
  induction row generalizing x with
  | nil => simp at hx
  | cons a row ih =>
    cases x with
    | zero =>
      simp only [List.set_cons_zero, List.count_cons, beq_self_eq_true, if_true]
      split <;> omega
    | succ x =>
      have := ih x (by simpa using hx)
      simp only [List.set_cons_succ, List.count_cons]
      omega

theorem countCells_assign2 {α : Type} [BEq α] [LawfulBEq α] {g g' : List (List α)}
    {y x : Int} {v : α} (h : assign2 g y x v = some g') :
    countCells v g ≤ countCells v g' ∧ countCells v g' ≤ countCells v g + 1 := by
  unfold assign2 at h
  split at h
  · split at h
    · exact absurd h (by simp)
    · rename_i row hrow
      split at h
      · rename_i hxlt
        simp only [Option.some.injEq] at h
        subst h
        obtain ⟨hylt, hget⟩ := List.getElem?_eq_some.mp hrow
        have hsum := sum_map_set (fun row => row.count v) g y.toNat hylt
          (row.set x.toNat v)
        have hcnt := count_set_self v row x.toNat hxlt
        simp only [List.get_eq_getElem, hget] at hsum
        unfold countCells
        omega
      · exact absurd h (by simp)
  · exact absurd h (by simp)

theorem countTrue_assign2 {g g' : Ground} {y x : Int} (h : assign2 g y x true = some g') :
    countTrue g ≤ countTrue g' ∧ countTrue g' ≤ countTrue g + 1 :=
  countCells_assign2 h

/-- A slice of slices with no cell equal to `v` counts no such cell. -/
theorem countCells_eq_zero {α : Type} [BEq α] [LawfulBEq α] (v : α) (g : List (List α))
    (h : ∀ y x : Int, index2 g y x ≠ some v) : countCells v g = 0 := by
  unfold countCells
  apply List.sum_eq_zero
  intro n hn
  obtain ⟨row, hrow, rfl⟩ := List.mem_map.mp hn
  apply List.count_eq_zero.mpr
  intro hmem
  obtain ⟨i, hi⟩ := List.mem_iff_getElem?.mp hrow
  obtain ⟨j, hj⟩ := List.mem_iff_getElem?.mp hmem
  apply h (i : Int) (j : Int)
  unfold index2
  rw [if_pos ⟨Int.ofNat_nonneg i, Int.ofNat_nonneg j⟩]
  simp only [Int.toNat_ofNat, hi, hj]

end CountLemmas

/-! ## Lemmas: one tick -/

section TickLemmas

variable {K : Type} [LinearOrderedField K] [FloorRing K]

theorem groundLe_refl (g : Ground) : GroundLe g g := fun _ _ h => h

theorem groundLe_trans {g g1 g2 : Ground} (h1 : GroundLe g g1) (h2 : GroundLe g1 g2) :
    GroundLe g g2 := fun y x h => h2 y x (h1 y x h)

theorem groundLe_assign2 {g g' : Ground} {y x : Int} (h : assign2 g y x true = some g') :
    GroundLe g g' := by
  intro y' x' hyx
  rw [index2_assign2 h]
  split
  · rfl
  · exact hyx

theorem tickLoop_cons {p : Piece K} {ps ps' : List (Piece K)} {st st' : TickState}
    (h : tickLoop (p :: ps) st = some (ps', st')) :
    ∃ p1 st1 ps1, stepPiece p st = some (p1, st1) ∧ tickLoop ps st1 = some (ps1, st') ∧
      ps' = p1 :: ps1 := by
  simp only [tickLoop] at h
  cases h1 : stepPiece p st with
  | none => rw [h1] at h; exact absurd h (by simp)
  | some r =>
    rw [h1] at h
    simp only [Option.bind_eq_bind, Option.some_bind] at h
    cases h2 : tickLoop ps r.2 with
    | none => rw [h2] at h; exact absurd h (by simp)
    | some rs =>
      rw [h2] at h
      simp only [Option.some_bind, Option.some.injEq, Prod.mk.injEq] at h
      obtain ⟨rfl, rfl⟩ := h
      exact ⟨r.1, r.2, rs.1, rfl, h2, rfl⟩

theorem stepPiece_ground {p p' : Piece K} {st st' : TickState}
    (h : stepPiece p st = some (p', st')) :
    GroundLe st.ground st'.ground ∧ countTrue st.ground ≤ countTrue st'.ground := by
  rcases stepPiece_cases h with ⟨_, _, hg, _⟩ | ⟨_, _, _, _, hg⟩ | ⟨_, _, _, _, _, hg, _⟩
  · rw [hg]
    exact ⟨groundLe_refl _, le_refl _⟩
  · rcases hg with ⟨_, _, _, _, hg, _⟩ | ⟨_, hg, _⟩
    · exact ⟨groundLe_assign2 hg, (countTrue_assign2 hg).1⟩
    · rw [hg]
      exact ⟨groundLe_refl _, le_refl _⟩
  · rw [hg]
    exact ⟨groundLe_refl _, le_refl _⟩

theorem tickLoop_ground {ps ps' : List (Piece K)} {st st' : TickState}
    (h : tickLoop ps st = some (ps', st')) :
    GroundLe st.ground st'.ground ∧ countTrue st.ground ≤ countTrue st'.ground := by
  induction ps generalizing st ps' with
  | nil =>
    simp only [tickLoop, Option.some.injEq, Prod.mk.injEq] at h
    obtain ⟨_, rfl⟩ := h
    exact ⟨groundLe_refl _, le_refl _⟩
  | cons p ps ih =>
    obtain ⟨p1, st1, ps1, h1, h2, _⟩ := tickLoop_cons h
    have a := stepPiece_ground h1
    have b := ih h2
    exact ⟨groundLe_trans a.1 b.1, le_trans a.2 b.2⟩

theorem runTicks_succ {n : Nat} {ps ps' : List (Piece K)} {g g' : Ground}
    (h : runTicks (n + 1) ps g = some (ps', g')) :
    ∃ ps1 st1, tick ps g = some (ps1, st1) ∧ runTicks n ps1 st1.ground = some (ps', g') := by
  simp only [runTicks] at h
  cases h1 : tick ps g with
  | none => rw [h1] at h; exact absurd h (by simp)
  | some r =>
    rw [h1] at h
    exact ⟨r.1, r.2, rfl, h⟩

theorem runTicks_ground {n : Nat} {ps ps' : List (Piece K)} {g g' : Ground}
    (h : runTicks n ps g = some (ps', g')) : GroundLe g g' ∧ countTrue g ≤ countTrue g' := by
  induction n generalizing ps g with
  | zero =>
    simp only [runTicks, Option.some.injEq, Prod.mk.injEq] at h
    obtain ⟨_, rfl⟩ := h
    exact ⟨groundLe_refl _, le_refl _⟩
  | succ n ih =>
    obtain ⟨ps1, st1, h1, h2⟩ := runTicks_succ h
    have a := tickLoop_ground h1
    have b := ih h2
    exact ⟨groundLe_trans a.1 b.1, le_trans a.2 b.2⟩

/-- A piece that is stopped before the loop over the pieces is the same piece
after it. -/
theorem tickLoop_stopped {ps ps' : List (Piece K)} {st st' : TickState}
    (h : tickLoop ps st = some (ps', st')) :
    ps'.length = ps.length ∧
      ∀ (i : Nat) (p : Piece K), ps[i]? = some p → p.stopped = true → ps'[i]? = some p := by
  induction ps generalizing st ps' with
  | nil =>
    simp only [tickLoop, Option.some.injEq, Prod.mk.injEq] at h
    obtain ⟨rfl, _⟩ := h
    exact ⟨rfl, fun i p hp => by simp at hp⟩
  | cons q ps ih =>
    obtain ⟨p1, st1, ps1, h1, h2, rfl⟩ := tickLoop_cons h
    obtain ⟨hlen, hidx⟩ := ih h2
    refine ⟨by simp [hlen], fun i p hp hs => ?_⟩
    cases i with
    | zero =>
      simp only [List.getElem?_cons_zero, Option.some.injEq] at hp
      subst hp
      rcases stepPiece_cases h1 with ⟨_, hp1, _⟩ | ⟨hns, _⟩ | ⟨hns, _⟩
      · simp [hp1]
      · rw [hs] at hns; exact absurd hns (by simp)
      · rw [hs] at hns; exact absurd hns (by simp)
    | succ i =>
      simp only [List.getElem?_cons_succ] at hp ⊢
      exact hidx i p hp hs

theorem runTicks_stopped {n : Nat} {ps ps' : List (Piece K)} {g g' : Ground}
    (h : runTicks n ps g = some (ps', g')) :
    ps'.length = ps.length ∧
      ∀ (i : Nat) (p : Piece K), ps[i]? = some p → p.stopped = true → ps'[i]? = some p := by
  induction n generalizing ps g with
  | zero =>
    simp only [runTicks, Option.some.injEq, Prod.mk.injEq] at h
    obtain ⟨rfl, _⟩ := h
    exact ⟨rfl, fun _ _ hp _ => hp⟩
  | succ n ih =>
    obtain ⟨ps1, st1, h1, h2⟩ := runTicks_succ h
    obtain ⟨hlen1, hidx1⟩ := tickLoop_stopped h1
    obtain ⟨hlen2, hidx2⟩ := ih h2
    exact ⟨by rw [hlen2, hlen1], fun i p hp hs => hidx2 i p (hidx1 i p hp hs) hs⟩

/-- The `true` ground cells gained by the loop body are paid for by the piece
becoming stopped. -/
theorem stepPiece_settled_count {p p' : Piece K} {st st' : TickState}
    (h : stepPiece p st = some (p', st')) :
    countTrue st'.ground + (if p.stopped = true then 1 else 0) ≤
      countTrue st.ground + (if p'.stopped = true then 1 else 0) := by
  rcases stepPiece_cases h with ⟨hs, hp, hg, _⟩ | ⟨hs, _, hp, _, hg⟩ | ⟨hs, _, _, hp, _, hg, _⟩
  · rw [hg, hp]
  · rw [hp, hs]
    rcases hg with ⟨_, _, _, _, hg, _⟩ | ⟨_, hg, _⟩
    · have := (countTrue_assign2 hg).2
      simpa using this
    · rw [hg]
      simp
  · rw [hg, hp, hs]

theorem tickLoop_settled_count {ps ps' : List (Piece K)} {st st' : TickState}
    (h : tickLoop ps st = some (ps', st')) :
    countTrue st'.ground + ps.countP (fun p => p.stopped) ≤
      countTrue st.ground + ps'.countP (fun p => p.stopped) := by
  induction ps generalizing st ps' with
  | nil =>
    simp only [tickLoop, Option.some.injEq, Prod.mk.injEq] at h
    obtain ⟨rfl, rfl⟩ := h
    exact le_refl _
  | cons p ps ih =>
    obtain ⟨p1, st1, ps1, h1, h2, rfl⟩ := tickLoop_cons h
    have a := stepPiece_settled_count h1
    have b := ih h2
    simp only [List.countP_cons]
    omega

theorem runTicks_settled_count {n : Nat} {ps ps' : List (Piece K)} {g g' : Ground}
    (h : runTicks n ps g = some (ps', g')) :
    countTrue g' + ps.countP (fun p => p.stopped) ≤
      countTrue g + ps'.countP (fun p => p.stopped) := by
  induction n generalizing ps g with
  | zero =>
    simp only [runTicks, Option.some.injEq, Prod.mk.injEq] at h
    obtain ⟨rfl, rfl⟩ := h
    exact le_refl _
  | succ n ih =>
    obtain ⟨ps1, st1, h1, h2⟩ := runTicks_succ h
    have a := tickLoop_settled_count h1
    have b := ih h2
    simp only at a
    omega

theorem countTrue_makeGrid : countTrue (makeGrid false) = 0 := by decide

end TickLemmas

/-! ## Lemmas: termination of the simulator -/

section Termination

variable {K : Type} [LinearOrderedField K] [FloorRing K]

theorem candidate_y (p : Piece K) : (candidate p).2.1 = goInt (p.y + (p.vy + gravity)) := by
  unfold candidate
  simp only
  split <;> rfl

theorem candidate_inRange (p : Piece K) (hx0 : -1 < p.x) (hx : p.x < 80)
    (hvx : |p.vx| < 81 / 2) :
    0 ≤ (candidate p).1 ∧ (candidate p).1 < 80 ∧ -1 < (candidate p).2.2.2 ∧
      (candidate p).2.2.2 < 80 ∧ |(candidate p).2.2.1| = |p.vx| := by
  obtain ⟨hv1, hv2⟩ := abs_lt.mp hvx
  unfold candidate
  simp only
  split
  · rename_i hout
    simp only
    have hnew : -1 < p.x + -p.vx ∧ p.x + -p.vx < 80 := by
      rcases hout with hneg | hbig
      · have h1 : ¬ (-1 < p.x + p.vx) := by
          rw [← goInt_nonneg_iff]
          omega
        have h2 : p.x + p.vx ≤ -1 := not_lt.mp h1
        constructor <;> linarith
      · have h1 : ¬ (p.x + p.vx < ((80 : Int) : K)) := by
          rw [← goInt_lt_iff _ 80 (by decide)]
          simp only [width] at hbig
          omega
        have h2 : (80 : K) ≤ p.x + p.vx := by
          have := not_lt.mp h1
          simpa using this
        constructor <;> linarith
    refine ⟨(goInt_nonneg_iff _).mpr hnew.1, ?_, hnew.1, hnew.2, abs_neg _⟩
    exact (goInt_lt_iff _ 80 (by decide)).mpr (by simpa using hnew.2)
  · rename_i hin
    simp only
    have hin' : 0 ≤ goInt (p.x + p.vx) ∧ goInt (p.x + p.vx) < 80 := by
      simp only [width] at hin
      omega
    refine ⟨hin'.1, hin'.2, (goInt_nonneg_iff _).mp hin'.1, ?_, trivial⟩
    have := (goInt_lt_iff _ 80 (by decide)).mp hin'.2
    simpa using this

theorem assign2_guarded' {α : Type} {g : List (List α)} {y x : Int} (v : α) (hg : Shaped g)
    (h : y ≥ 0 ∧ y < height ∧ x ≥ 0 ∧ x < width) :
    ∃ g', assign2 g y x v = some g' ∧ Shaped g' := by
  obtain ⟨hy0, hy, hx0, hx⟩ := h
  obtain ⟨g', hg'⟩ := assign2_isSome v hg hy0 (by simpa [height] using hy) hx0
    (by simpa [width] using hx)
  exact ⟨g', hg', assign2_shaped hg hg'⟩

/-- On a ground and a frame of the screen's shape the loop body does not panic
for a piece in range, and keeps the shapes. -/
theorem stepPiece_progress (p : Piece K) (st : TickState) (hground : Shaped st.ground)
    (hgrid : Shaped st.grid) (hp : InRange p) :
    ∃ p' st', stepPiece p st = some (p', st') ∧ Shaped st'.ground ∧ Shaped st'.grid := by
  unfold stepPiece
  by_cases hs : p.stopped = true
  · rw [if_pos hs]
    simp only
    split
    · rename_i hin
      obtain ⟨g', hg', hs'⟩ := assign2_guarded' p.char hgrid
        ⟨hin.2.2.1, hin.2.2.2, hin.1, hin.2.1⟩
      rw [hg']
      exact ⟨_, _, rfl, hground, hs'⟩
    · exact ⟨_, _, rfl, hground, hgrid⟩
  · rw [if_neg hs]
    simp only
    rcases hp with hp | ⟨hx0, hx, hvx⟩
    · exact absurd hp hs
    obtain ⟨hc0, hc1, _⟩ := candidate_inRange p hx0 hx hvx
    have hsettle : ∃ b, (if (candidate p).2.1 ≥ height - 1 then some true
          else if (candidate p).2.1 + 1 ≥ 0 ∧ (candidate p).2.1 + 1 < height then
            index2 st.ground ((candidate p).2.1 + 1) (candidate p).1
          else some false) = some b := by
      split
      · exact ⟨true, rfl⟩
      · split
        · rename_i hy
          exact index2_isSome hground hy.1 (by simpa [height] using hy.2) hc0 hc1
        · exact ⟨false, rfl⟩
    obtain ⟨b, hb⟩ := hsettle
    rw [hb]
    simp only [Option.bind_eq_bind, Option.some_bind]
    cases b with
    | true =>
      simp only [if_true]
      split
      · rename_i hin
        obtain ⟨g1, hg1, hs1⟩ := assign2_guarded' true hground hin
        obtain ⟨g2, hg2, hs2⟩ := assign2_guarded' p.char hgrid hin
        rw [hg1, Option.some_bind, hg2]
        exact ⟨_, _, rfl, hs1, hs2⟩
      · exact ⟨_, _, rfl, hground, hgrid⟩
    | false =>
      simp only [Bool.false_eq_true, if_false]
      split
      · rename_i hin
        obtain ⟨g2, hg2, hs2⟩ := assign2_guarded' p.char hgrid hin
        rw [hg2]
        exact ⟨_, _, rfl, hground, hs2⟩
      · exact ⟨_, _, rfl, hground, hgrid⟩

/-- What the loop body keeps or establishes for a piece, whatever branch it takes. -/
theorem stepPiece_track {p p' p0 : Piece K} {st st' : TickState} {n : Nat}
    (h : stepPiece p st = some (p', st')) (hp : InRange p) (hf : Falling n p0 p) :
    InRange p' ∧ Falling (n + 1) p0 p' ∧
      (st'.allStopped = true → p'.stopped = true ∧ st.allStopped = true) ∧
      (p.stopped = true → st'.allStopped = st.allStopped) := by
  rcases stepPiece_cases h with ⟨hs, hp', _, ha, _⟩ | ⟨hs, _, hp', ha, _⟩ |
    ⟨hs, hy, _, hp', ha, _⟩
  · subst hp'
    exact ⟨hp, Or.inl hs, fun h1 => ⟨hs, by rw [← ha]; exact h1⟩, fun _ => ha⟩
  · have hst : p'.stopped = true := by rw [hp']
    exact ⟨Or.inl hst, Or.inl hst, fun h1 => ⟨hst, by rw [← ha]; exact h1⟩, fun _ => ha⟩
  · have hns : ¬ p.stopped = true := by simp [hs]
    rcases hp with hp | ⟨hx0, hx, hvx⟩
    · exact absurd hp hns
    rcases hf with hf | ⟨hvy, hpy, _⟩
    · exact absurd hf hns
    obtain ⟨_, _, hn0, hn1, hnv⟩ := candidate_inRange p hx0 hx hvx
    have hylt : p.y + (p.vy + gravity) < 23 := by
      rw [candidate_y] at hy
      have := (goInt_lt_iff _ 23 (by decide)).mp (by simpa [height] using hy)
      simpa using this
    refine ⟨Or.inr ?_, Or.inr ⟨?_, ?_, fun _ => ?_⟩, fun h1 => ?_, fun h1 => absurd h1 hns⟩
    · rw [hp']
      exact ⟨hn0, hn1, by rw [hnv]; exact hvx⟩
    · rw [hp']
      simp only
      rw [hvy]
      push_cast
      ring
    · rw [hp']
      simp only
      rw [hpy, hvy]
      push_cast
      ring
    · rw [hp']
      exact hylt
    · rw [ha] at h1
      exact absurd h1 (by simp)

/-- A piece that has been falling for at least `fallBound` ticks has stopped. -/
theorem falling_stopped {n : Nat} {p0 p : Piece K} (hf : Falling n p0 p)
    (hn : fallBound p0 ≤ n) : p.stopped = true := by
  rcases hf with hf | ⟨_, hpy, hlt⟩
  · exact hf
  exfalso
  unfold fallBound at hn
  have h1 : 1 ≤ n := by omega
  have hlt' := hlt h1
  have ha : 10 * |p0.vy| ≤ ((⌈10 * |p0.vy|⌉₊ : Nat) : K) := Nat.le_ceil _
  have hb : |p0.y| ≤ ((⌈|p0.y|⌉₊ : Nat) : K) := Nat.le_ceil _
  have hnK : ((⌈10 * |p0.vy|⌉₊ : Nat) : K) + ((⌈|p0.y|⌉₊ : Nat) : K) + 33 ≤ (n : K) := by
    exact_mod_cast hn
  have hn0 : (0 : K) ≤ (n : K) := Nat.cast_nonneg n
  have hvy : -|p0.vy| ≤ p0.vy := neg_abs_le _
  have hy : -|p0.y| ≤ p0.y := neg_abs_le _
  have habs : 0 ≤ |p0.vy| := abs_nonneg _
  have habsy : 0 ≤ |p0.y| := abs_nonneg _
  -- n * (n + 1) / 10 ≥ n * |vy| + n
  have hkey : (n : K) * (|p0.vy| + 1) ≤ (n : K) * (((n : K) + 1) / 10) := by
    apply mul_le_mul_of_nonneg_left _ hn0
    linarith
  have hprod : (n : K) * (-|p0.vy|) ≤ (n : K) * p0.vy :=
    mul_le_mul_of_nonneg_left hvy hn0
  have hgrav : gravity * ((n : K) * ((n : K) + 1) / 2) = (n : K) * (((n : K) + 1) / 10) := by
    simp only [gravity]
    ring
  rw [hpy, hgrav] at hlt'
  nlinarith

theorem tickLoop_track {n : Nat} (ps ps0 : List (Piece K)) (st : TickState)
    (hground : Shaped st.ground) (hgrid : Shaped st.grid) (hp : ∀ p ∈ ps, InRange p)
    (hf : List.Forall₂ (Falling n) ps0 ps) :
    ∃ ps' st', tickLoop ps st = some (ps', st') ∧ Shaped st'.ground ∧
      (∀ p ∈ ps', InRange p) ∧ List.Forall₂ (Falling (n + 1)) ps0 ps' ∧
      (st'.allStopped = true → (∀ p ∈ ps', p.stopped = true) ∧ st.allStopped = true) ∧
      ((∀ p ∈ ps, p.stopped = true) → st'.allStopped = st.allStopped) := by
  induction hf generalizing st with
  | nil =>
    exact ⟨[], st, rfl, hground, fun _ h => by simp at h, List.Forall₂.nil,
      fun h => ⟨fun _ h => by simp at h, h⟩, fun _ => rfl⟩
  | @cons q0 q qs0 qs hhead _ ih =>
    obtain ⟨q', st1, h1, hg1, hgr1⟩ :=
      stepPiece_progress q st hground hgrid (hp q (List.mem_cons_self _ _))
    obtain ⟨hq', hfq', hall1, hkeep1⟩ :=
      stepPiece_track h1 (hp q (List.mem_cons_self _ _)) hhead
    obtain ⟨qs', st', h2, hg2, hps', hf', hall2, hkeep2⟩ :=
      ih st1 hg1 hgr1 (fun p hmem => hp p (List.mem_cons_of_mem _ hmem))
    refine ⟨q' :: qs', st', ?_, hg2, ?_, List.Forall₂.cons hfq' hf', ?_, ?_⟩
    · simp [tickLoop, h1, h2]
    · intro p hmem
      rcases List.mem_cons.mp hmem with rfl | hmem
      · exact hq'
      · exact hps' p hmem
    · intro hall
      obtain ⟨hstopped, hst1⟩ := hall2 hall
      obtain ⟨hq's, hst⟩ := hall1 hst1
      refine ⟨fun p hmem => ?_, hst⟩
      rcases List.mem_cons.mp hmem with rfl | hmem
      · exact hq's
      · exact hstopped p hmem
    · intro hall
      rw [hkeep2 (fun p hmem => hall p (List.mem_cons_of_mem _ hmem)),
        hkeep1 (hall q (List.mem_cons_self _ _))]

theorem forall₂_falling_stopped {n N : Nat} {ps0 ps : List (Piece K)}
    (hf : List.Forall₂ (Falling n) ps0 ps) (hN : ∀ p0 ∈ ps0, fallBound p0 ≤ N) (hn : N ≤ n) :
    ∀ p ∈ ps, p.stopped = true := by
  induction hf with
  | nil => exact fun _ h => by simp at h
  | @cons q0 q qs0 qs hhead _ ih =>
    intro p hmem
    rcases List.mem_cons.mp hmem with rfl | hmem
    · exact falling_stopped hhead (le_trans (hN q0 (List.mem_cons_self _ _)) hn)
    · exact ih (fun p0 h0 => hN p0 (List.mem_cons_of_mem _ h0)) p hmem

/-- The loop of `simulatePieces` exits, every piece stopped, once it is allowed
more iterations than the `fallBound` of every piece. -/
theorem simulateLoop_exits (N : Nat) (fuel done n : Nat) (ps0 ps : List (Piece K)) (g : Ground)
    (hg : Shaped g) (hp : ∀ p ∈ ps, InRange p) (hf : List.Forall₂ (Falling n) ps0 ps)
    (hN : ∀ p0 ∈ ps0, fallBound p0 ≤ N) (hfuel : N < n + fuel) (hpos : 0 < fuel) :
    ∃ ticks ps' g', simulateLoop fuel done ps g = SimResult.exited ticks ps' g' ∧
      ∀ p ∈ ps', p.stopped = true := by
  induction fuel generalizing done n ps g with
  | zero => exact absurd hpos (by decide)
  | succ fuel ih =>
    obtain ⟨ps1, st1, h1, hg1, hp1, hf1, hall, hkeep⟩ :=
      tickLoop_track ps ps0 { ground := g, grid := makeGrid ' ', allStopped := true }
        hg (shaped_makeGrid ' ') hp hf
    have htick : tick ps g = some (ps1, st1) := h1
    by_cases hexit : st1.allStopped = true
    · refine ⟨done + 1, ps1, st1.ground, ?_, (hall hexit).1⟩
      simp [simulateLoop, htick, hexit]
    · have hlt : n < N := by
        by_contra hge
        have hstopped := forall₂_falling_stopped hf hN (not_lt.mp hge)
        exact hexit (hkeep hstopped)
      obtain ⟨ticks, ps', g', h2, hs2⟩ :=
        ih (done + 1) (n + 1) ps1 st1.ground hg1 hp1 hf1 (by omega) (by omega)
      refine ⟨ticks, ps', g', ?_, hs2⟩
      simp [simulateLoop, htick, hexit, h2]

theorem forall₂_falling_zero (ps : List (Piece K)) : List.Forall₂ (Falling 0) ps ps := by
  induction ps with
  | nil => exact List.Forall₂.nil
  | cons p ps ih =>
    refine List.Forall₂.cons (Or.inr ⟨by simp, by simp, fun h => absurd h (by decide)⟩) ih

theorem fallBound_le_sum (ps : List (Piece K)) :
    ∀ p ∈ ps, fallBound p ≤ (ps.map fallBound).sum := by
  intro p hmem
  exact List.single_le_sum (fun _ _ => Nat.zero_le _) _ (List.mem_map_of_mem _ hmem)

theorem simulatePieces_exits (ps : List (Piece K)) (hp : ∀ p ∈ ps, InRange p) :
    ∃ fuel ticks ps' g', simulatePieces fuel ps = SimResult.exited ticks ps' g' ∧
      ∀ p ∈ ps', p.stopped = true := by
  refine ⟨(ps.map fallBound).sum + 1, ?_⟩
  exact simulateLoop_exits (ps.map fallBound).sum _ 0 0 ps ps (makeGrid false)
    (shaped_makeGrid false) hp (forall₂_falling_zero ps) (fallBound_le_sum ps) (by omega)
    (by omega)

end Termination

/-! ## Lemmas: the scan of the frame -/

section SpecPieces

variable {K : Type} [LinearOrderedField K] [FloorRing K]

theorem forRange_nil {σ : Type} (lo hi : Int) (body : σ → Int → Option σ) (init : σ)
    (h : hi ≤ lo) : forRange lo hi body init = some init := by
  unfold forRange
  have : (hi - lo).toNat = 0 := by omega
  rw [this]
  rfl

theorem forRange_succ_left {σ : Type} (lo hi : Int) (body : σ → Int → Option σ) (init : σ)
    (h : lo < hi) :
    forRange lo hi body init = (body init lo).bind (forRange (lo + 1) hi body) := by
  unfold forRange
  obtain ⟨n, hn⟩ : ∃ n : Nat, (hi - lo).toNat = n + 1 := ⟨(hi - lo).toNat - 1, by omega⟩
  have hn' : (hi - (lo + 1)).toNat = n := by omega
  rw [hn, hn', List.range_succ_eq_map, List.map_cons, List.foldlM_cons, List.map_map]
  have hfun : ((fun (k : Nat) => lo + (k : Int)) ∘ Nat.succ) =
      (fun (k : Nat) => lo + 1 + (k : Int)) := by
    funext k
    simp only [Function.comp, Nat.succ_eq_add_one]
    push_cast
    ring
  rw [hfun]
  simp

theorem rowPieces_length (m : GoMath K) (y x : Int) (cs : List Char) :
    (rowPieces m y x cs).length = cs.countP (fun c => c ≠ ' ') := by
  induction cs generalizing x with
  | nil => rfl
  | cons c cs ih =>
    simp only [rowPieces, List.length_append, ih, List.countP_cons]
    by_cases hc : c = ' '
    · simp [hc]
    · simp [hc]
      omega

theorem gridPieces_length (m : GoMath K) (y : Int) (rows : List (List Char)) :
    (gridPieces m y rows).length = countNonBlank rows := by
  induction rows generalizing y with
  | nil => rfl
  | cons row rows ih =>
    simp only [gridPieces, List.length_append, ih, rowPieces_length, countNonBlank,
      List.map_cons, List.sum_cons]

/-- The piece the code appends for a non-blank cell is the specification's. -/
theorem scanned_piece_eq (m : GoMath K) (x y : Int) (c : Char) :
    ({ x := (x : K), y := (y : K),
       vx := (((x - centerX : Int) : K) /
          (if m.sqrt (((x - centerX : Int) : K) * ((x - centerX : Int) : K) +
                ((y - centerY : Int) : K) * ((y - centerY : Int) : K)) = 0 then 1
           else m.sqrt (((x - centerX : Int) : K) * ((x - centerX : Int) : K) +
                ((y - centerY : Int) : K) * ((y - centerY : Int) : K)))) * (3 / 2),
       vy := (((y - centerY : Int) : K) /
          (if m.sqrt (((x - centerX : Int) : K) * ((x - centerX : Int) : K) +
                ((y - centerY : Int) : K) * ((y - centerY : Int) : K)) = 0 then 1
           else m.sqrt (((x - centerX : Int) : K) * ((x - centerX : Int) : K) +
                ((y - centerY : Int) : K) * ((y - centerY : Int) : K)))) * (3 / 2),
       char := c, stopped := false } : Piece K) = specPiece m x y c := by
  have hx : ((x - centerX : Int) : K) = (x : K) - 40 := by
    simp [centerX, width]
  have hy : ((y - centerY : Int) : K) = (y : K) - 12 := by
    simp [centerY, height]
  have hsq : ((x : K) - 40) * ((x : K) - 40) + ((y : K) - 12) * ((y : K) - 12) =
      ((x : K) - 40) ^ 2 + ((y : K) - 12) ^ 2 := by ring
  unfold specPiece
  simp only [hx, hy, hsq]
  congr 1 <;> ring

theorem scanPieces_eq (m : GoMath K) (grid : Grid) :
    scanPieces m grid =
      forRange 0 height (fun pieces y => forRange 0 width (scanCell m grid y) pieces) [] := rfl

theorem scanCell_eq (m : GoMath K) (grid : Grid) (y x : Int) (c : Char)
    (pieces : List (Piece K)) (h : index2 grid y x = some c) :
    scanCell m grid y pieces x =
      some (pieces ++ (if c ≠ ' ' then [specPiece m x y c] else [])) := by
  unfold scanCell
  rw [h]
  simp only [Option.bind_eq_bind, Option.some_bind]
  split
  · rw [scanned_piece_eq]
  · simp

/-- The inner loop over the cells `cs` of row `y` from column `x` on appends the
specification's pieces of those cells. -/
theorem scanRow_eq (m : GoMath K) (grid : Grid) (y : Int) (cs : List Char) (x : Int)
    (pieces : List (Piece K))
    (hcs : ∀ k : Nat, k < cs.length → index2 grid y (x + (k : Int)) = cs[k]?) :
    forRange x (x + (cs.length : Int)) (scanCell m grid y) pieces =
      some (pieces ++ rowPieces m y x cs) := by
  induction cs generalizing x pieces with
  | nil =>
    rw [forRange_nil _ _ _ _ (by simp)]
    simp [rowPieces]
  | cons c cs ih =>
    rw [forRange_succ_left _ _ _ _ (by simp only [List.length_cons]; omega)]
    have h0 : index2 grid y x = some c := by
      have := hcs 0 (by simp)
      simpa using this
    rw [scanCell_eq m grid y x c pieces h0]
    simp only [Option.bind_eq_bind, Option.some_bind]
    have hlen : x + ((c :: cs).length : Int) = (x + 1) + (cs.length : Int) := by
      simp only [List.length_cons]
      push_cast
      ring
    rw [hlen, ih (x + 1)]
    · simp [rowPieces]
    · intro k hk
      have := hcs (k + 1) (by simpa using hk)
      simp only [List.getElem?_cons_succ] at this
      rw [← this]
      congr 1
      push_cast
      ring

theorem index2_of_row {α : Type} (g : List (List α)) (y x : Int) (row : List α)
    (hy : 0 ≤ y) (hx : 0 ≤ x) (hrow : g[y.toNat]? = some row) :
    index2 g y x = row[x.toNat]? := by
  unfold index2
  rw [if_pos ⟨hy, hx⟩, hrow]

/-- The outer loop over the rows `rows` of the grid from row `y` on appends the
specification's pieces of those rows. -/
theorem scanRows_eq (m : GoMath K) (grid : Grid) (rows : List (List Char)) (y : Int)
    (hy : 0 ≤ y) (pieces : List (Piece K))
    (hrows : ∀ k : Nat, k < rows.length → grid[(y + (k : Int)).toNat]? = rows[k]?)
    (hlen : ∀ row ∈ rows, (row.length : Int) = width) :
    forRange y (y + (rows.length : Int))
        (fun pieces y => forRange 0 width (scanCell m grid y) pieces) pieces =
      some (pieces ++ gridPieces m y rows) := by
  induction rows generalizing y pieces with
  | nil =>
    rw [forRange_nil _ _ _ _ (by simp)]
    simp [gridPieces]
  | cons row rows ih =>
    rw [forRange_succ_left _ _ _ _ (by simp only [List.length_cons]; omega)]
    have hrow : grid[y.toNat]? = some row := by
      have := hrows 0 (by simp)
      simpa using this
    have hw : (0 : Int) + (row.length : Int) = width := by
      rw [zero_add]
      exact hlen row (List.mem_cons_self _ _)
    have hinner := scanRow_eq m grid y row 0 pieces (fun k hk => by
      rw [index2_of_row grid y _ row hy (by omega) hrow]
      congr 1
      omega)
    rw [hw] at hinner
    simp only [hinner, Option.bind_eq_bind, Option.some_bind]
    have hlen' : y + ((row :: rows).length : Int) = (y + 1) + (rows.length : Int) := by
      simp only [List.length_cons]
      push_cast
      ring
    rw [hlen', ih (y + 1) (by omega)]
    · simp [gridPieces]
    · intro k hk
      have := hrows (k + 1) (by simpa using hk)
      simp only [List.getElem?_cons_succ] at this
      rw [← this]
      congr 2
      push_cast
      ring
    · exact fun r hr => hlen r (List.mem_cons_of_mem _ hr)

/-- The scan of a frame of the screen's shape does not panic and yields the
specification's piece list. -/
theorem scanPieces_spec (m : GoMath K) (grid : Grid) (hg : Shaped grid) :
    scanPieces m grid = some (specPieces m grid) := by
  rw [scanPieces_eq]
  have h := scanRows_eq m grid grid 0 (le_refl _) []
    (fun k _ => by simp) (fun row hrow => by rw [hg.2 row hrow]; rfl)
  have hh : (0 : Int) + (grid.length : Int) = height := by
    rw [hg.1]
    rfl
  rw [hh] at h
  rw [h]
  rfl

end SpecPieces

/-! ## Lemmas: the pieces of the break-apart transition are in range -/

section BreakApartLemmas

theorem mem_rowPieces {K : Type} [LinearOrderedField K] [FloorRing K] (m : GoMath K)
    (y x : Int) (cs : List Char) (p : Piece K) (h : p ∈ rowPieces m y x cs) :
    ∃ (k : Nat) (c : Char), k < cs.length ∧ p = specPiece m (x + (k : Int)) y c := by
  induction cs generalizing x with
  | nil => simp [rowPieces] at h
  | cons c cs ih =>
    simp only [rowPieces, List.mem_append] at h
    rcases h with h | h
    · split at h
      · simp only [List.mem_singleton] at h
        exact ⟨0, c, by simp, by simpa using h⟩
      · simp at h
    · obtain ⟨k, c', hk, hp⟩ := ih (x + 1) h
      refine ⟨k + 1, c', by simpa using hk, ?_⟩
      rw [hp]
      congr 1
      push_cast
      ring

theorem mem_gridPieces {K : Type} [LinearOrderedField K] [FloorRing K] (m : GoMath K)
    (y : Int) (rows : List (List Char)) (p : Piece K) (h : p ∈ gridPieces m y rows) :
    ∃ row ∈ rows, ∃ (k : Nat) (y' : Int) (c : Char),
      k < row.length ∧ p = specPiece m (k : Int) y' c := by
  induction rows generalizing y with
  | nil => simp [gridPieces] at h
  | cons row rows ih =>
    simp only [gridPieces, List.mem_append] at h
    rcases h with h | h
    · obtain ⟨k, c, hk, hp⟩ := mem_rowPieces m y 0 row p h
      exact ⟨row, List.mem_cons_self _ _, k, y, c, hk, by simpa using hp⟩
    · obtain ⟨r, hr, k, y', c, hk, hp⟩ := ih (y + 1) h
      exact ⟨r, List.mem_cons_of_mem _ hr, k, y', c, hk, hp⟩

/-- Over the reals a piece of the break-apart transition has speed at most 1.5
along x. -/
theorem specPiece_vx_le (x y : Int) (c : Char) : |(specPiece realMath x y c).vx| ≤ 3 / 2 := by
  unfold specPiece
  simp only [realMath]
  set dx : ℝ := (x : ℝ) - 40
  set dy : ℝ := (y : ℝ) - 12
  split
  · rename_i h0
    have hle : dx ^ 2 + dy ^ 2 ≤ 0 := Real.sqrt_eq_zero'.mp h0
    have hdx : dx = 0 := by nlinarith [sq_nonneg dx, sq_nonneg dy]
    rw [hdx]
    norm_num
  · rename_i hne
    have hpos : 0 < Real.sqrt (dx ^ 2 + dy ^ 2) :=
      lt_of_le_of_ne (Real.sqrt_nonneg _) (Ne.symm hne)
    have habs : |dx| ≤ Real.sqrt (dx ^ 2 + dy ^ 2) :=
      Real.abs_le_sqrt (by nlinarith [sq_nonneg dy])
    rw [abs_div, abs_mul, abs_of_pos hpos, div_le_iff₀ hpos]
    have h32 : |(3 / 2 : ℝ)| = 3 / 2 := abs_of_pos (by norm_num)
    rw [h32]
    nlinarith [abs_nonneg dx]

theorem specPieces_inRange (grid : Grid) (hg : Shaped grid) :
    ∀ p ∈ specPieces realMath grid, InRange p := by
  intro p hp
  obtain ⟨row, hrow, k, y', c, hk, rfl⟩ := mem_gridPieces realMath 0 grid p hp
  right
  have hlen := hg.2 row hrow
  have hvx := specPiece_vx_le (k : Int) y' c
  refine ⟨?_, ?_, lt_of_le_of_lt hvx (by norm_num)⟩
  · simp only [specPiece]
    have : (0 : ℝ) ≤ ((k : Int) : ℝ) := by exact_mod_cast Nat.zero_le k
    linarith
  · simp only [specPiece]
    have : ((k : Int) : ℝ) < 80 := by
      have hk80 : k < 80 := by omega
      exact_mod_cast hk80
    exact this

theorem breakApartAnimation_eq {K : Type} [LinearOrderedField K] [FloorRing K] (m : GoMath K)
    (minuteAngle hourAngle : K) :
    ∃ grid, composeFrame m minuteAngle hourAngle = some grid ∧ Shaped grid ∧
      ∀ fuel, breakApartAnimation m fuel minuteAngle hourAngle =
        simulatePieces fuel (specPieces m grid) := by
  obtain ⟨grid, hgrid, hs⟩ := composeFrame_shaped m minuteAngle hourAngle
  refine ⟨grid, hgrid, hs, fun fuel => ?_⟩
  simp [breakApartAnimation, hgrid, scanPieces_spec m grid hs]

/-- In exact arithmetic the simulation that `breakApartAnimation` starts leaves
its loop with every piece stopped, whatever the two hand angles are. -/
theorem breakApartAnimation_exits (minuteAngle hourAngle : ℝ) :
    ∃ fuel ticks pieces ground, breakApartAnimation realMath fuel minuteAngle hourAngle =
        SimResult.exited ticks pieces ground ∧ ∀ p ∈ pieces, p.stopped = true := by
  obtain ⟨grid, _, hs, heq⟩ := breakApartAnimation_eq realMath minuteAngle hourAngle
  obtain ⟨fuel, ticks, ps, g, h, hall⟩ :=
    simulatePieces_exits (specPieces realMath grid) (specPieces_inRange grid hs)
  exact ⟨fuel, ticks, ps, g, by rw [heq fuel]; exact h, hall⟩

end BreakApartLemmas

/-! ## Lemmas: the hand -/

section HandLemmas

variable {K : Type} [LinearOrderedField K] [FloorRing K]

/-- `math.Round` moves a number by at most one half. -/
theorem abs_goRound_sub_le (f : K) : |goRound f - f| ≤ 1 / 2 := by
  unfold goRound
  rw [abs_le]
  split
  · have h1 := Int.floor_le (f + 1 / 2)
    have h2 := Int.lt_floor_add_one (f + 1 / 2)
    constructor <;> linarith
  · have h1 := Int.le_ceil (f - 1 / 2)
    have h2 := Int.ceil_lt_add_one (f - 1 / 2)
    constructor <;> linarith

theorem handCell_fst (m : GoMath K) (angle : K) (i : Int) :
    (((handCell m angle i).1 : Int) : K) =
      goRound (((centerX : Int) : K) + (i : K) * m.sin angle * 2) :=
  goInt_goRound _

theorem handCell_snd (m : GoMath K) (angle : K) (i : Int) :
    (((handCell m angle i).2 : Int) : K) =
      goRound (((centerY : Int) : K) - (i : K) * m.cos angle) :=
  goInt_goRound _

theorem centerX_cast : ((centerX : Int) : K) = 40 := by
  simp [centerX, width]

theorem centerY_cast : ((centerY : Int) : K) = 12 := by
  simp [centerY, height]

/-- For a sine and cosine whose squares sum to 1, no step `i ≥ 1` of a hand
lands on the centre cell. -/
theorem handCell_ne_center (m : GoMath K) (angle : K) (i : Int)
    (hsc : m.sin angle ^ 2 + m.cos angle ^ 2 = 1) (hi : 1 ≤ i) :
    handCell m angle i ≠ (40, 12) := by
  intro h
  have hx : (((handCell m angle i).1 : Int) : K) = 40 := by rw [h]; simp
  have hy : (((handCell m angle i).2 : Int) : K) = 12 := by rw [h]; simp
  rw [handCell_fst, centerX_cast] at hx
  rw [handCell_snd, centerY_cast] at hy
  have hbx := abs_goRound_sub_le ((40 : K) + (i : K) * m.sin angle * 2)
  have hby := abs_goRound_sub_le ((12 : K) - (i : K) * m.cos angle)
  rw [hx, abs_le] at hbx
  rw [hy, abs_le] at hby
  have hiK : (1 : K) ≤ (i : K) := by exact_mod_cast hi
  set a : K := (i : K) * m.sin angle
  set b : K := (i : K) * m.cos angle
  have ha : a ^ 2 ≤ 1 / 16 := by nlinarith [hbx.1, hbx.2]
  have hb : b ^ 2 ≤ 1 / 4 := by nlinarith [hby.1, hby.2]
  have hab : a ^ 2 + b ^ 2 = (i : K) ^ 2 := by
    have : a ^ 2 + b ^ 2 = (i : K) ^ 2 * (m.sin angle ^ 2 + m.cos angle ^ 2) := by
      simp only [a, b]
      ring
    rw [this, hsc, mul_one]
  nlinarith

/-- A hand that does not panic leaves the centre cell as it was. -/
theorem drawHand_center (m : GoMath K) (grid g' : Grid) (angle : K) (length : Int)
    (symbol : Char) (hsc : m.sin angle ^ 2 + m.cos angle ^ 2 = 1)
    (h : drawHand m grid angle length symbol = some g') :
    index2 g' 12 40 = index2 grid 12 40 := by
  unfold drawHand at h
  refine forRange_preserves (fun g => index2 g 12 40 = index2 grid 12 40) _ _ _ ?_ grid g'
    rfl h
  intro g i g1 hi1 _ hg hbody
  simp only at hbody
  split at hbody
  · have hne := handCell_ne_center m angle i hsc hi1
    rw [index2_assign2_of_ne hbody]
    · exact hg
    · rintro ⟨hy, hx⟩
      apply hne
      rw [Prod.ext_iff]
      exact ⟨hx.symm, hy.symm⟩
  · simp only [Option.some.injEq] at hbody
    rw [← hbody]
    exact hg

/-- A loop whose body does not panic in a state satisfying `P k` and then
establishes `P (k + 1)` runs through, counting its iterations. -/
theorem foldlM_invariant_count {σ ι : Type} (P : Nat → σ → Prop) (body : σ → ι → Option σ)
    (l : List ι)
    (hbody : ∀ k s i, i ∈ l → P k s → ∃ s', body s i = some s' ∧ P (k + 1) s')
    (k0 : Nat) (init : σ) (hinit : P k0 init) :
    ∃ s', l.foldlM body init = some s' ∧ P (k0 + l.length) s' := by
  induction l generalizing init k0 with
  | nil => exact ⟨init, rfl, hinit⟩
  | cons i l ih =>
    obtain ⟨s1, h1, hP1⟩ := hbody k0 init i (List.mem_cons_self _ _) hinit
    obtain ⟨s2, h2, hP2⟩ :=
      ih (fun k s j hj hs => hbody k s j (List.mem_cons_of_mem _ hj) hs) (k0 + 1) s1 hP1
    refine ⟨s2, ?_, ?_⟩
    · rw [List.foldlM_cons, h1]
      exact h2
    · have : k0 + (i :: l).length = k0 + 1 + l.length := by
        simp only [List.length_cons]
        omega
      rw [this]
      exact hP2

/-- A hand of length `length ≥ 0` on a screen-shaped grid does not panic, adds at
most `length` cells equal to `symbol`, and every cell equal to `symbol`
afterwards was so before or is the cell of one of the steps 1..`length`. -/
theorem drawHand_cells (m : GoMath K) (grid : Grid) (angle : K) (length : Int) (symbol : Char)
    (hlen : 0 ≤ length) (hshape : Shaped grid) :
    ∃ g', drawHand m grid angle length symbol = some g' ∧ Shaped g' ∧
      (countCells symbol g' : Int) ≤ countCells symbol grid + length ∧
      ∀ y x : Int, index2 g' y x = some symbol →
        index2 grid y x = some symbol ∨
          ∃ j : Int, 1 ≤ j ∧ j ≤ length ∧ handCell m angle j = (x, y) := by
  unfold drawHand forRange
  obtain ⟨g', hg', hP⟩ := foldlM_invariant_count
    (fun k g => Shaped g ∧ countCells symbol g ≤ countCells symbol grid + k ∧
      ∀ y x : Int, index2 g y x = some symbol →
        index2 grid y x = some symbol ∨
          ∃ j : Int, 1 ≤ j ∧ j ≤ length ∧ handCell m angle j = (x, y))
    (fun grid i =>
      if (handCell m angle i).1 ≥ 0 ∧ (handCell m angle i).1 < width ∧
          (handCell m angle i).2 ≥ 0 ∧ (handCell m angle i).2 < height then
        assign2 grid (handCell m angle i).2 (handCell m angle i).1 symbol
      else some grid)
    ((List.range (length + 1 - 1).toNat).map (fun (k : Nat) => 1 + (k : Int)))
    (by
      intro k g i hi ⟨hs, hcount, hcells⟩
      obtain ⟨hi1, hi2⟩ := mem_forRange_indices hi
      simp only
      split
      · rename_i hb
        obtain ⟨g1, hg1, hs1⟩ := assign2_guarded symbol hs hb
        refine ⟨g1, hg1, hs1, ?_, ?_⟩
        · have := (countCells_assign2 hg1).2
          omega
        · intro y x hyx
          rw [index2_assign2 hg1] at hyx
          split at hyx
          · rename_i heq
            right
            refine ⟨i, hi1, by omega, ?_⟩
            rw [Prod.ext_iff]
            exact ⟨heq.2.symm, heq.1.symm⟩
          · exact hcells y x hyx
      · exact ⟨g, rfl, hs, by omega, hcells⟩)
    0 grid ⟨hshape, by omega, fun y x h => Or.inl h⟩
  refine ⟨g', hg', hP.1, ?_, hP.2.2⟩
  have hcount := hP.2.1
  simp only [List.length_map, List.length_range] at hcount
  have : ((length + 1 - 1).toNat : Int) = length := by omega
  omega

end HandLemmas

section HandMetric

/-- The cell of step `j ≥ 0` of a hand is within `j + 1` of the centre in the
metric that halves horizontal distances. -/
theorem handCell_metric (angle : ℝ) (j : Int) (hj : 0 ≤ j) :
    Real.sqrt ((((((handCell realMath angle j).1 : Int) : ℝ) - 40) * (1 / 2)) ^ 2 +
      ((((handCell realMath angle j).2 : Int) : ℝ) - 12) ^ 2) ≤ (j : ℝ) + 1 := by
  have hjR : (0 : ℝ) ≤ (j : ℝ) := by exact_mod_cast hj
  rw [Real.sqrt_le_left (by linarith)]
  rw [handCell_fst, handCell_snd, centerX_cast, centerY_cast]
  simp only [realMath]
  have hbx := abs_goRound_sub_le ((40 : ℝ) + (j : ℝ) * Real.sin angle * 2)
  have hby := abs_goRound_sub_le ((12 : ℝ) - (j : ℝ) * Real.cos angle)
  rw [abs_le] at hbx hby
  set X : ℝ := goRound ((40 : ℝ) + (j : ℝ) * Real.sin angle * 2)
  set Y : ℝ := goRound ((12 : ℝ) - (j : ℝ) * Real.cos angle)
  set s : ℝ := Real.sin angle
  set c : ℝ := Real.cos angle
  have hsc : s ^ 2 + c ^ 2 = 1 := Real.sin_sq_add_cos_sq angle
  have hs1 : s ≤ 1 := Real.sin_le_one angle
  have hs2 : -1 ≤ s := Real.neg_one_le_sin angle
  have hc1 : c ≤ 1 := Real.cos_le_one angle
  have hc2 : -1 ≤ c := Real.neg_one_le_cos angle
  set a : ℝ := X - (40 + (j : ℝ) * s * 2)
  set b : ℝ := Y - (12 - (j : ℝ) * c)
  have hX : (X - 40) * (1 / 2) = (j : ℝ) * s + a / 2 := by
    simp only [a]
    ring
  have hY : Y - 12 = -((j : ℝ) * c) + b := by
    simp only [b]
    ring
  rw [hX, hY]
  have hsa : s * a ≤ 1 / 2 := by nlinarith [hbx.1, hbx.2]
  have hcb : -(c * b) ≤ 1 / 2 := by nlinarith [hby.1, hby.2]
  have ha2 : a ^ 2 ≤ 1 / 4 := by nlinarith [hbx.1, hbx.2]
  have hb2 : b ^ 2 ≤ 1 / 4 := by nlinarith [hby.1, hby.2]
  have hexp : ((j : ℝ) * s + a / 2) ^ 2 + (-((j : ℝ) * c) + b) ^ 2 =
      (j : ℝ) ^ 2 * (s ^ 2 + c ^ 2) + (j : ℝ) * (s * a + 2 * -(c * b)) + a ^ 2 / 4 + b ^ 2 := by
    ring
  rw [hexp, hsc]
  have hmul : (j : ℝ) * (s * a + 2 * -(c * b)) ≤ (j : ℝ) * (3 / 2) :=
    mul_le_mul_of_nonneg_left (by linarith) hjR
  nlinarith

end HandMetric

/-! ## Lemmas: reflection, off-screen pieces, the column read, the pile -/

section StepFacts

variable {K : Type} [LinearOrderedField K] [FloorRing K]

theorem candidate_reflect (p : Piece K)
    (h : goInt (p.x + p.vx) < 0 ∨ goInt (p.x + p.vx) ≥ width) :
    candidate p = (goInt (p.x + -p.vx), goInt (p.y + (p.vy + gravity)), -p.vx, p.x + -p.vx) := by
  unfold candidate
  simp only
  rw [if_pos h]

theorem candidate_straight (p : Piece K)
    (h : ¬ (goInt (p.x + p.vx) < 0 ∨ goInt (p.x + p.vx) ≥ width)) :
    candidate p = (goInt (p.x + p.vx), goInt (p.y + (p.vy + gravity)), p.vx, p.x + p.vx) := by
  unfold candidate
  simp only
  rw [if_neg h]

/-- What a tick does to the velocity of an unstopped piece, and to the position
of one that goes on moving. -/
theorem stepPiece_unstopped {p p' : Piece K} {st st' : TickState}
    (h : stepPiece p st = some (p', st')) (hs : p.stopped = false) :
    p'.vx = (candidate p).2.2.1 ∧ p'.vy = p.vy + gravity ∧ p'.char = p.char ∧
      (p'.stopped = false →
        p'.x = (candidate p).2.2.2 ∧ p'.y = p.y + (p.vy + gravity) ∧
          st'.allStopped = false ∧ st'.ground = st.ground) ∧
      (p'.stopped = true → p'.x = p.x ∧ p'.y = p.y) := by
  rcases stepPiece_cases h with ⟨hs', _⟩ | ⟨_, _, hp', _⟩ | ⟨_, _, _, hp', ha, hg, _⟩
  · rw [hs] at hs'
    exact absurd hs' (by simp)
  · rw [hp']
    exact ⟨rfl, rfl, rfl, fun h1 => absurd h1 (by simp), fun _ => ⟨rfl, rfl⟩⟩
  · rw [hp']
    refine ⟨rfl, rfl, rfl, fun _ => ⟨rfl, rfl, ha, hg⟩, fun h1 => ?_⟩
    simp only [hs] at h1
    exact absurd h1 (by simp)

/-- An unstopped piece whose cell is above the screen is not drawn. -/
theorem stepPiece_above_screen {p p' : Piece K} {st st' : TickState}
    (h : stepPiece p st = some (p', st')) (hs : p.stopped = false)
    (hy : (candidate p).2.1 < 0) : st'.grid = st.grid := by
  rcases stepPiece_cases h with ⟨hs', _⟩ | ⟨_, _, _, _, hg⟩ | ⟨_, _, _, _, _, _, hg⟩
  · rw [hs] at hs'
    exact absurd hs' (by simp)
  · rcases hg with ⟨h0, _⟩ | ⟨_, _, hgrid⟩
    · omega
    · exact hgrid
  · rcases hg with ⟨h0, _⟩ | ⟨_, hgrid⟩
    · omega
    · exact hgrid

theorem goInt_neg_iff (f : K) : goInt f < 0 ↔ f ≤ -1 := by
  rw [← not_le, goInt_nonneg_iff, not_lt]

/-- An unstopped piece whose cell is off the screen, above the bottom row and
not right above a ground cell, moves without being drawn. -/
theorem stepPiece_move_offscreen (p : Piece K) (st : TickState) (x y : Int) (vx newX : K)
    (hs : p.stopped = false) (hc : candidate p = (x, y, vx, newX))
    (hy : y < height - 1)
    (hbelow : ¬ (y + 1 ≥ 0 ∧ y + 1 < height) ∨ index2 st.ground (y + 1) x = some false)
    (hout : ¬ (y ≥ 0 ∧ y < height ∧ x ≥ 0 ∧ x < width)) :
    stepPiece p st = some ({ p with x := newX, y := p.y + (p.vy + gravity), vx := vx,
                                    vy := p.vy + gravity },
      { st with allStopped := false }) := by
  unfold stepPiece
  rw [if_neg (by simp [hs])]
  simp only [hc]
  have hb : (if y ≥ height - 1 then some true
      else if y + 1 ≥ 0 ∧ y + 1 < height then index2 st.ground (y + 1) x
      else some false) = some false := by
    rw [if_neg (not_le.mpr hy)]
    rcases hbelow with h | h
    · rw [if_neg h]
    · split
      · exact h
      · rfl
  rw [hb]
  simp only [Option.bind_eq_bind, Option.some_bind, Bool.false_eq_true, if_false]
  rw [if_neg hout]

/-- The loop body keeps a piece's `x` above −1 and below 80 and the size of its
`vx`, when that size is at most 1.5. -/
theorem stepPiece_column {p p' : Piece K} {st st' : TickState}
    (h : stepPiece p st = some (p', st'))
    (hp : -1 < p.x ∧ p.x < 80 ∧ |p.vx| ≤ 3 / 2) :
    -1 < p'.x ∧ p'.x < 80 ∧ |p'.vx| ≤ 3 / 2 := by
  obtain ⟨hx0, hx, hvx⟩ := hp
  have hvx' : |p.vx| < 81 / 2 := lt_of_le_of_lt hvx (by norm_num)
  obtain ⟨_, _, hn0, hn1, hnv⟩ := candidate_inRange p hx0 hx hvx'
  rcases stepPiece_cases h with ⟨_, hp', _⟩ | ⟨_, _, hp', _⟩ | ⟨_, _, _, hp', _⟩
  · rw [hp']
    exact ⟨hx0, hx, hvx⟩
  · rw [hp']
    exact ⟨hx0, hx, by rw [hnv]; exact hvx⟩
  · rw [hp']
    exact ⟨hn0, hn1, by rw [hnv]; exact hvx⟩

theorem tickLoop_column (ps : List (Piece K)) (st : TickState)
    (hground : Shaped st.ground) (hgrid : Shaped st.grid)
    (hp : ∀ p ∈ ps, -1 < p.x ∧ p.x < 80 ∧ |p.vx| ≤ 3 / 2) :
    ∃ ps' st', tickLoop ps st = some (ps', st') ∧ Shaped st'.ground ∧ Shaped st'.grid ∧
      ∀ p ∈ ps', -1 < p.x ∧ p.x < 80 ∧ |p.vx| ≤ 3 / 2 := by
  induction ps generalizing st with
  | nil => exact ⟨[], st, rfl, hground, hgrid, fun _ h => by simp at h⟩
  | cons q qs ih =>
    have hq := hp q (List.mem_cons_self _ _)
    obtain ⟨q', st1, h1, hg1, hgr1⟩ := stepPiece_progress q st hground hgrid
      (Or.inr ⟨hq.1, hq.2.1, lt_of_le_of_lt hq.2.2 (by norm_num)⟩)
    obtain ⟨qs', st', h2, hg2, hgr2, hps'⟩ :=
      ih st1 hg1 hgr1 (fun p hmem => hp p (List.mem_cons_of_mem _ hmem))
    refine ⟨q' :: qs', st', by simp [tickLoop, h1, h2], hg2, hgr2, ?_⟩
    intro p hmem
    rcases List.mem_cons.mp hmem with rfl | hmem
    · exact stepPiece_column h1 hq
    · exact hps' p hmem

theorem runTicks_column (n : Nat) (ps : List (Piece K)) (g : Ground) (hg : Shaped g)
    (hp : ∀ p ∈ ps, -1 < p.x ∧ p.x < 80 ∧ |p.vx| ≤ 3 / 2) :
    ∃ ps' g', runTicks n ps g = some (ps', g') ∧ Shaped g' ∧
      ∀ p ∈ ps', -1 < p.x ∧ p.x < 80 ∧ |p.vx| ≤ 3 / 2 := by
  induction n generalizing ps g with
  | zero => exact ⟨ps, g, rfl, hg, hp⟩
  | succ n ih =>
    obtain ⟨ps1, st1, h1, hg1, _, hp1⟩ :=
      tickLoop_column ps { ground := g, grid := makeGrid ' ', allStopped := true } hg
        (shaped_makeGrid ' ') hp
    have htick : tick ps g = some (ps1, st1) := h1
    obtain ⟨ps', g', h2, hg2, hp2⟩ := ih ps1 st1.ground hg1 hp1
    exact ⟨ps', g', by simp [runTicks, htick, h2], hg2, hp2⟩

theorem supported_makeGrid : Supported (makeGrid false) := by
  intro y x h
  exfalso
  unfold index2 at h
  split at h
  · split at h
    · exact absurd h (by simp)
    · rename_i row hrow
      have hmem : true ∈ row := List.mem_iff_getElem?.mpr ⟨_, h⟩
      have hrow' : row ∈ makeGrid false := List.mem_iff_getElem?.mpr ⟨_, hrow⟩
      rw [List.eq_of_mem_replicate hrow'] at hmem
      exact absurd (List.eq_of_mem_replicate hmem) (by decide)
  · exact absurd h (by simp)

/-- Marking a cell of the bottom row, or a cell right above a marked one, keeps
the pile supported. -/
theorem supported_assign2 {g g' : Ground} {y x : Int} (hg : Supported g)
    (h : assign2 g y x true = some g')
    (hcell : y ≥ 23 ∨ index2 g (y + 1) x = some true) : Supported g' := by
  intro y' x' hyx hlt
  have hle := groundLe_assign2 h
  rw [index2_assign2 h] at hyx
  split at hyx
  · rename_i heq
    obtain ⟨rfl, rfl⟩ := heq
    rcases hcell with hc | hc
    · omega
    · exact hle _ _ hc
  · exact hle _ _ (hg y' x' hyx hlt)

theorem stepPiece_supported {p p' : Piece K} {st st' : TickState}
    (h : stepPiece p st = some (p', st')) (hg : Supported st.ground) :
    Supported st'.ground := by
  rcases stepPiece_cases h with ⟨_, _, hgr, _⟩ | ⟨_, hcond, _, _, hgr⟩ | ⟨_, _, _, _, _, hgr, _⟩
  · rw [hgr]
    exact hg
  · rcases hgr with ⟨_, _, _, _, hassign, _⟩ | ⟨_, hgr, _⟩
    · refine supported_assign2 hg hassign ?_
      rcases hcond with hc | hc
      · left
        simp only [height] at hc
        omega
      · exact Or.inr hc
    · rw [hgr]
      exact hg
  · rw [hgr]
    exact hg

theorem tickLoop_supported {ps ps' : List (Piece K)} {st st' : TickState}
    (h : tickLoop ps st = some (ps', st')) (hg : Supported st.ground) :
    Supported st'.ground := by
  induction ps generalizing st ps' with
  | nil =>
    simp only [tickLoop, Option.some.injEq, Prod.mk.injEq] at h
    obtain ⟨_, rfl⟩ := h
    exact hg
  | cons p ps ih =>
    obtain ⟨p1, st1, ps1, h1, h2, _⟩ := tickLoop_cons h
    exact ih h2 (stepPiece_supported h1 hg)

theorem runTicks_supported {n : Nat} {ps ps' : List (Piece K)} {g g' : Ground}
    (h : runTicks n ps g = some (ps', g')) (hg : Supported g) : Supported g' := by
  induction n generalizing ps g with
  | zero =>
    simp only [runTicks, Option.some.injEq, Prod.mk.injEq] at h
    obtain ⟨_, rfl⟩ := h
    exact hg
  | succ n ih =>
    obtain ⟨ps1, st1, h1, h2⟩ := runTicks_succ h
    exact ih h2 (tickLoop_supported h1 hg)

end StepFacts

/-! ## Lemmas: what a hand leaves of the grid -/

section HandFrame

variable {K : Type} [LinearOrderedField K] [FloorRing K]

/-- A hand on a screen-shaped grid does not panic, keeps the shape, and leaves
every cell as it was or equal to `symbol`. -/
theorem drawHand_frame (m : GoMath K) (grid : Grid) (angle : K) (length : Int) (symbol : Char)
    (hg : Shaped grid) :
    ∃ g', drawHand m grid angle length symbol = some g' ∧ Shaped g' ∧
      ∀ y x : Int, index2 g' y x = index2 grid y x ∨ index2 g' y x = some symbol := by
  unfold drawHand
  apply forRange_invariant
    (fun g => Shaped g ∧
      ∀ y x : Int, index2 g y x = index2 grid y x ∨ index2 g y x = some symbol)
    _ _ _ _ grid ⟨hg, fun _ _ => Or.inl rfl⟩
  intro g i _ _ ⟨hs, hcells⟩
  simp only
  split
  · rename_i hb
    obtain ⟨g1, hg1, hs1⟩ := assign2_guarded symbol hs hb
    refine ⟨g1, hg1, hs1, fun y x => ?_⟩
    rw [index2_assign2 hg1]
    split
    · exact Or.inr rfl
    · exact hcells y x
  · exact ⟨g, rfl, hs, hcells⟩

end HandFrame

/-! ## Lemmas: free fall over an empty ground -/

section FreeFall

variable {K : Type} [LinearOrderedField K] [FloorRing K]

theorem index2_makeGrid_false (y x : Int) : index2 (makeGrid false) y x ≠ some true := by
  intro h
  unfold index2 at h
  split at h
  · split at h
    · exact absurd h (by simp)
    · rename_i row hrow
      have hmem : true ∈ row := List.mem_iff_getElem?.mpr ⟨_, h⟩
      have hrow' : row ∈ makeGrid false := List.mem_iff_getElem?.mpr ⟨_, hrow⟩
      rw [List.eq_of_mem_replicate hrow'] at hmem
      exact absurd (List.eq_of_mem_replicate hmem) (by decide)
  · exact absurd h (by simp)

theorem freeFallPiece_zero (x0 y0 : K) (c : Char) :
    freeFallPiece x0 y0 c 0 =
      { x := x0, y := y0, vx := 0, vy := 0, char := c, stopped := false } := by
  simp [freeFallPiece]

theorem freeFallPiece_candidate_y (x0 y0 : K) (c : Char) (k : Nat) :
    (candidate (freeFallPiece x0 y0 c k)).2.1 =
      goInt (y0 + 1 / 10 * ((k + 1 : Nat) : K) * (((k + 1 : Nat) : K) + 1)) := by
  rw [candidate_y]
  congr 1
  simp only [freeFallPiece, gravity]
  push_cast
  ring

theorem freeFallPiece_inRange (x0 y0 : K) (c : Char) (k : Nat) (hx0 : 0 ≤ x0) (hx : x0 < 80) :
    InRange (freeFallPiece x0 y0 c k) := by
  right
  refine ⟨?_, hx, ?_⟩
  · simp only [freeFallPiece]
    linarith
  · simp only [freeFallPiece, abs_zero]
    norm_num

theorem freeFallPiece_candidate_x (x0 y0 : K) (c : Char) (k : Nat) (hx0 : 0 ≤ x0)
    (hx : x0 < 80) :
    (candidate (freeFallPiece x0 y0 c k)).2.2.2 = x0 ∧
      (candidate (freeFallPiece x0 y0 c k)).2.2.1 = 0 := by
  have hstraight : ¬ (goInt ((freeFallPiece x0 y0 c k).x + (freeFallPiece x0 y0 c k).vx) < 0 ∨
      goInt ((freeFallPiece x0 y0 c k).x + (freeFallPiece x0 y0 c k).vx) ≥ width) := by
    simp only [freeFallPiece, add_zero, width]
    have h0 : 0 ≤ goInt x0 := (goInt_nonneg_iff x0).mpr (by linarith)
    have h1 : goInt x0 < 80 := (goInt_lt_iff x0 80 (by decide)).mpr (by simpa using hx)
    omega
  rw [candidate_straight _ hstraight]
  simp [freeFallPiece]

/-- Over an all-false ground a piece in free fall whose next cell is above the
bottom row moves on to the next piece of the closed form. -/
theorem stepPiece_freeFall (x0 y0 : K) (c : Char) (k : Nat) (grid : Grid) (b : Bool)
    (hx0 : 0 ≤ x0) (hx : x0 < 80) (hgrid : Shaped grid)
    (hk : goInt (y0 + 1 / 10 * ((k + 1 : Nat) : K) * (((k + 1 : Nat) : K) + 1)) < 23) :
    ∃ grid', stepPiece (freeFallPiece x0 y0 c k)
        { ground := makeGrid false, grid := grid, allStopped := b }
      = some (freeFallPiece x0 y0 c (k + 1),
          { ground := makeGrid false, grid := grid', allStopped := false }) ∧
      Shaped grid' := by
  obtain ⟨p', st', h, _, hsgr⟩ := stepPiece_progress (freeFallPiece x0 y0 c k)
    { ground := makeGrid false, grid := grid, allStopped := b } (shaped_makeGrid false) hgrid
    (freeFallPiece_inRange x0 y0 c k hx0 hx)
  obtain ⟨hcx, hcv⟩ := freeFallPiece_candidate_x x0 y0 c k hx0 hx
  rcases stepPiece_cases h with ⟨hs, _⟩ | ⟨_, hcond, _⟩ | ⟨_, _, _, hp', ha, hg, _⟩
  · exact absurd hs (by simp [freeFallPiece])
  · exfalso
    rcases hcond with hc | hc
    · rw [freeFallPiece_candidate_y] at hc
      simp only [height] at hc
      omega
    · exact index2_makeGrid_false _ _ hc
  · refine ⟨st'.grid, ?_, hsgr⟩
    rw [h]
    have hst : st' = { ground := makeGrid false, grid := st'.grid, allStopped := false } := by
      cases st'
      simp only at ha hg
      simp [ha, hg]
    have hp : p' = freeFallPiece x0 y0 c (k + 1) := by
      rw [hp', hcx, hcv]
      simp only [freeFallPiece, gravity, Piece.mk.injEq, true_and, and_true]
      constructor
      · push_cast
        ring
      · push_cast
        ring
    rw [hp, ← hst]

/-- Over an all-false ground a piece in free fall whose next cell is on the
bottom row or beyond stops where it is. -/
theorem stepPiece_freeFall_settle (x0 y0 : K) (c : Char) (k : Nat) (grid : Grid) (b : Bool)
    (hx0 : 0 ≤ x0) (hx : x0 < 80) (hgrid : Shaped grid)
    (hk : goInt (y0 + 1 / 10 * ((k + 1 : Nat) : K) * (((k + 1 : Nat) : K) + 1)) ≥ 23) :
    ∃ p' st', stepPiece (freeFallPiece x0 y0 c k)
        { ground := makeGrid false, grid := grid, allStopped := b } = some (p', st') ∧
      st'.allStopped = b ∧ p'.stopped = true ∧ p'.x = x0 ∧
      p'.y = y0 + 1 / 10 * (k : K) * ((k : K) + 1) := by
  obtain ⟨p', st', h, _, _⟩ := stepPiece_progress (freeFallPiece x0 y0 c k)
    { ground := makeGrid false, grid := grid, allStopped := b } (shaped_makeGrid false) hgrid
    (freeFallPiece_inRange x0 y0 c k hx0 hx)
  refine ⟨p', st', h, ?_⟩
  rcases stepPiece_cases h with ⟨hs, _⟩ | ⟨_, _, hp', ha, _⟩ | ⟨_, hlt, _⟩
  · exact absurd hs (by simp [freeFallPiece])
  · rw [hp']
    exact ⟨ha, rfl, rfl, rfl⟩
  · exfalso
    rw [freeFallPiece_candidate_y] at hlt
    simp only [height] at hlt
    omega

theorem tick_freeFall (x0 y0 : K) (c : Char) (k : Nat) (hx0 : 0 ≤ x0) (hx : x0 < 80)
    (hk : goInt (y0 + 1 / 10 * ((k + 1 : Nat) : K) * (((k + 1 : Nat) : K) + 1)) < 23) :
    ∃ grid', tick [freeFallPiece x0 y0 c k] (makeGrid false) =
      some ([freeFallPiece x0 y0 c (k + 1)],
        { ground := makeGrid false, grid := grid', allStopped := false }) := by
  obtain ⟨grid', h, _⟩ := stepPiece_freeFall x0 y0 c k (makeGrid ' ') true hx0 hx
    (shaped_makeGrid ' ') hk
  exact ⟨grid', by simp [tick, tickLoop, h]⟩

theorem tick_freeFall_settle (x0 y0 : K) (c : Char) (k : Nat) (hx0 : 0 ≤ x0) (hx : x0 < 80)
    (hk : goInt (y0 + 1 / 10 * ((k + 1 : Nat) : K) * (((k + 1 : Nat) : K) + 1)) ≥ 23) :
    ∃ p' st', tick [freeFallPiece x0 y0 c k] (makeGrid false) = some ([p'], st') ∧
      st'.allStopped = true ∧ p'.stopped = true ∧ p'.x = x0 ∧
      p'.y = y0 + 1 / 10 * (k : K) * ((k : K) + 1) := by
  obtain ⟨p', st', h, ha, hrest⟩ := stepPiece_freeFall_settle x0 y0 c k (makeGrid ' ') true
    hx0 hx (shaped_makeGrid ' ') hk
  exact ⟨p', st', by simp [tick, tickLoop, h], ha, hrest⟩

theorem runTicks_freeFall (x0 y0 : K) (c : Char) (hx0 : 0 ≤ x0) (hx : x0 < 80) (n k : Nat)
    (hn : ∀ j : Nat, k < j → j ≤ k + n →
      goInt (y0 + 1 / 10 * (j : K) * ((j : K) + 1)) < 23) :
    runTicks n [freeFallPiece x0 y0 c k] (makeGrid false) =
      some ([freeFallPiece x0 y0 c (k + n)], makeGrid false) := by
  induction n generalizing k with
  | zero => rfl
  | succ n ih =>
    obtain ⟨grid', h⟩ := tick_freeFall x0 y0 c k hx0 hx (hn (k + 1) (by omega) (by omega))
    simp only [runTicks, h, Option.bind_eq_bind, Option.some_bind]
    rw [ih (k + 1) (fun j hj1 hj2 => hn j (by omega) (by omega))]
    congr 4
    omega

theorem simulateLoop_freeFall (x0 y0 : K) (c : Char) (hx0 : 0 ≤ x0) (hx : x0 < 80)
    (n k done : Nat)
    (hn : ∀ j : Nat, k < j → j ≤ k + n →
      goInt (y0 + 1 / 10 * (j : K) * ((j : K) + 1)) < 23)
    (hlast : goInt (y0 + 1 / 10 * ((k + n + 1 : Nat) : K) * (((k + n + 1 : Nat) : K) + 1)) ≥ 23) :
    ∃ p' ground', simulateLoop (n + 1) done [freeFallPiece x0 y0 c k] (makeGrid false) =
        SimResult.exited (done + n + 1) [p'] ground' ∧
      p'.stopped = true ∧ p'.x = x0 ∧
      p'.y = y0 + 1 / 10 * ((k + n : Nat) : K) * (((k + n : Nat) : K) + 1) := by
  induction n generalizing k done with
  | zero =>
    obtain ⟨p', st', h, ha, hs, hpx, hpy⟩ := tick_freeFall_settle x0 y0 c k hx0 hx hlast
    exact ⟨p', st'.ground, by simp [simulateLoop, h, ha], hs, hpx, hpy⟩
  | succ n ih =>
    obtain ⟨grid', h⟩ := tick_freeFall x0 y0 c k hx0 hx (hn (k + 1) (by omega) (by omega))
    obtain ⟨p', g', h2, hs, hpx, hpy⟩ := ih (k + 1) (done + 1)
      (fun j hj1 hj2 => hn j (by omega) (by omega))
      (by
        have e : k + 1 + n + 1 = k + (n + 1) + 1 := by omega
        rw [e]
        exact hlast)
    refine ⟨p', g', ?_, hs, hpx, ?_⟩
    · rw [simulateLoop, h]
      simp only [Bool.false_eq_true, if_false]
      rw [h2]
      congr 1
      omega
    · rw [hpy]
      have e : k + 1 + n = k + (n + 1) := by omega
      rw [e]

end FreeFall

/-! ## Lemmas: the circle -/

section CircleLemmas

/-- A loop whose body does not panic, keeps `Inv`, moves the state along the
preorder `R` and establishes `Q i` for its index `i`, runs through and ends in a
state where `Q i` holds for every index, when `R` preserves every `Q i`. -/
theorem foldlM_establishes {σ ι : Type} (Inv : σ → Prop) (R : σ → σ → Prop)
    (Q : ι → σ → Prop) (body : σ → ι → Option σ) (l : List ι)
    (hrefl : ∀ s, R s s) (htrans : ∀ a b c, R a b → R b c → R a c)
    (hQ : ∀ j s s', R s s' → Q j s → Q j s')
    (hbody : ∀ s i, i ∈ l → Inv s → ∃ s', body s i = some s' ∧ Inv s' ∧ R s s' ∧ Q i s')
    (init : σ) (hinit : Inv init) :
    ∃ s', l.foldlM body init = some s' ∧ Inv s' ∧ R init s' ∧ ∀ i ∈ l, Q i s' := by
  induction l generalizing init with
  | nil => exact ⟨init, rfl, hinit, hrefl init, fun _ h => by simp at h⟩
  | cons i l ih =>
    obtain ⟨s1, h1, hI1, hR1, hQ1⟩ := hbody init i (List.mem_cons_self _ _) hinit
    obtain ⟨s2, h2, hI2, hR2, hQ2⟩ :=
      ih (fun s j hj hs => hbody s j (List.mem_cons_of_mem _ hj) hs) s1 hI1
    refine ⟨s2, ?_, hI2, htrans _ _ _ hR1 hR2, fun j hj => ?_⟩
    · rw [List.foldlM_cons, h1]
      exact h2
    · rcases List.mem_cons.mp hj with rfl | hj
      · exact hQ j s1 s2 hR2 hQ1
      · exact hQ2 j hj

/-- Every cell of a fresh allocation holds the fill value. -/
theorem index2_makeGrid_eq {α : Type} (v c : α) (y x : Int)
    (h : index2 (makeGrid v) y x = some c) : c = v := by
  unfold index2 at h
  split at h
  · split at h
    · exact absurd h (by simp)
    · rename_i row hrow
      have hmem : c ∈ row := List.mem_iff_getElem?.mpr ⟨_, h⟩
      have hrow' : row ∈ makeGrid v := List.mem_iff_getElem?.mpr ⟨_, hrow⟩
      rw [List.eq_of_mem_replicate hrow'] at hmem
      exact List.eq_of_mem_replicate hmem
  · exact absurd h (by simp)

theorem mem_forRange_indices_of {lo hi i : Int} (h1 : lo ≤ i) (h2 : i < hi) :
    i ∈ (List.range (hi - lo).toNat).map (fun (k : Nat) => lo + (k : Int)) := by
  simp only [List.mem_map, List.mem_range]
  exact ⟨(i - lo).toNat, by omega, by omega⟩

theorem forRange_establishes {σ : Type} (Inv : σ → Prop) (R : σ → σ → Prop)
    (Q : Int → σ → Prop) (lo hi : Int) (body : σ → Int → Option σ)
    (hrefl : ∀ s, R s s) (htrans : ∀ a b c, R a b → R b c → R a c)
    (hQ : ∀ j s s', R s s' → Q j s → Q j s')
    (hbody : ∀ s i, lo ≤ i → i < hi → Inv s →
      ∃ s', body s i = some s' ∧ Inv s' ∧ R s s' ∧ Q i s')
    (init : σ) (hinit : Inv init) :
    ∃ s', forRange lo hi body init = some s' ∧ Inv s' ∧ R init s' ∧
      ∀ i, lo ≤ i → i < hi → Q i s' := by
  unfold forRange
  obtain ⟨s', h, hI, hR, hall⟩ := foldlM_establishes Inv R Q body _ hrefl htrans hQ
    (fun s i hi hs => hbody s i (mem_forRange_indices hi).1 (mem_forRange_indices hi).2 hs)
    init hinit
  exact ⟨s', h, hI, hR, fun i h1 h2 => hall i (mem_forRange_indices_of h1 h2)⟩

variable {K : Type} [LinearOrderedField K] [FloorRing K]

/-- The circle on a screen-shaped grid: no panic, the shape kept, a `*` in every
cell that passes the test, the `*` cells of the grid kept, and no other `*`. -/
theorem drawCircle_spec (m : GoMath K) (grid : Grid) (hg : Shaped grid) :
    ∃ g', drawCircle m grid = some g' ∧ Shaped g' ∧
      (∀ y x : Int, 0 ≤ y → y < 24 → 0 ≤ x → x < 80 → onCircle m x y →
        index2 g' y x = some '*') ∧
      (∀ y x : Int, index2 g' y x = some '*' →
        index2 grid y x = some '*' ∨
          (0 ≤ y ∧ y < 24 ∧ 0 ≤ x ∧ x < 80 ∧ onCircle m x y)) := by
  unfold drawCircle
  simp only
  obtain ⟨g', h, ⟨hs, hsound⟩, _, hall⟩ := forRange_establishes
    (fun g => Shaped g ∧ ∀ y x : Int, index2 g y x = some '*' →
      index2 grid y x = some '*' ∨ (0 ≤ y ∧ y < 24 ∧ 0 ≤ x ∧ x < 80 ∧ onCircle m x y))
    (fun g g1 => ∀ y x : Int, index2 g y x = some '*' → index2 g1 y x = some '*')
    (fun y g => ∀ x : Int, 0 ≤ x → x < 80 → onCircle m x y → index2 g y x = some '*')
    0 height
    (fun grid y =>
      forRange 0 width (fun grid x =>
        if m.sqrt (((x - centerX : Int) : K) * (1 / 2) * (((x - centerX : Int) : K) * (1 / 2)) +
              ((y - centerY : Int) : K) * ((y - centerY : Int) : K)) ≥
            ((height / 2 : Int) : K) - 2 - 1 / 2 ∧
          m.sqrt (((x - centerX : Int) : K) * (1 / 2) * (((x - centerX : Int) : K) * (1 / 2)) +
              ((y - centerY : Int) : K) * ((y - centerY : Int) : K)) ≤
            ((height / 2 : Int) : K) - 2 + 1 / 2 then
          assign2 grid y x '*'
        else some grid) grid)
    (fun _ _ _ h => h) (fun _ _ _ h1 h2 y x h => h2 y x (h1 y x h))
    (fun y g g1 hR hq x hx0 hx hc => hR y x (hq x hx0 hx hc))
    (by
      intro g y hy0 hy ⟨hs, hsound⟩
      obtain ⟨g1, h1, hI1, hR1, hall1⟩ := forRange_establishes
        (fun g => Shaped g ∧ ∀ y x : Int, index2 g y x = some '*' →
          index2 grid y x = some '*' ∨ (0 ≤ y ∧ y < 24 ∧ 0 ≤ x ∧ x < 80 ∧ onCircle m x y))
        (fun g g1 => ∀ y x : Int, index2 g y x = some '*' → index2 g1 y x = some '*')
        (fun x g => onCircle m x y → index2 g y x = some '*')
        0 width
        (fun grid x =>
          if m.sqrt (((x - centerX : Int) : K) * (1 / 2) *
                  (((x - centerX : Int) : K) * (1 / 2)) +
                ((y - centerY : Int) : K) * ((y - centerY : Int) : K)) ≥
              ((height / 2 : Int) : K) - 2 - 1 / 2 ∧
            m.sqrt (((x - centerX : Int) : K) * (1 / 2) *
                  (((x - centerX : Int) : K) * (1 / 2)) +
                ((y - centerY : Int) : K) * ((y - centerY : Int) : K)) ≤
              ((height / 2 : Int) : K) - 2 + 1 / 2 then
            assign2 grid y x '*'
          else some grid)
        (fun _ _ _ h => h) (fun _ _ _ h1 h2 y x h => h2 y x (h1 y x h))
        (fun x g g1 hR hq hc => hR y x (hq hc))
        (by
          intro g2 x hx0 hx ⟨hs2, hsound2⟩
          simp only
          split
          · rename_i hc
            obtain ⟨g3, hg3, hs3⟩ := assign2_guarded '*' hs2 ⟨hx0, hx, hy0, hy⟩
            refine ⟨g3, hg3, ⟨hs3, fun y' x' h' => ?_⟩, fun y' x' h' => ?_,
              fun _ => index2_assign2_self hg3⟩
            · rw [index2_assign2 hg3] at h'
              split at h'
              · rename_i heq
                obtain ⟨rfl, rfl⟩ := heq
                exact Or.inr ⟨hy0, by simpa [height] using hy, hx0,
                  by simpa [width] using hx, hc⟩
              · exact hsound2 y' x' h'
            · rw [index2_assign2 hg3]
              split
              · rfl
              · exact h'
          · rename_i hc
            exact ⟨g2, rfl, ⟨hs2, hsound2⟩, fun _ _ h' => h', fun hc' => absurd hc' hc⟩)
        g ⟨hs, hsound⟩
      exact ⟨g1, h1, hI1, hR1, fun x hx0 hx hc =>
        hall1 x hx0 (by simpa [width] using hx) hc⟩)
    grid ⟨hg, fun _ _ h => Or.inl h⟩
  exact ⟨g', h, hs, fun y x hy0 hy hx0 hx hc =>
    hall y hy0 (by simpa [height] using hy) x hx0 hx hc, hsound⟩

end CircleLemmas

section CircleReal

/-- The test of `drawCircle` over the reals depends on the column only through
its distance from column 40. -/
theorem onCircle_mirror (k y : Int) (h : onCircle realMath (40 + k) y) :
    onCircle realMath (40 - k) y := by
  unfold onCircle at h ⊢
  have e : (((40 - k - centerX : Int) : ℝ) * (1 / 2)) * (((40 - k - centerX : Int) : ℝ) * (1 / 2))
      = (((40 + k - centerX : Int) : ℝ) * (1 / 2)) * (((40 + k - centerX : Int) : ℝ) * (1 / 2)) := by
    simp only [centerX, width]
    push_cast
    ring
  rw [e]
  exact h

/-- Over the reals no cell of column 0 passes the test of `drawCircle`. -/
theorem not_onCircle_zero (y : Int) : ¬ onCircle realMath 0 y := by
  intro h
  have h2 := h.2
  simp only [realMath, centerX, centerY, width, height] at h2
  norm_num at h2
  rw [Real.sqrt_le_left (by norm_num)] at h2
  nlinarith [sq_nonneg (((y : ℝ) - 12))]

/-- Over the reals the cell (20, 12) passes the test of `drawCircle`. -/
theorem onCircle_left : onCircle realMath 20 12 := by
  unfold onCircle
  simp only [realMath, centerX, centerY, width, height]
  norm_num
  constructor
  · apply Real.le_sqrt_of_sq_le
    norm_num
  · rw [Real.sqrt_le_left (by norm_num)]
    norm_num

end CircleReal

/-! ## Lemmas: concrete runs -/

section ConcreteRuns

theorem candidate_fallingPiece : candidate fallingPiece = (40, 23, 0, 40) := by
  simp [candidate, fallingPiece, gravity, goInt, width]
  norm_num [Int.floor_eq_iff]

theorem candidate_slantingPiece : candidate slantingPiece = (40, 23, -1 / 2, 81 / 2) := by
  simp [candidate, slantingPiece, gravity, goInt, width]
  norm_num [Int.floor_eq_iff]

theorem candidate_strayPiece : candidate strayPiece = (-60, 0, -100, -60) := by
  simp [candidate, strayPiece, gravity, goInt, width]
  norm_num [Int.floor_eq_iff, Int.ceil_eq_iff]

theorem stepPiece_fallingPiece (grid : Grid) (hgrid : Shaped grid) (b : Bool) :
    ∃ grid', stepPiece fallingPiece { ground := makeGrid false, grid := grid, allStopped := b }
      = some (settledPiece, { ground := landedGround, grid := grid', allStopped := b }) ∧
      Shaped grid' := by
  obtain ⟨grid', hgrid'⟩ := assign2_isSome (g := grid) (y := 23) (x := 40) '*' hgrid
    (by decide) (by decide) (by decide) (by decide)
  refine ⟨grid', ?_, assign2_shaped hgrid hgrid'⟩
  have h := stepPiece_settle fallingPiece
    { ground := makeGrid false, grid := grid, allStopped := b } 40 23 0 40 landedGround grid'
    rfl candidate_fallingPiece (Or.inl (by decide)) (by decide)
    (show assign2 (makeGrid false) 23 40 true = some landedGround by decide) hgrid'
  rw [h]
  simp only [fallingPiece, settledPiece, gravity]
  norm_num

theorem stepPiece_slantingPiece (grid : Grid) (hgrid : Shaped grid) (b : Bool) :
    ∃ grid', stepPiece slantingPiece { ground := landedGround, grid := grid, allStopped := b }
      = some (settledSlanting, { ground := landedGround, grid := grid', allStopped := b }) ∧
      Shaped grid' := by
  obtain ⟨grid', hgrid'⟩ := assign2_isSome (g := grid) (y := 23) (x := 40) '3' hgrid
    (by decide) (by decide) (by decide) (by decide)
  refine ⟨grid', ?_, assign2_shaped hgrid hgrid'⟩
  have h := stepPiece_settle slantingPiece
    { ground := landedGround, grid := grid, allStopped := b } 40 23 (-1 / 2) (81 / 2)
    landedGround grid' rfl candidate_slantingPiece (Or.inl (by decide)) (by decide)
    (show assign2 landedGround 23 40 true = some landedGround by decide) hgrid'
  rw [h]
  simp only [slantingPiece, settledSlanting, gravity]
  norm_num

theorem runTicks_fallingPiece :
    runTicks 1 [fallingPiece] (makeGrid false) = some ([settledPiece], landedGround) := by
  obtain ⟨grid', h, _⟩ := stepPiece_fallingPiece (makeGrid ' ') (shaped_makeGrid ' ') true
  simp [runTicks, tick, tickLoop, h]

theorem runTicks_two_pieces :
    runTicks 1 [fallingPiece, slantingPiece] (makeGrid false)
      = some ([settledPiece, settledSlanting], landedGround) := by
  obtain ⟨grid1, h1, hs1⟩ := stepPiece_fallingPiece (makeGrid ' ') (shaped_makeGrid ' ') true
  obtain ⟨grid2, h2, _⟩ := stepPiece_slantingPiece grid1 hs1 true
  simp [runTicks, tick, tickLoop, h1, h2]

theorem stepPiece_strayPiece (st : TickState) (h : st.ground = makeGrid false) :
    stepPiece strayPiece st = none :=
  stepPiece_panic strayPiece st (-60) 0 (-100) (-60) rfl candidate_strayPiece (by decide)
    (by decide) (by rw [h]; decide)

theorem restingPiece_tick :
    runTicks 1 [restingPiece] (makeGrid false) = some ([restingPiece], makeGrid false) := by
  have hx : goInt restingPiece.x = 5 := by
    have := goInt_intCast (K := ℚ) 5
    simpa [restingPiece] using this
  have hy : goInt restingPiece.y = 23 := by
    have := goInt_intCast (K := ℚ) 23
    simpa [restingPiece] using this
  obtain ⟨grid, hgrid⟩ := assign2_isSome (g := makeGrid ' ') (y := 23) (x := 5) '*'
    (shaped_makeGrid ' ') (by decide) (by decide) (by decide) (by decide)
  have hstep := stepPiece_redraw restingPiece
    { ground := makeGrid false, grid := makeGrid ' ', allStopped := true } grid rfl
    (by rw [hx, hy]; decide) (by rw [hx, hy]; exact hgrid)
  simp [runTicks, tick, tickLoop, hstep]

theorem index2_makeGrid_blank (y x : Int) : index2 (makeGrid ' ') y x ≠ some 'h' := by
  intro h
  unfold index2 at h
  split at h
  · split at h
    · exact absurd h (by simp)
    · rename_i row hrow
      have hmem : 'h' ∈ row := List.mem_iff_getElem?.mpr ⟨_, h⟩
      have hrow' : row ∈ makeGrid ' ' := List.mem_iff_getElem?.mpr ⟨_, hrow⟩
      rw [List.eq_of_mem_replicate hrow'] at hmem
      exact absurd (List.eq_of_mem_replicate hmem) (by decide)
  · exact absurd h (by simp)

theorem candidate_bouncingPiece : candidate bouncingPiece = (3, 12, 2, 3) := by
  have h1 : goInt (bouncingPiece.x + bouncingPiece.vx) = -1 := by
    have := goInt_intCast (K := ℚ) (-1)
    simp only [bouncingPiece]
    norm_num at this ⊢
    exact this
  rw [candidate_reflect _ (Or.inl (by rw [h1]; decide))]
  simp [bouncingPiece, gravity, goInt]
  norm_num [Int.floor_eq_iff]

theorem stepPiece_bouncingPiece :
    ∃ grid', stepPiece bouncingPiece
        { ground := makeGrid false, grid := makeGrid ' ', allStopped := true }
      = some (bouncedPiece, { ground := makeGrid false, grid := grid', allStopped := false }) ∧
      index2 grid' 12 3 = some '*' := by
  obtain ⟨grid', hgrid'⟩ := assign2_isSome (g := makeGrid ' ') (y := 12) (x := 3) '*'
    (shaped_makeGrid ' ') (by decide) (by decide) (by decide) (by decide)
  refine ⟨grid', ?_, index2_assign2_self hgrid'⟩
  have h := stepPiece_move bouncingPiece
    { ground := makeGrid false, grid := makeGrid ' ', allStopped := true } 3 12 2 3 grid'
    rfl candidate_bouncingPiece (by decide)
    (show index2 (makeGrid false) (12 + 1) 3 = some false by decide) (by decide) hgrid'
  rw [h]
  simp only [bouncingPiece, bouncedPiece, gravity]
  norm_num

theorem runTicks_bouncingPiece :
    runTicks 1 [bouncingPiece] (makeGrid false) = some ([bouncedPiece], makeGrid false) := by
  obtain ⟨grid', h, _⟩ := stepPiece_bouncingPiece
  simp [runTicks, tick, tickLoop, h]

theorem candidate_hoveringPiece : candidate hoveringPiece = (5, -2, 0, 5) := by
  simp [candidate, hoveringPiece, gravity, goInt, width]
  norm_num [Int.floor_eq_iff, Int.ceil_eq_iff]

theorem stepPiece_hoveringPiece (st : TickState) :
    stepPiece hoveringPiece st = some (hoveredPiece, { st with allStopped := false }) := by
  have h := stepPiece_move_offscreen hoveringPiece st 5 (-2) 0 5 rfl candidate_hoveringPiece
    (by decide) (Or.inl (by decide)) (by decide)
  rw [h]
  simp only [hoveringPiece, hoveredPiece, gravity]
  norm_num

theorem candidate_grazingPiece : candidate grazingPiece = (5, 0, 0, 5) := by
  simp [candidate, grazingPiece, gravity, goInt, width]
  norm_num [Int.floor_eq_iff, Int.ceil_eq_iff]

theorem stepPiece_grazingPiece :
    ∃ grid', stepPiece grazingPiece
        { ground := makeGrid false, grid := makeGrid ' ', allStopped := true }
      = some (grazedPiece, { ground := makeGrid false, grid := grid', allStopped := false }) ∧
      index2 grid' 0 5 = some '*' := by
  obtain ⟨grid', hgrid'⟩ := assign2_isSome (g := makeGrid ' ') (y := 0) (x := 5) '*'
    (shaped_makeGrid ' ') (by decide) (by decide) (by decide) (by decide)
  refine ⟨grid', ?_, index2_assign2_self hgrid'⟩
  have h := stepPiece_move grazingPiece
    { ground := makeGrid false, grid := makeGrid ' ', allStopped := true } 5 0 0 5 grid'
    rfl candidate_grazingPiece (by decide)
    (show index2 (makeGrid false) (0 + 1) 5 = some false by decide) (by decide) hgrid'
  rw [h]
  simp only [grazingPiece, grazedPiece, gravity]
  norm_num

theorem stackLower_freeFall :
    stackLower = freeFallPiece 5 22 'a' 0 ∧ stackLower1 = freeFallPiece 5 22 'a' 1 ∧
      stackLower2 = freeFallPiece 5 22 'a' 2 := by
  refine ⟨?_, ?_, ?_⟩
  · simp only [stackLower, freeFallPiece]; norm_num
  · simp only [stackLower1, freeFallPiece]; norm_num
  · simp only [stackLower2, freeFallPiece]; norm_num

theorem stackUpper_freeFall :
    stackUpper = freeFallPiece 5 21 'b' 0 ∧ stackUpper1 = freeFallPiece 5 21 'b' 1 ∧
      stackUpper2 = freeFallPiece 5 21 'b' 2 := by
  refine ⟨?_, ?_, ?_⟩
  · simp only [stackUpper, freeFallPiece]; norm_num
  · simp only [stackUpper1, freeFallPiece]; norm_num
  · simp only [stackUpper2, freeFallPiece]; norm_num

theorem goInt_rat_lt (f : ℚ) (n : Int) (hn : 0 < n) (h : f < (n : ℚ)) : goInt f < n :=
  (goInt_lt_iff f n hn).mpr h

theorem tick_stack_first :
    ∃ grid', tick [stackLower, stackUpper] (makeGrid false) =
      some ([stackLower1, stackUpper1],
        { ground := makeGrid false, grid := grid', allStopped := false }) := by
  obtain ⟨g1, h1, hs1⟩ := stepPiece_freeFall (K := ℚ) 5 22 'a' 0 (makeGrid ' ') true
    (by norm_num) (by norm_num) (shaped_makeGrid ' ')
    (goInt_rat_lt _ 23 (by decide) (by norm_num))
  obtain ⟨g2, h2, _⟩ := stepPiece_freeFall (K := ℚ) 5 21 'b' 0 g1 false
    (by norm_num) (by norm_num) hs1 (goInt_rat_lt _ 23 (by decide) (by norm_num))
  rw [← stackLower_freeFall.1, ← stackLower_freeFall.2.1] at h1
  rw [← stackUpper_freeFall.1, ← stackUpper_freeFall.2.1] at h2
  exact ⟨g2, by simp [tick, tickLoop, h1, h2]⟩

theorem tick_stack_second :
    ∃ grid', tick [stackLower1, stackUpper1] (makeGrid false) =
      some ([stackLower2, stackUpper2],
        { ground := makeGrid false, grid := grid', allStopped := false }) := by
  obtain ⟨g1, h1, hs1⟩ := stepPiece_freeFall (K := ℚ) 5 22 'a' 1 (makeGrid ' ') true
    (by norm_num) (by norm_num) (shaped_makeGrid ' ')
    (goInt_rat_lt _ 23 (by decide) (by norm_num))
  obtain ⟨g2, h2, _⟩ := stepPiece_freeFall (K := ℚ) 5 21 'b' 1 g1 false
    (by norm_num) (by norm_num) hs1 (goInt_rat_lt _ 23 (by decide) (by norm_num))
  rw [← stackLower_freeFall.2.1, ← stackLower_freeFall.2.2] at h1
  rw [← stackUpper_freeFall.2.1, ← stackUpper_freeFall.2.2] at h2
  exact ⟨g2, by simp [tick, tickLoop, h1, h2]⟩

theorem candidate_stackLower2 : candidate stackLower2 = (5, 23, 0, 5) := by
  simp [candidate, stackLower2, gravity, goInt, width]
  norm_num [Int.floor_eq_iff]

theorem candidate_stackUpper2 : candidate stackUpper2 = (5, 22, 0, 5) := by
  simp [candidate, stackUpper2, gravity, goInt, width]
  norm_num [Int.floor_eq_iff]

theorem tick_stack_third :
    ∃ grid', tick [stackLower2, stackUpper2] (makeGrid false) =
      some ([stackLower3, stackUpper3],
        { ground := stackedGround, grid := grid', allStopped := true }) := by
  obtain ⟨g1, hg1⟩ := assign2_isSome (g := makeGrid ' ') (y := 23) (x := 5) 'a'
    (shaped_makeGrid ' ') (by decide) (by decide) (by decide) (by decide)
  have hs1 := assign2_shaped (shaped_makeGrid ' ') hg1
  obtain ⟨g2, hg2⟩ := assign2_isSome (g := g1) (y := 22) (x := 5) 'b' hs1
    (by decide) (by decide) (by decide) (by decide)
  have h1 := stepPiece_settle stackLower2
    { ground := makeGrid false, grid := makeGrid ' ', allStopped := true } 5 23 0 5
    floorGround g1 rfl candidate_stackLower2 (Or.inl (by decide)) (by decide)
    (show assign2 (makeGrid false) 23 5 true = some floorGround by decide) hg1
  have h2 := stepPiece_settle stackUpper2
    { ground := floorGround, grid := g1, allStopped := true } 5 22 0 5
    stackedGround g2 rfl candidate_stackUpper2
    (Or.inr ⟨by decide, by decide, show index2 floorGround (22 + 1) 5 = some true by decide⟩)
    (by decide) (show assign2 floorGround 22 5 true = some stackedGround by decide) hg2
  have e1 : ({ stackLower2 with vx := 0, vy := stackLower2.vy + gravity, stopped := true } :
      Piece ℚ) = stackLower3 := by
    simp only [stackLower2, stackLower3, gravity]
    norm_num
  have e2 : ({ stackUpper2 with vx := 0, vy := stackUpper2.vy + gravity, stopped := true } :
      Piece ℚ) = stackUpper3 := by
    simp only [stackUpper2, stackUpper3, gravity]
    norm_num
  rw [e1] at h1
  rw [e2] at h2
  exact ⟨g2, by simp [tick, tickLoop, h1, h2]⟩

theorem runTicks_stack_one :
    runTicks 1 [stackLower, stackUpper] (makeGrid false) =
      some ([stackLower1, stackUpper1], makeGrid false) := by
  obtain ⟨g1, h1⟩ := tick_stack_first
  simp [runTicks, h1]

theorem runTicks_stack_two :
    runTicks 2 [stackLower, stackUpper] (makeGrid false) =
      some ([stackLower2, stackUpper2], makeGrid false) := by
  obtain ⟨g1, h1⟩ := tick_stack_first
  obtain ⟨g2, h2⟩ := tick_stack_second
  simp [runTicks, h1, h2]

theorem runTicks_stack_three :
    runTicks 3 [stackLower, stackUpper] (makeGrid false) =
      some ([stackLower3, stackUpper3], stackedGround) := by
  obtain ⟨g1, h1⟩ := tick_stack_first
  obtain ⟨g2, h2⟩ := tick_stack_second
  obtain ⟨g3, h3⟩ := tick_stack_third
  simp [runTicks, h1, h2, h3]

theorem simulatePieces_stack :
    simulatePieces 3 [stackLower, stackUpper] =
      SimResult.exited 3 [stackLower3, stackUpper3] stackedGround := by
  obtain ⟨g1, h1⟩ := tick_stack_first
  obtain ⟨g2, h2⟩ := tick_stack_second
  obtain ⟨g3, h3⟩ := tick_stack_third
  simp [simulatePieces, simulateLoop, h1, h2, h3]

end ConcreteRuns

/-! ## The claims -/

section Claims

variable {K : Type} [LinearOrderedField K] [FloorRing K]

/-- C1, the code at the failing input: simulatePieces on the one-piece list
holding an unstopped piece at (40, 0) with vx = 100, vy = 0 never exits its
loop. On the first tick the candidate column 140 is off the grid, vx is
negated and the column becomes −60; the settling test at line 228 then reads
ground[1][−60] with no check of the column, unlike the accesses at lines 208,
230 and 235, and the run ends in an index-out-of-range panic instead of a tick
on which every piece is stopped. -/
theorem stray_piece_never_exits :
    simulatePieces 1 [strayPiece] = SimResult.panicked ∧
    ¬ ∃ fuel ticks pieces ground,
      simulatePieces fuel [strayPiece] = SimResult.exited ticks pieces ground := by
  have hstep := stepPiece_strayPiece
    { ground := makeGrid false, grid := makeGrid ' ', allStopped := true } rfl
  have htick : tick [strayPiece] (makeGrid false) = none := by
    simp [tick, tickLoop, hstep]
  constructor
  · simp [simulatePieces, simulateLoop, htick]
  · rintro ⟨fuel, ticks, pieces, ground, h⟩
    cases fuel with
    | zero => simp [simulatePieces, simulateLoop] at h
    | succ fuel => simp [simulatePieces, simulateLoop, htick] at h

/-- C2, as amended: starting from speed = 100 ms and spin_count = 0, the spin
driver calls the break-apart transition after exactly 10 complete revolutions
(4 that end with a speed decrement, then 6 at the 20 ms floor), not 11: with
fewer than 10 revolutions allowed it has not yet called it, and with 10 or more
it calls it after the 10th, with spin_count = 6; after every smaller number of
revolutions spin_count is at most 5. -/
theorem spinDriver_ten_revolutions (m : GoMath K) (fuel : Nat) :
    (fuel < 10 → spinDriver m fuel initialState = none) ∧
    (10 ≤ fuel → ∃ s, spinDriver m fuel initialState = some (10, s) ∧ s.spinCount = 6) ∧
    (∀ k, k < 10 → ∃ s, afterRevolutions m k initialState = some s ∧ s.spinCount ≤ 5) := by
  obtain ⟨hnone, hsome⟩ :=
    spinDriver_spec m fuel initialState 4 0 initialState_speed initialState_spinCount (by decide)
  refine ⟨fun h => hnone (by omega), fun h => ?_, fun k hk => ?_⟩
  · obtain ⟨s, hs, _, hc, _⟩ := hsome (by omega)
    exact ⟨s, hs, hc⟩
  · obtain ⟨s, hs, _, hc⟩ := afterRevolutions_spec m k initialState 4 0 initialState_speed
      initialState_spinCount (by decide) (by omega)
    refine ⟨s, hs, ?_⟩
    rw [hc]
    omega

/-- C2 fails as stated: allowed 11 revolutions, the driver calls the break-apart
transition after the 10th, and no number of allowed revolutions makes it call
the transition after 11. -/
theorem spinDriver_not_eleven :
    (spinDriver realMath 11 initialState).map Prod.fst = some 10 ∧
    ¬ ∃ fuel s, spinDriver realMath fuel initialState = some (11, s) := by
  constructor
  · obtain ⟨s, hs, _⟩ := (spinDriver_spec realMath 11 initialState 4 0 initialState_speed
      initialState_spinCount (by decide)).2 (by decide)
    rw [hs]
    rfl
  · rintro ⟨fuel, s, h⟩
    obtain ⟨hnone, hsome⟩ := spinDriver_spec realMath fuel initialState 4 0 initialState_speed
      initialState_spinCount (by decide)
    by_cases hf : fuel < 4 + (6 - 0)
    · rw [hnone hf] at h
      exact absurd h (by simp)
    · obtain ⟨s1, hs1, _⟩ := hsome (by omega)
      rw [hs1] at h
      simp at h

/-- C3: starting from speed = 100 ms, after k completed revolutions with k in
1..4 the speed is 100 − 20k ms, after k completed revolutions with 5 ≤ k, up to
the transition after the 10th, it is 20 ms, and in every state the spin driver
passes through 20 ms ≤ speed ≤ 100 ms. -/
theorem speed_schedule (m : GoMath K) :
    (∀ k : Nat, 1 ≤ k → k ≤ 4 → ∃ s, afterRevolutions m k initialState = some s ∧
      s.speed = (100 - 20 * (k : Int)) * millisecond) ∧
    (∀ k : Nat, 5 ≤ k → k ≤ 10 → ∃ s, afterRevolutions m k initialState = some s ∧
      s.speed = 20 * millisecond) ∧
    (∀ s, SpinReachable m s → 20 * millisecond ≤ s.speed ∧ s.speed ≤ 100 * millisecond) := by
  refine ⟨fun k hk1 hk4 => ?_, fun k hk5 hk10 => ?_, fun s hs => ?_⟩
  · obtain ⟨s, hs, hsp, _⟩ := afterRevolutions_spec m k initialState 4 0 initialState_speed
      initialState_spinCount (by decide) (by omega)
    refine ⟨s, hs, ?_⟩
    rw [hsp]
    have : ((4 - k : Nat) : Int) = 4 - (k : Int) := by omega
    rw [this]
    simp only [maxSpeed, acceleration]
    ring
  · obtain ⟨s, hs, hsp, _⟩ := afterRevolutions_spec m k initialState 4 0 initialState_speed
      initialState_spinCount (by decide) (by omega)
    refine ⟨s, hs, ?_⟩
    rw [hsp]
    have : (4 - k : Nat) = 0 := by omega
    rw [this]
    simp [maxSpeed]
  · obtain ⟨j, hj, hsp⟩ := spinReachable_speed m s hs
    rw [hsp]
    simp only [maxSpeed, acceleration, millisecond]
    constructor <;> omega

/-- C4: for every piece list and ground and every number of ticks of
simulatePieces that run without a panic (one tick included), a piece whose
stopped flag is true before them is after them the same piece: still stopped,
with x, y, vx, vy and glyph unchanged, and the list has the same length. -/
theorem stopped_monotone {K : Type} [LinearOrderedField K] [FloorRing K] (n : Nat)
    (pieces pieces' : List (Piece K)) (ground ground' : Ground)
    (h : runTicks n pieces ground = some (pieces', ground'))
    (i : Nat) (p : Piece K) (hp : pieces[i]? = some p) (hs : p.stopped = true) :
    pieces'.length = pieces.length ∧ pieces'[i]? = some p :=
  ⟨(runTicks_stopped h).1, (runTicks_stopped h).2 i p hp hs⟩

theorem stopped_monotone_witness :
    [restingPiece].length = [restingPiece].length ∧
      ([restingPiece] : List (Piece ℚ))[0]? = some restingPiece :=
  stopped_monotone 1 [restingPiece] [restingPiece] (makeGrid false) (makeGrid false)
    restingPiece_tick 0 restingPiece rfl rfl

/-- C5, the code at the failing input: the piece at (40, 22) thrown straight
down at 1.5 is stopped after one tick, having settled in cell (40, 23), the one
cell marked in ground; its stored (x, y) is still (40, 22), whose integer floor
is the cell (40, 22), not marked in ground. -/
theorem settled_piece_keeps_old_position :
    runTicks 1 [fallingPiece] (makeGrid false) = some ([settledPiece], landedGround) ∧
    settledPiece.stopped = true ∧
    ((candidate fallingPiece).1, (candidate fallingPiece).2.1) = (40, 23) ∧
    index2 landedGround 23 40 = some true ∧ countTrue landedGround = 1 ∧
    (⌊settledPiece.x⌋, ⌊settledPiece.y⌋) = (40, 22) ∧
    index2 landedGround 22 40 = some false := by
  refine ⟨runTicks_fallingPiece, rfl, ?_, by decide, by decide, ?_, by decide⟩
  · rw [candidate_fallingPiece]
  · have hx : ⌊settledPiece.x⌋ = 40 := by simp [settledPiece]
    have hy : ⌊settledPiece.y⌋ = 22 := by simp [settledPiece]
    rw [hx, hy]

/-- C6: for every run of ticks of simulatePieces that does not panic (one tick
included), every cell (x, y) with ground[y][x] true before is true after, and
the number of true ground cells does not decrease. -/
theorem ground_monotone {K : Type} [LinearOrderedField K] [FloorRing K] (n : Nat)
    (pieces pieces' : List (Piece K)) (ground ground' : Ground)
    (h : runTicks n pieces ground = some (pieces', ground')) :
    (∀ y x : Int, index2 ground y x = some true → index2 ground' y x = some true) ∧
      countTrue ground ≤ countTrue ground' :=
  runTicks_ground h

theorem ground_monotone_witness :
    (∀ y x : Int, index2 (makeGrid false) y x = some true → index2 landedGround y x = some true) ∧
      countTrue (makeGrid false) ≤ countTrue landedGround :=
  ground_monotone 1 [fallingPiece] [settledPiece] (makeGrid false) landedGround
    runTicks_fallingPiece

/-- C7, as amended: for every initial piece list and every run of ticks from an
all-false ground that does not panic, the number of true ground cells is at most
the number of pieces that became stopped during the run (a piece marks at most
one cell, on the tick it settles); nothing keeps two pieces out of the same
cell. -/
theorem ground_cells_le_settled {K : Type} [LinearOrderedField K] [FloorRing K] (n : Nat)
    (pieces pieces' : List (Piece K)) (ground' : Ground)
    (h : runTicks n pieces (makeGrid false) = some (pieces', ground')) :
    countTrue ground' + pieces.countP (fun p => p.stopped) ≤
      pieces'.countP (fun p => p.stopped) := by
  have := runTicks_settled_count h
  rw [countTrue_makeGrid] at this
  simpa using this

theorem ground_cells_le_settled_witness :
    countTrue landedGround + [fallingPiece, slantingPiece].countP (fun p => p.stopped) ≤
      [settledPiece, settledSlanting].countP (fun p => p.stopped) :=
  ground_cells_le_settled 1 [fallingPiece, slantingPiece] [settledPiece, settledSlanting]
    landedGround runTicks_two_pieces

/-- C7 fails as stated: from an all-false ground, two distinct unstopped pieces
whose cells on the first tick are both (40, 23) are both stopped after that
tick, and the ground then has the single true cell (40, 23). -/
theorem two_pieces_one_cell :
    fallingPiece.stopped = false ∧ slantingPiece.stopped = false ∧
    ((candidate fallingPiece).1, (candidate fallingPiece).2.1) = (40, 23) ∧
    ((candidate slantingPiece).1, (candidate slantingPiece).2.1) = (40, 23) ∧
    runTicks 1 [fallingPiece, slantingPiece] (makeGrid false)
      = some ([settledPiece, settledSlanting], landedGround) ∧
    settledPiece.stopped = true ∧ settledSlanting.stopped = true ∧
    index2 landedGround 23 40 = some true ∧ countTrue landedGround = 1 := by
  refine ⟨rfl, rfl, ?_, ?_, runTicks_two_pieces, rfl, rfl, by decide, by decide⟩
  · rw [candidate_fallingPiece]
  · rw [candidate_slantingPiece]

/-- C8: for every pair of hand angles breakApartAnimation builds the frame
circle, markers, hour hand (length 6, 'h'), minute hand (length 8, 'm') without
a panic and hands simulatePieces the specification's piece list of that frame:
exactly one piece per non-blank cell, in row-major order, the piece for cell
(x, y) at position (x, y) with that cell's glyph, stopped = false and velocity
(1.5·dx/d, 1.5·dy/d), dx = x − 40, dy = y − 12, d = √(dx² + dy²) replaced by 1
when it is 0, so that the divisor is never 0. -/
theorem breakApart_pieces {K : Type} [LinearOrderedField K] [FloorRing K] (m : GoMath K)
    (minuteAngle hourAngle : K) :
    ∃ g1 g2 g3 grid,
      drawCircle m (makeGrid ' ') = some g1 ∧ drawMarkers m g1 = some g2 ∧
      drawHand m g2 hourAngle 6 'h' = some g3 ∧ drawHand m g3 minuteAngle 8 'm' = some grid ∧
      scanPieces m grid = some (specPieces m grid) ∧
      (∀ fuel, breakApartAnimation m fuel minuteAngle hourAngle =
        simulatePieces fuel (specPieces m grid)) ∧
      (specPieces m grid).length = countNonBlank grid ∧
      (∀ x y : Int,
        (if m.sqrt (((x : K) - 40) ^ 2 + ((y : K) - 12) ^ 2) = 0 then (1 : K)
          else m.sqrt (((x : K) - 40) ^ 2 + ((y : K) - 12) ^ 2)) ≠ 0) := by
  obtain ⟨g1, h1, hs1⟩ := drawCircle_shaped m (makeGrid ' ') (shaped_makeGrid ' ')
  obtain ⟨g2, h2, hs2⟩ := drawMarkers_shaped m g1 hs1
  obtain ⟨g3, h3, hs3⟩ := drawHand_shaped m g2 hourAngle 6 'h' hs2
  obtain ⟨g4, h4, hs4⟩ := drawHand_shaped m g3 minuteAngle 8 'm' hs3
  have hscan := scanPieces_spec m g4 hs4
  have h3' : drawHand m g2 hourAngle (height / 4) 'h' = some g3 := h3
  have h4' : drawHand m g3 minuteAngle (height / 2 - 4) 'm' = some g4 := h4
  refine ⟨g1, g2, g3, g4, h1, h2, h3, h4, hscan, fun fuel => ?_, gridPieces_length m 0 g4,
    fun x y => ?_⟩
  · simp [breakApartAnimation, composeFrame, h1, h2, h3', h4', hscan]
  · split
    · exact one_ne_zero
    · assumption

/-- C9: for every grid, every real angle, every length and every symbol, no
step i ≥ 1 of drawHand has round(40 + 2·i·sin θ) = 40 and round(12 − i·cos θ) =
12, so a drawHand that does not panic leaves the centre cell (40, 12) as it
was; on a grid of 24 rows of 80 cells drawHand does not panic. -/
theorem drawHand_keeps_center (grid : Grid) (angle : ℝ) (length : Int) (symbol : Char) :
    (∀ i : Int, 1 ≤ i → handCell realMath angle i ≠ (40, 12)) ∧
    (∀ g', drawHand realMath grid angle length symbol = some g' →
      index2 g' 12 40 = index2 grid 12 40) ∧
    (Shaped grid → ∃ g', drawHand realMath grid angle length symbol = some g' ∧
      index2 g' 12 40 = index2 grid 12 40) := by
  have hsc : realMath.sin angle ^ 2 + realMath.cos angle ^ 2 = 1 :=
    Real.sin_sq_add_cos_sq angle
  refine ⟨fun i hi => handCell_ne_center realMath angle i hsc hi,
    fun g' h => drawHand_center realMath grid g' angle length symbol hsc h, fun hs => ?_⟩
  obtain ⟨g', hg', _⟩ := drawHand_shaped realMath grid angle length symbol hs
  exact ⟨g', hg', drawHand_center realMath grid g' angle length symbol hsc hg'⟩

/-- C10: for every real angle, length L ≥ 0 and symbol, on a grid of 24 rows of
80 cells none of which equals symbol, drawHand does not panic, afterwards at
most L cells equal symbol, and every such cell (x, y) has
√(((x − 40)·0.5)² + (y − 12)²) ≤ L + 1. -/
theorem drawHand_length_bound (grid : Grid) (angle : ℝ) (length : Int) (symbol : Char)
    (hlen : 0 ≤ length) (hshape : Shaped grid)
    (hnone : ∀ y x : Int, index2 grid y x ≠ some symbol) :
    ∃ g', drawHand realMath grid angle length symbol = some g' ∧
      (countCells symbol g' : Int) ≤ length ∧
      ∀ x y : Int, index2 g' y x = some symbol →
        Real.sqrt ((((x : ℝ) - 40) * (1 / 2)) ^ 2 + ((y : ℝ) - 12) ^ 2) ≤ (length : ℝ) + 1 := by
  obtain ⟨g', hg', _, hcount, hcells⟩ :=
    drawHand_cells realMath grid angle length symbol hlen hshape
  refine ⟨g', hg', ?_, fun x y hxy => ?_⟩
  · rw [countCells_eq_zero symbol grid hnone] at hcount
    simpa using hcount
  · rcases hcells y x hxy with h | ⟨j, hj1, hjL, hcell⟩
    · exact absurd h (hnone y x)
    · have hm := handCell_metric angle j (by omega)
      rw [hcell] at hm
      have hjL' : (j : ℝ) ≤ (length : ℝ) := by exact_mod_cast hjL
      linarith

theorem drawHand_length_bound_witness :
    ∃ g', drawHand realMath (makeGrid ' ') 0 6 'h' = some g' ∧
      (countCells 'h' g' : Int) ≤ 6 ∧
      ∀ x y : Int, index2 g' y x = some 'h' →
        Real.sqrt ((((x : ℝ) - 40) * (1 / 2)) ^ 2 + ((y : ℝ) - 12) ^ 2) ≤ ((6 : Int) : ℝ) + 1 :=
  drawHand_length_bound (makeGrid ' ') 0 6 'h' (by decide) (shaped_makeGrid ' ')
    index2_makeGrid_blank

/-- C11: for every grid of 24 rows of 80 cells, every angle and every length
(lengths whose points fall outside the grid included), drawHand does not panic
(it makes no out-of-range write) and returns a grid of 24 rows of 80 cells in
which each cell is unchanged or equal to symbol; likewise drawCircle and
drawMarkers do not panic and return a grid of 24 rows of 80 cells. -/
theorem draws_stay_in_bounds {K : Type} [LinearOrderedField K] [FloorRing K] (m : GoMath K)
    (grid : Grid) (hshape : Shaped grid) (angle : K) (length : Int) (symbol : Char) :
    (∃ g', drawHand m grid angle length symbol = some g' ∧ Shaped g' ∧
      ∀ y x : Int, index2 g' y x = index2 grid y x ∨ index2 g' y x = some symbol) ∧
    (∃ g', drawCircle m grid = some g' ∧ Shaped g') ∧
    (∃ g', drawMarkers m grid = some g' ∧ Shaped g') :=
  ⟨drawHand_frame m grid angle length symbol hshape, drawCircle_shaped m grid hshape,
    drawMarkers_shaped m grid hshape⟩

theorem draws_stay_in_bounds_witness :
    (∃ g', drawHand realMath (makeGrid ' ') 0 100 'h' = some g' ∧ Shaped g' ∧
      ∀ y x : Int, index2 g' y x = index2 (makeGrid ' ') y x ∨ index2 g' y x = some 'h') ∧
    (∃ g', drawCircle realMath (makeGrid ' ') = some g' ∧ Shaped g') ∧
    (∃ g', drawMarkers realMath (makeGrid ' ') = some g' ∧ Shaped g') :=
  draws_stay_in_bounds realMath (makeGrid ' ') (shaped_makeGrid ' ') 0 100 'h'

/-- C12: drawCircle on a blank 80×24 grid does not panic, and afterwards for all
integers k and y such that (40 + k, y) is a grid cell holding '*', the cell
(40 − k, y) is also inside the grid and holds '*' (exact real arithmetic); the
cell (20, 12) is one holding '*'. -/
theorem circle_symmetric :
    ∃ g', drawCircle realMath (makeGrid ' ') = some g' ∧
      (∀ k y : Int, index2 g' y (40 + k) = some '*' → index2 g' y (40 - k) = some '*') ∧
      index2 g' 12 20 = some '*' := by
  obtain ⟨g', h, _, hcomplete, hsound⟩ :=
    drawCircle_spec realMath (makeGrid ' ') (shaped_makeGrid ' ')
  refine ⟨g', h, fun k y hstar => ?_, hcomplete 12 20 (by decide) (by decide) (by decide)
    (by decide) onCircle_left⟩
  rcases hsound y (40 + k) hstar with hblank | ⟨hy0, hy, hx0, hx, hc⟩
  · exact absurd (index2_makeGrid_eq ' ' '*' y (40 + k) hblank) (by decide)
  · have hk : k ≠ -40 := by
      rintro rfl
      exact not_onCircle_zero y hc
    exact hcomplete y (40 - k) hy0 hy (by omega) (by omega) (onCircle_mirror k y hc)

/-- C14: for every unstopped piece and every tick that does not panic, if the
integer column of the candidate x + vx is < 0 or ≥ 80 then vx is negated and
the candidate becomes x − vx (old vx), otherwise vx is unchanged and the
candidate is x + vx; the candidate y = y + vy + 0.2 does not depend on the
rebound; |vx| after the tick equals |vx| before it; a piece that goes on
moving is at the candidate. The piece at (1, 12) with vx = −2, vy = 0 and empty
ground is, after one tick, at x = 3 in cell (3, 12) with vx = +2 and vy = 0.2,
not stopped. -/
theorem wall_reflection :
    (∀ (K : Type) [LinearOrderedField K] [FloorRing K] (p p' : Piece K) (st st' : TickState),
      stepPiece p st = some (p', st') → p.stopped = false →
      ((goInt (p.x + p.vx) < 0 ∨ goInt (p.x + p.vx) ≥ 80) →
        p'.vx = -p.vx ∧ (candidate p).2.2.2 = p.x - p.vx ∧
          (candidate p).1 = goInt (p.x - p.vx)) ∧
      (¬ (goInt (p.x + p.vx) < 0 ∨ goInt (p.x + p.vx) ≥ 80) →
        p'.vx = p.vx ∧ (candidate p).2.2.2 = p.x + p.vx ∧
          (candidate p).1 = goInt (p.x + p.vx)) ∧
      (candidate p).2.1 = goInt (p.y + p.vy + 2 / 10) ∧
      |p'.vx| = |p.vx| ∧ p'.vy = p.vy + 2 / 10 ∧
      (p'.stopped = false → p'.x = (candidate p).2.2.2 ∧ p'.y = p.y + p.vy + 2 / 10)) ∧
    (runTicks 1 [bouncingPiece] (makeGrid false) = some ([bouncedPiece], makeGrid false) ∧
      ((candidate bouncingPiece).1, (candidate bouncingPiece).2.1) = (3, 12) ∧
      bouncedPiece.x = 3 ∧ bouncedPiece.vx = 2 ∧ bouncedPiece.vy = 2 / 10 ∧
      bouncedPiece.stopped = false) := by
  constructor
  · intro K _ _ p p' st st' h hs
    obtain ⟨hvx, hvy, _, hmove, _⟩ := stepPiece_unstopped h hs
    have hy : (candidate p).2.1 = goInt (p.y + p.vy + 2 / 10) := by
      rw [candidate_y, gravity, add_assoc]
    have hmove' : p'.stopped = false →
        p'.x = (candidate p).2.2.2 ∧ p'.y = p.y + p.vy + 2 / 10 := by
      intro h1
      obtain ⟨hx1, hy1, _⟩ := hmove h1
      exact ⟨hx1, by rw [hy1, gravity, add_assoc]⟩
    have hvy' : p'.vy = p.vy + 2 / 10 := by rw [hvy, gravity]
    by_cases hr : goInt (p.x + p.vx) < 0 ∨ goInt (p.x + p.vx) ≥ 80
    · have hc := candidate_reflect p hr
      refine ⟨fun _ => ?_, fun hn => absurd hr hn, hy, ?_, hvy', hmove'⟩
      · rw [hvx, hc]
        exact ⟨rfl, by ring, by rw [sub_eq_add_neg]⟩
      · rw [hvx, hc]
        exact abs_neg _
    · have hc := candidate_straight p hr
      refine ⟨fun hp => absurd hp hr, fun _ => ?_, hy, ?_, hvy', hmove'⟩
      · rw [hvx, hc]
        exact ⟨rfl, rfl, rfl⟩
      · rw [hvx, hc]
  · refine ⟨runTicks_bouncingPiece, ?_, rfl, rfl, ?_, rfl⟩
    · rw [candidate_bouncingPiece]
    · simp only [bouncedPiece]
      norm_num

/-- C15: for a single piece starting at (x0, y0) with 0 ≤ x0 < 80, vx = 0, vy = 0
and all-false ground, for every n such that the integer part of y0 + 0.1·k(k+1)
is below 23 for k = 1..n (the piece has not settled during ticks 1..n), after n
ticks the piece is unstopped with x = x0, vx = 0, vy = 0.2·n and y = y0 +
0.1·n(n+1), the ground still all false; and if the integer part of y0 +
0.1·(n+1)(n+2) is ≥ 23, the piece settles on tick n+1: simulatePieces exits
after n+1 ticks with the piece stopped at the position it had after n ticks. -/
theorem free_fall {K : Type} [LinearOrderedField K] [FloorRing K] (x0 y0 : K) (c : Char)
    (hx0 : 0 ≤ x0) (hx : x0 < 80) (n : Nat)
    (hn : ∀ k : Nat, 1 ≤ k → k ≤ n → goInt (y0 + 1 / 10 * (k : K) * ((k : K) + 1)) < 23) :
    runTicks n [{ x := x0, y := y0, vx := 0, vy := 0, char := c, stopped := false }]
        (makeGrid false) =
      some ([{ x := x0, y := y0 + 1 / 10 * (n : K) * ((n : K) + 1), vx := 0,
               vy := 2 / 10 * (n : K), char := c, stopped := false }], makeGrid false) ∧
    (goInt (y0 + 1 / 10 * ((n : K) + 1) * ((n : K) + 1 + 1)) ≥ 23 →
      ∃ p' ground',
        simulatePieces (n + 1)
            [{ x := x0, y := y0, vx := 0, vy := 0, char := c, stopped := false }] =
          SimResult.exited (n + 1) [p'] ground' ∧
        p'.stopped = true ∧ p'.x = x0 ∧ p'.y = y0 + 1 / 10 * (n : K) * ((n : K) + 1)) := by
  have hn' : ∀ j : Nat, 0 < j → j ≤ 0 + n →
      goInt (y0 + 1 / 10 * (j : K) * ((j : K) + 1)) < 23 :=
    fun j hj1 hj2 => hn j hj1 (by omega)
  constructor
  · have h := runTicks_freeFall x0 y0 c hx0 hx n 0 hn'
    rw [freeFallPiece_zero, zero_add] at h
    exact h
  · intro hlast
    obtain ⟨p', g', h, hs, hpx, hpy⟩ := simulateLoop_freeFall x0 y0 c hx0 hx n 0 0 hn'
      (by
        have e : (((0 + n + 1 : Nat) : K)) = (n : K) + 1 := by push_cast; ring
        rw [e]
        exact hlast)
    rw [freeFallPiece_zero] at h
    refine ⟨p', g', ?_, hs, hpx, ?_⟩
    · have e : 0 + n + 1 = n + 1 := by omega
      rw [e] at h
      exact h
    · rw [hpy]
      simp

theorem free_fall_witness :
    runTicks 12 [({ x := 10, y := 5, vx := 0, vy := 0, char := '*', stopped := false } : Piece ℚ)]
        (makeGrid false) =
      some ([{ x := 10, y := 5 + 1 / 10 * ((12 : Nat) : ℚ) * (((12 : Nat) : ℚ) + 1), vx := 0,
               vy := 2 / 10 * ((12 : Nat) : ℚ), char := '*', stopped := false }],
        makeGrid false) ∧
    ∃ p' ground',
      simulatePieces (12 + 1)
          [({ x := 10, y := 5, vx := 0, vy := 0, char := '*', stopped := false } : Piece ℚ)] =
        SimResult.exited (12 + 1) [p'] ground' ∧
      p'.stopped = true ∧ p'.x = 10 ∧
      p'.y = 5 + 1 / 10 * ((12 : Nat) : ℚ) * (((12 : Nat) : ℚ) + 1) := by
  have h := free_fall (K := ℚ) 10 5 '*' (by norm_num) (by norm_num) 12 (by
    intro k hk1 hk12
    rw [goInt_lt_iff _ 23 (by decide)]
    have h12 : (k : ℚ) ≤ 12 := by exact_mod_cast hk12
    have h0 : (0 : ℚ) ≤ (k : ℚ) := Nat.cast_nonneg k
    push_cast
    nlinarith)
  refine ⟨h.1, h.2 ?_⟩
  have hge : (23 : ℚ) ≤ 5 + 1 / 10 * (((12 : Nat) : ℚ) + 1) * (((12 : Nat) : ℚ) + 1 + 1) := by
    norm_num
  by_contra hlt
  have := (goInt_lt_iff _ 23 (by decide)).mp (lt_of_not_ge hlt)
  push_cast at this
  linarith

/-- C16, as amended: for the piece list [(5, 22), (5, 21)] with vx = vy = 0 and
all-false ground, after ticks 1 and 2 neither piece is stopped and the ground is
still all false (the first piece is at y = 22.2, then 22.6); on tick 3 the first
piece, whose cell is (5, 23), settles with ground[23][5] = true, and on the same
tick the second piece, whose cell is (5, 22), seeing ground[23][5] = true at its
y+1, settles with ground[22][5] = true; the simulator exits after tick 3. -/
theorem pile_stacking :
    runTicks 1 [stackLower, stackUpper] (makeGrid false) =
      some ([stackLower1, stackUpper1], makeGrid false) ∧
    runTicks 2 [stackLower, stackUpper] (makeGrid false) =
      some ([stackLower2, stackUpper2], makeGrid false) ∧
    stackLower2.stopped = false ∧ stackUpper2.stopped = false ∧
    ((candidate stackLower2).1, (candidate stackLower2).2.1) = (5, 23) ∧
    ((candidate stackUpper2).1, (candidate stackUpper2).2.1) = (5, 22) ∧
    runTicks 3 [stackLower, stackUpper] (makeGrid false) =
      some ([stackLower3, stackUpper3], stackedGround) ∧
    stackLower3.stopped = true ∧ stackUpper3.stopped = true ∧
    index2 stackedGround 23 5 = some true ∧ index2 stackedGround 22 5 = some true ∧
    countTrue stackedGround = 2 ∧
    simulatePieces 3 [stackLower, stackUpper] =
      SimResult.exited 3 [stackLower3, stackUpper3] stackedGround := by
  refine ⟨runTicks_stack_one, runTicks_stack_two, rfl, rfl, ?_, ?_, runTicks_stack_three,
    rfl, rfl, by decide, by decide, by decide, simulatePieces_stack⟩
  · rw [candidate_stackLower2]
  · rw [candidate_stackUpper2]

/-- C16 fails as stated: after tick 1 the first piece is not stopped (it has
moved to y = 22.2 with vy = 0.2) and ground[23][5] is still false. -/
theorem first_piece_moving_after_tick_one :
    runTicks 1 [stackLower, stackUpper] (makeGrid false) =
      some ([stackLower1, stackUpper1], makeGrid false) ∧
    stackLower1.stopped = false ∧ stackLower1.y = 111 / 5 ∧
    index2 (makeGrid false) 23 5 = some false :=
  ⟨runTicks_stack_one, rfl, rfl, by decide⟩

/-- C17, as amended: with angles starting at 0 and advanced by π/12 (minute) and
π/144 (hour) on every step, at the moment the spin driver calls the break-apart
transition, after its 10 revolutions, minute_angle = 10·24·π/12 = 20π and
hour_angle = 10·24·π/144 = 5π/3 (exact real arithmetic). -/
theorem angles_at_breakApart (fuel : Nat) (hfuel : 10 ≤ fuel) :
    ∃ s, spinDriver realMath fuel initialState = some (10, s) ∧
      s.minuteAngle = 20 * Real.pi ∧ s.hourAngle = 5 * Real.pi / 3 := by
  obtain ⟨s, hs, _, _, hm, hh⟩ := (spinDriver_spec realMath fuel initialState 4 0
    initialState_speed initialState_spinCount (by decide)).2 (by omega)
  refine ⟨s, hs, ?_, ?_⟩
  · rw [hm]
    simp only [initialState, realMath]
    push_cast
    ring
  · rw [hh]
    simp only [initialState, realMath]
    push_cast
    ring

theorem angles_at_breakApart_witness :
    ∃ s, spinDriver realMath 10 initialState = some (10, s) ∧
      s.minuteAngle = 20 * Real.pi ∧ s.hourAngle = 5 * Real.pi / 3 :=
  angles_at_breakApart 10 (le_refl 10)

/-- C17 fails as stated: whatever number of revolutions is allowed, the spin
driver never calls the break-apart transition with minute_angle = 22π. -/
theorem minute_angle_not_22_pi :
    ¬ ∃ fuel n s, spinDriver realMath fuel initialState = some (n, s) ∧
      s.minuteAngle = 22 * Real.pi := by
  rintro ⟨fuel, n, s, h, hm⟩
  obtain ⟨hnone, hsome⟩ := spinDriver_spec realMath fuel initialState 4 0 initialState_speed
    initialState_spinCount (by decide)
  by_cases hf : fuel < 4 + (6 - 0)
  · rw [hnone hf] at h
    exact absurd h (by simp)
  · obtain ⟨s1, hs1, _, _, hm1, _⟩ := hsome (by omega)
    rw [hs1] at h
    simp only [Option.some.injEq, Prod.mk.injEq] at h
    obtain ⟨_, rfl⟩ := h
    rw [hm1] at hm
    simp only [initialState, realMath] at hm
    push_cast at hm
    have hpi := Real.pi_pos
    nlinarith

/-- C18, as amended: for every tick that does not panic and every unstopped
piece whose integer row int(newY) is < 0, that is whose candidate newY = y + vy
+ 0.2 is ≤ −1, the tick writes no glyph for that piece into the frame, and when
the piece does not settle its position is updated to the candidate (newX,
newY). -/
theorem offscreen_not_drawn {K : Type} [LinearOrderedField K] [FloorRing K]
    (p p' : Piece K) (st st' : TickState) (h : stepPiece p st = some (p', st'))
    (hs : p.stopped = false) (hy : p.y + (p.vy + 2 / 10) ≤ -1) :
    (candidate p).2.1 < 0 ∧ st'.grid = st.grid ∧
      (p'.stopped = false → p'.x = (candidate p).2.2.2 ∧ p'.y = p.y + (p.vy + 2 / 10)) := by
  have hrow : (candidate p).2.1 < 0 := by
    rw [candidate_y, goInt_neg_iff]
    exact hy
  refine ⟨hrow, stepPiece_above_screen h hs hrow, fun h1 => ?_⟩
  obtain ⟨_, _, _, hmove, _⟩ := stepPiece_unstopped h hs
  obtain ⟨hx1, hy1, _⟩ := hmove h1
  exact ⟨hx1, hy1⟩

theorem offscreen_not_drawn_witness :
    (candidate hoveringPiece).2.1 < 0 ∧
      ({ ground := makeGrid false, grid := makeGrid ' ', allStopped := false } : TickState).grid
        = ({ ground := makeGrid false, grid := makeGrid ' ', allStopped := true } : TickState).grid ∧
      (hoveredPiece.stopped = false → hoveredPiece.x = (candidate hoveringPiece).2.2.2 ∧
        hoveredPiece.y = hoveringPiece.y + (hoveringPiece.vy + 2 / 10)) :=
  offscreen_not_drawn hoveringPiece hoveredPiece
    { ground := makeGrid false, grid := makeGrid ' ', allStopped := true }
    { ground := makeGrid false, grid := makeGrid ' ', allStopped := false }
    (stepPiece_hoveringPiece _) rfl (by simp only [hoveringPiece]; norm_num)

/-- C18 fails as stated: the unstopped piece at (5, −1) falling at 0.3 has the
negative candidate newY = −0.5, does not settle, and is drawn: int(−0.5) is row
0, and the tick writes its glyph into the frame at (5, 0). -/
theorem negative_candidate_drawn :
    grazingPiece.y + (grazingPiece.vy + 2 / 10) < 0 ∧
    ∃ grid', stepPiece grazingPiece
        { ground := makeGrid false, grid := makeGrid ' ', allStopped := true }
      = some (grazedPiece, { ground := makeGrid false, grid := grid', allStopped := false }) ∧
      grazedPiece.stopped = false ∧
      index2 (makeGrid ' ') 0 5 = some ' ' ∧ index2 grid' 0 5 = some '*' := by
  refine ⟨by simp only [grazingPiece]; norm_num, ?_⟩
  obtain ⟨grid', h, hcell⟩ := stepPiece_grazingPiece
  exact ⟨grid', h, rfl, by decide, hcell⟩

/-- C19: if every piece initially has −1 < x < 80 and |vx| ≤ 1.5, then after
every number of ticks from an all-false ground the simulator has not panicked,
every piece still has −1 < x < 80 and |vx| ≤ 1.5, its integer column after the
reflection step is in [0, 79], and the read ground[y+1][x] of the settling test
is in range whenever 0 ≤ y+1 < 24; every piece list scanned by
breakApartAnimation (over the reals) satisfies the precondition. -/
theorem ground_read_in_range :
    (∀ (K : Type) [LinearOrderedField K] [FloorRing K] (pieces : List (Piece K)),
      (∀ p ∈ pieces, -1 < p.x ∧ p.x < 80 ∧ |p.vx| ≤ 3 / 2) →
      ∀ n : Nat, ∃ pieces' ground', runTicks n pieces (makeGrid false) = some (pieces', ground') ∧
        ∀ p ∈ pieces', (-1 < p.x ∧ p.x < 80 ∧ |p.vx| ≤ 3 / 2) ∧
          0 ≤ (candidate p).1 ∧ (candidate p).1 < 80 ∧
          ∀ y : Int, 0 ≤ y + 1 → y + 1 < 24 →
            ∃ b, index2 ground' (y + 1) (candidate p).1 = some b) ∧
    (∀ minuteAngle hourAngle : ℝ, ∃ grid,
      composeFrame realMath minuteAngle hourAngle = some grid ∧
      scanPieces realMath grid = some (specPieces realMath grid) ∧
      ∀ p ∈ specPieces realMath grid, -1 < p.x ∧ p.x < 80 ∧ |p.vx| ≤ 3 / 2) := by
  constructor
  · intro K _ _ pieces hp n
    obtain ⟨ps', g', h, hg', hp'⟩ := runTicks_column n pieces (makeGrid false)
      (shaped_makeGrid false) hp
    refine ⟨ps', g', h, fun p hmem => ?_⟩
    obtain ⟨hx0, hx, hvx⟩ := hp' p hmem
    obtain ⟨hc0, hc1, _⟩ := candidate_inRange p hx0 hx (lt_of_le_of_lt hvx (by norm_num))
    exact ⟨⟨hx0, hx, hvx⟩, hc0, hc1, fun y hy0 hy1 => index2_isSome hg' hy0 hy1 hc0 hc1⟩
  · intro minuteAngle hourAngle
    obtain ⟨grid, hgrid, hs⟩ := composeFrame_shaped realMath minuteAngle hourAngle
    refine ⟨grid, hgrid, scanPieces_spec realMath grid hs, fun p hp => ?_⟩
    obtain ⟨row, hrow, k, y', c, hk, rfl⟩ := mem_gridPieces realMath 0 grid p hp
    have hlen := hs.2 row hrow
    refine ⟨?_, ?_, specPiece_vx_le (k : Int) y' c⟩
    · simp only [specPiece]
      have : (0 : ℝ) ≤ ((k : Int) : ℝ) := by exact_mod_cast Nat.zero_le k
      linarith
    · simp only [specPiece]
      have hk80 : k < 80 := by omega
      have : ((k : Int) : ℝ) < 80 := by exact_mod_cast hk80
      exact this

/-- C20: in every simulator state reached from an all-false ground by a run of
ticks that does not panic, for every cell (x, y) with ground[y][x] true and
y < 23, ground[y+1][x] is also true. -/
theorem pile_supported {K : Type} [LinearOrderedField K] [FloorRing K] (n : Nat)
    (pieces pieces' : List (Piece K)) (ground' : Ground)
    (h : runTicks n pieces (makeGrid false) = some (pieces', ground')) :
    ∀ y x : Int, index2 ground' y x = some true → y < 23 →
      index2 ground' (y + 1) x = some true :=
  runTicks_supported h supported_makeGrid

theorem pile_supported_witness : index2 stackedGround (22 + 1) 5 = some true :=
  pile_supported 3 [stackLower, stackUpper] [stackLower3, stackUpper3] stackedGround
    runTicks_stack_three 22 5 (by decide) (by decide)

end Claims

end Clock
